import Mathlib

/-!
# Suricata match core: `isdataat` and `flowvar`

A shallow embedding of `src/detect-isdataat.c` and `src/detect-flowvar.c`.

Conventions of the embedding

* C integers are `Nat` (values of `uint16_t` and friends) or `Int` (the
  `int` return codes `1`, `0`, `-1`); a narrowing conversion is written
  with an explicit `% 65536`.
* A C string is the `List Nat` of its bytes before the terminating NUL;
  `cstr` turns a Lean string literal into such a list.
* A byte buffer handed around as `(pointer, length)` is a pair of the bytes
  at the pointer (`List Nat`) and the length field.
* A linked list (`->next`) is a `List` in the same order, head first.
* An allocation that the source checks for failure takes its outcome as a
  `Bool` argument (`true`: the allocator returned memory).
-/

namespace Suricata

/-! ## Bytes and C strings -/

/-- The bytes of a string literal, as a C string. -/
def cstr (s : String) : List Nat := s.toList.map Char.toNat

/-! ## `detect-isdataat.c`: the runtime predicate -/

/-- Modelled from the spec: `DetectIsdataatData` is declared in
`detect-isdataat.h`, which is not among the sources, together with the bit
constants `ISDATAAT_RELATIVE`, `ISDATAAT_RAWBYTES`, `ISDATAAT_NEGATED` and
`ISDATAAT_OFFSET_BE`.  The spec gives the descriptor as
`{ offset_source, relative: bool, rawbytes: bool, negated: bool }`; here
`dataat` is the `uint16_t` field and each test `flags & ISDATAAT_X` of the
source is one `Bool` field. -/
structure DetectIsdataatData where
  /-- Field `dataat`: the literal offset, or the byte-extract local id. -/
  dataat : Nat
  /-- Bit `flags & ISDATAAT_RELATIVE`. -/
  relative : Bool
  /-- Bit `flags & ISDATAAT_RAWBYTES`. -/
  rawbytes : Bool
  /-- Bit `flags & ISDATAAT_NEGATED`. -/
  negated : Bool
  /-- Bit `flags & ISDATAAT_OFFSET_BE`. -/
  offset_be : Bool
deriving DecidableEq, Repr

/-- Function `DetectIsdataatMatch` (detect-isdataat.c:111-128).  `payload_len` is
`p->payload_len`, `idad` is `(DetectIsdataatData *)m->ctx`.  The thread
context, the signature and the rest of the packet are not read. -/
def DetectIsdataatMatch (payload_len : Nat) (idad : DetectIsdataatData) : Int :=
  if idad.relative then 1
  else if payload_len ≥ idad.dataat then 1
  else 0

/-! ## `detect-flowvar.c`: pending store and commit -/

/-- Modelled from the spec: `FlowVar` (flow-var.h is not among the sources),
restricted to the string variant the flowvar keyword uses: the key `idx`
and `data.fv_str.value` / `data.fv_str.value_len`. -/
structure FlowVar where
  idx : Nat
  value : List Nat
  value_len : Nat
deriving DecidableEq, Repr

/-- Modelled from the spec: the part of `Flow` this code touches, its
variable table ("FlowVariable: owned by a Flow; keyed by var_index"), as the
list of its variables. -/
structure Flow where
  flowvar : List FlowVar
deriving DecidableEq, Repr

/-- Modelled from the spec: `FlowVarGet` (flow-var.c is not among the
sources) is the flow object's `get(var_index) -> Option<&[u8]>`: the
variable stored under `idx`, if there is one. -/
def FlowVarGet (f : Flow) (idx : Nat) : Option FlowVar :=
  f.flowvar.find? (fun fv => fv.idx == idx)

/-- Replace the value of the first variable keyed `idx`. -/
def flowVarUpdate (idx : Nat) (value : List Nat) (size : Nat) : List FlowVar → List FlowVar
  | [] => []
  | fv :: rest =>
    if fv.idx == idx then { idx := idx, value := value, value_len := size } :: rest
    else fv :: flowVarUpdate idx value size rest

/-- Modelled from the spec: `FlowVarAddStr` (flow-var.c is not among the
sources) is the flow object's `set(var_index, bytes: owned)`, which
"replaces, transfers ownership"; the table "holds the last committed byte
buffer; last-write-wins".  A present variable gets the new value, an absent
one is added at the end of the table. -/
def FlowVarAddStr (f : Flow) (idx : Nat) (value : List Nat) (size : Nat) : Flow :=
  match FlowVarGet f idx with
  | some _ => { flowvar := flowVarUpdate idx value size f.flowvar }
  | none => { flowvar := f.flowvar ++ [{ idx := idx, value := value, value_len := size }] }

/-- One node of the pending list, `DetectFlowvarList` (`idx`, `len`,
`buffer`; `next` is the tail of the Lean list). -/
structure DetectFlowvarList where
  idx : Nat
  len : Nat
  buffer : List Nat
deriving DecidableEq, Repr

/-- The part of `DetectEngineThreadCtx` this code touches: the head of the
pending list, `det_ctx->flowvarlist`. -/
structure DetectEngineThreadCtx where
  flowvarlist : List DetectFlowvarList
deriving DecidableEq, Repr

/-- The part of `Packet` this code touches: `p->payload_len` and `p->flow`
(`none` is the NULL pointer). -/
structure Packet where
  payload_len : Nat
  flow : Option Flow
deriving DecidableEq, Repr

/-- The search loop of `DetectFlowvarStoreMatch` (detect-flowvar.c:285-292)
followed by lines 305-306 on the node found: the first node with `idx` gets
the new length and buffer (its old buffer is freed).  `none` when the loop
ends with `fs == NULL`. -/
def storeReplace (idx : Nat) (buffer : List Nat) (len : Nat) :
    List DetectFlowvarList → Option (List DetectFlowvarList)
  | [] => none
  | fs :: rest =>
    if fs.idx == idx then some ({ idx := fs.idx, len := len, buffer := buffer } :: rest)
    else (storeReplace idx buffer len rest).map (fun r => fs :: r)

/-- Function `DetectFlowvarStoreMatch` (detect-flowvar.c:281-308).  `malloc_ok` is
the outcome of `SCMalloc(sizeof(*fs))`, consulted only when no node with
`idx` exists. -/
def DetectFlowvarStoreMatch (malloc_ok : Bool) (det_ctx : DetectEngineThreadCtx)
    (idx : Nat) (buffer : List Nat) (len : Nat) : Int × DetectEngineThreadCtx :=
  match storeReplace idx buffer len det_ctx.flowvarlist with
  | some l => (0, { flowvarlist := l })
  | none =>
    if malloc_ok then
      (0, { flowvarlist := { idx := idx, len := len, buffer := buffer } :: det_ctx.flowvarlist })
    else (-1, det_ctx)

/-- The descriptor `DetectFlowvarData` (`name`, `idx`, `content`,
`content_len`, `flags`), shared by the flowvar node and the post-match
node.  `name = none` is the NULL pointer. -/
structure DetectFlowvarData where
  name : Option (List Nat)
  idx : Nat
  content : List Nat
  content_len : Nat
  flags : Nat
deriving DecidableEq, Repr

/-- The `while` loop of `DetectFlowvarPostMatch` (detect-flowvar.c:354-373):
every node whose index is `idx` is handed to `FlowVarAddStr` and unlinked,
the others are kept in order. -/
def postMatchLoop (idx : Nat) : List DetectFlowvarList → Flow → List DetectFlowvarList × Flow
  | [], f => ([], f)
  | fs :: rest, f =>
    if idx == fs.idx then postMatchLoop idx rest (FlowVarAddStr f fs.idx fs.buffer fs.len)
    else
      let r := postMatchLoop idx rest f
      (fs :: r.1, r.2)

/-- Function `DetectFlowvarPostMatch` (detect-flowvar.c:343-375).  `fd` is
`(DetectFlowvarData *)sm->ctx`.  Returns the return value, the thread
context and the packet (whose flow is the one written to). -/
def DetectFlowvarPostMatch (det_ctx : DetectEngineThreadCtx) (p : Packet)
    (fd : DetectFlowvarData) : Int × DetectEngineThreadCtx × Packet :=
  match det_ctx.flowvarlist, p.flow with
  | [], _ => (1, det_ctx, p)
  | _ :: _, none => (1, det_ctx, p)
  | fs :: rest, some f =>
    let r := postMatchLoop fd.idx (fs :: rest) f
    (1, { flowvarlist := r.1 }, { p with flow := some r.2 })

/-- Function `DetectFlowvarCleanupList` (detect-flowvar.c:378-391): every node and
its buffer are freed and the head is set to NULL. -/
def DetectFlowvarCleanupList (det_ctx : DetectEngineThreadCtx) : DetectEngineThreadCtx :=
  match det_ctx.flowvarlist with
  | [] => det_ctx
  | _ :: _ => { flowvarlist := [] }

/-! ## `detect-flowvar.c`: the read form -/

/-- First offset at which `needle` starts in `haystack`, counting from `off`. -/
def spmScan (needle : List Nat) : List Nat → Nat → Option Nat
  | [], off => if needle.isPrefixOf [] then some off else none
  | h :: hs, off => if needle.isPrefixOf (h :: hs) then some off else spmScan needle hs (off + 1)

/-- Modelled from the spec: `SpmSearch` (util-spm.h is not among the
sources) is the pattern-search collaborator
`find(haystack, haystack_len, needle, needle_len) -> Option<offset>`, an
"exact substring search over byte buffers": the offset of the first
occurrence of the first `needle_len` bytes of `needle` within the first
`haystack_len` bytes of `haystack` (`none` is the NULL result). -/
def SpmSearch (haystack : List Nat) (haystack_len : Nat) (needle : List Nat)
    (needle_len : Nat) : Option Nat :=
  spmScan (needle.take needle_len) (haystack.take haystack_len) 0

/-- Function `DetectFlowvarMatch` (detect-flowvar.c:113-132).  `f` is `*p->flow`,
which the function dereferences without a NULL test; `fd` is
`(DetectFlowvarData *)m->ctx`.  The read lock is taken and released around
the body and has no effect on the value computed. -/
def DetectFlowvarMatch (f : Flow) (fd : DetectFlowvarData) : Int :=
  match FlowVarGet f fd.idx with
  | some fv =>
    match SpmSearch fv.value fv.value_len fd.content fd.content_len with
    | some _ => 1
    | none => 0
  | none => 0

/-! ## Signatures and their match lists -/

/-- The keyword kinds (`sm->type`) named in the two source files; the enum
itself is declared in detect.h. -/
inductive SigMatchType where
  | DETECT_CONTENT
  | DETECT_PCRE
  | DETECT_BYTEJUMP
  | DETECT_BYTETEST
  | DETECT_BYTE_EXTRACT
  | DETECT_ISDATAAT
  | DETECT_FLOWVAR
  | DETECT_FLOWVAR_POSTMATCH
deriving DecidableEq, Repr

/-- The list ids `DETECT_SM_LIST_*` named in the two source files. -/
inductive SmList where
  | DETECT_SM_LIST_MATCH
  | DETECT_SM_LIST_PMATCH
  | DETECT_SM_LIST_UMATCH
  | DETECT_SM_LIST_HCBDMATCH
  | DETECT_SM_LIST_HSBDMATCH
  | DETECT_SM_LIST_HHDMATCH
  | DETECT_SM_LIST_HRHDMATCH
  | DETECT_SM_LIST_HMDMATCH
  | DETECT_SM_LIST_HCDMATCH
  | DETECT_SM_LIST_HRUDMATCH
  | DETECT_SM_LIST_HSMDMATCH
  | DETECT_SM_LIST_HSCDMATCH
  | DETECT_SM_LIST_HUADMATCH
  | DETECT_SM_LIST_HHHDMATCH
  | DETECT_SM_LIST_HRHHDMATCH
  | DETECT_SM_LIST_DMATCH
  | DETECT_SM_LIST_POSTMATCH
deriving DecidableEq, Repr

/-- Modelled from the spec: the part of `DetectContentData`
(detect-content.h is not among the sources) that `DetectIsdataatSetup`
touches.  The "one mutable compile-time-only flag has relative follower" is
the bit `flags & DETECT_CONTENT_RELATIVE_NEXT`, here `relative_next`;
`flags` holds the other bits of the field. -/
structure DetectContentData where
  relative_next : Bool
  flags : Nat
deriving DecidableEq, Repr

/-- Modelled from the spec: the part of `DetectPcreData` (detect-pcre.h is
not among the sources) that `DetectIsdataatSetup` touches: the bit
`flags & DETECT_PCRE_RELATIVE_NEXT`, here `relative_next`, and the other
bits of the field. -/
structure DetectPcreData where
  relative_next : Bool
  flags : Nat
deriving DecidableEq, Repr

/-- Modelled from the spec: the part of `DetectByteExtractData`
(detect-byte-extract.h is not among the sources) that the lookup of a
symbolic offset uses: the variable's `name` and its `local_id`. -/
structure DetectByteExtractData where
  name : List Nat
  local_id : Nat
deriving DecidableEq, Repr

/-- What `sm->ctx` points to. -/
inductive SigMatchCtx where
  | null
  | flowvar (fd : DetectFlowvarData)
  | isdataat (idad : DetectIsdataatData)
  | content (cd : DetectContentData)
  | pcre (pe : DetectPcreData)
  | byte_extract (bed : DetectByteExtractData)
deriving DecidableEq, Repr

/-- A match node `SigMatch`: its kind, its compile-order sequence number
`idx` and its descriptor; `next` / `prev` are the position in the list. -/
structure SigMatch where
  type : SigMatchType
  idx : Nat
  ctx : SigMatchCtx
deriving DecidableEq, Repr

/-- The values of `s->alproto` that matter here: `ALPROTO_DCERPC`, the one
the source tests for, and two of the others (the enum is declared in
app-layer-protos.h). -/
inductive AppProto where
  | ALPROTO_UNKNOWN
  | ALPROTO_HTTP
  | ALPROTO_DCERPC
deriving DecidableEq, Repr

/-- Modelled from the spec: the part of `Signature` (detect.h is not among
the sources) that holds the "named ordered sequences of MatchNode", one per
list id, and the counter `sm_cnt` from which "each node carries a
monotonically increasing compile-order sequence number"; and the three
fields `DetectIsdataatSetup` reads or writes: the application protocol, the
file-data scope bit and the app-layer bit. -/
structure Signature where
  sm_lists : SmList → List SigMatch
  sm_cnt : Nat
  /-- Field `alproto`. -/
  alproto : AppProto := AppProto.ALPROTO_UNKNOWN
  /-- Bit `init_flags & SIG_FLAG_INIT_FILE_DATA`. -/
  init_file_data : Bool := false
  /-- Bit `flags & SIG_FLAG_APPLAYER`. -/
  flag_applayer : Bool := false

/-- Modelled from the spec: `SigMatchAppendSMToList` (detect-parse.c is not
among the sources).  "Lists are append-only at compile time": the node goes
to the tail of the list `list`, takes the next sequence number, and the
counter advances. -/
def SigMatchAppendSMToList (s : Signature) (new : SigMatch) (list : SmList) : Signature :=
  { s with
    sm_lists := fun l =>
      if l = list then s.sm_lists l ++ [{ new with idx := s.sm_cnt }] else s.sm_lists l
    sm_cnt := s.sm_cnt + 1 }

/-- Modelled from the spec: variable interning (`VariableNameGetIdx`,
util-var-name.c is not among the sources) is
`intern(scope, name, kind) -> stable_index`, "deterministic and
idempotent": for one engine context it is a fixed map from name and keyword
kind to index. -/
structure DetectEngineCtx where
  VariableNameGetIdx : List Nat → SigMatchType → Nat

/-! ## `detect-flowvar.c`: compiling the keyword argument -/

/-- Split a line at its last comma (byte 44): what the two greedy groups of
`(.*),(.*)` capture when the match covers this line. -/
def splitLastComma : List Nat → Option (List Nat × List Nat)
  | [] => none
  | c :: cs =>
    match splitLastComma cs with
    | some (a, b) => some (c :: a, b)
    | none => if c == 44 then some ([], cs) else none

/-- The scan of `pcreExecParseRegex`: `cur` is the line read so far. -/
def pcreScanLines (cur : List Nat) : List Nat → Option (List Nat × List Nat)
  | [] => splitLastComma cur
  | c :: cs =>
    if c == 10 then
      match splitLastComma cur with
      | some r => some r
      | none => pcreScanLines [] cs
    else pcreScanLines (cur ++ [c]) cs

/-- The call `pcre_exec(parse_regex, ...)` of `DetectFlowvarSetup` together
with the two `pcre_get_substring` calls, for `PARSE_REGEX "(.*),(.*)"`
compiled with `opts = 0` (detect-flowvar.c:41, 68, 146-167).  PCRE is an
external library; its behaviour on this pattern is: with no options (and
the default newline convention) the match is unanchored, `.` matches every
byte but the line feed (10), and both groups are greedy, so the match lies
in the first line that holds a comma, group 1 is that line up to its last
comma and group 2 the rest of the line.  `none` stands for `ret != 3` (no
match).  The two `pcre_get_substring` calls are taken to succeed; they fail
only when their allocation fails, and `DetectFlowvarSetup` then returns
-1. -/
def pcreExecParseRegex (rawstr : List Nat) : Option (List Nat × List Nat) :=
  pcreScanLines [] rawstr

/-- The test `isdigit((unsigned char)c)` in the C locale. -/
def isdigit (c : Nat) : Bool := 48 ≤ c && c ≤ 57

/-- The test of detect-flowvar.c:203-209: a decimal digit or one of
`A`..`F`, `a`..`f`. -/
def isHexChar (c : Nat) : Bool :=
  isdigit c ||
  c == 65 || c == 97 || c == 66 || c == 98 || c == 67 || c == 99 ||
  c == 68 || c == 100 || c == 69 || c == 101 || c == 70 || c == 102

/-- Value of one hexadecimal digit character. -/
def hexDigitValue (c : Nat) : Nat :=
  if 48 ≤ c && c ≤ 57 then c - 48
  else if 65 ≤ c && c ≤ 70 then c - 55
  else if 97 ≤ c && c ≤ 102 then c - 87
  else 0

/-- The call `strtol((char *)binstr, NULL, 16)` on the three-byte buffer
`binstr`, whose first two bytes are hexadecimal digits and whose third byte
is NUL. -/
def strtol16 (b0 b1 : Nat) : Nat := 16 * hexDigitValue b0 + hexDigitValue b1

/-- The variables of the decoding block (detect-flowvar.c:188-243): the
buffer `str` that is rewritten in place, the write position `x`, `bin`,
`binstr[0]`, `binstr[1]`, `binpos` and `converted`. -/
structure HexState where
  str : List Nat
  x : Nat
  bin : Bool
  binstr0 : Nat
  binstr1 : Nat
  binpos : Nat
  converted : Bool
deriving DecidableEq, Repr

/-- One iteration of the `for` loop, at index `i` (detect-flowvar.c:194-229). -/
def hexStep (st : HexState) (i : Nat) : HexState :=
  let c := st.str.getD i 0
  if c == 124 then
    { st with bin := !st.bin }
  else if st.bin then
    if isHexChar c then
      let b0 := if st.binpos == 0 then c else st.binstr0
      let b1 := if st.binpos == 0 then st.binstr1 else c
      let binpos := st.binpos + 1
      if binpos == 2 then
        { str := st.str.set st.x (strtol16 b0 b1 % 256), x := st.x + 1, bin := st.bin,
          binstr0 := b0, binstr1 := b1, binpos := 0, converted := true }
      else
        { st with binstr0 := b0, binstr1 := b1, binpos := binpos }
    else st
  else
    { st with str := st.str.set st.x c, x := st.x + 1 }

/-- The whole loop `for (i = 0, x = 0; i < len; i++)` over the buffer `str`. -/
def hexLoop (str : List Nat) (len : Nat) : HexState :=
  (List.range len).foldl hexStep
    { str := str, x := 0, bin := false, binstr0 := 0, binstr1 := 0, binpos := 0,
      converted := false }

/-- Outcomes of the allocations of `DetectFlowvarSetup`, in source order:
`SCStrdup(varcontent+1)`, `SCMalloc(sizeof(DetectFlowvarData))`,
`SCMalloc(len)`, `SCStrdup(varname)` and `SigMatchAlloc()`. -/
structure FlowvarSetupAllocs where
  str_ok : Bool
  cd_ok : Bool
  content_ok : Bool
  name_ok : Bool
  sm_ok : Bool
deriving DecidableEq, Repr

/-- Lines 178-277 of `DetectFlowvarSetup`, entered once `str` is fixed: the
length test, the decoding loop over `str`, and the construction and
appending of the node.  Returns the return value and the signature. -/
def flowvarSetupStr (mem : FlowvarSetupAllocs) (de_ctx : DetectEngineCtx) (s : Signature)
    (varname str : List Nat) : Int × Signature :=
  let len := str.length % 65536
  if len == 0 then (-1, s)
  else if !mem.cd_ok then (-1, s)
  else
    let st := hexLoop str len
    let len := if st.converted then st.x else len
    if !mem.content_ok then (-1, s)
    else
      let cd : DetectFlowvarData :=
        { name := if mem.name_ok then some varname else none
          idx := de_ctx.VariableNameGetIdx varname SigMatchType.DETECT_FLOWVAR
          content := st.str.take len
          content_len := len
          flags := 0 }
      if !mem.sm_ok then (-1, s)
      else
        (0, SigMatchAppendSMToList s
          { type := SigMatchType.DETECT_FLOWVAR, idx := 0, ctx := SigMatchCtx.flowvar cd }
          SmList.DETECT_SM_LIST_MATCH)

/-- Function `DetectFlowvarSetup` (detect-flowvar.c:134-277): the argument is split
by the regular expression, a content wrapped in double quotes (byte 34) is
copied without them, otherwise `str` stays the whole argument `rawstr`; the
rest is `flowvarSetupStr`.  The result is the return value and the
signature afterwards; `none` stands for the one path that leaves defined
behaviour, the store `str[strlen(varcontent)-2] = 0` when `varcontent` is
the single byte `"` (the index is then `-1`). -/
def DetectFlowvarSetup (mem : FlowvarSetupAllocs) (de_ctx : DetectEngineCtx) (s : Signature)
    (rawstr : List Nat) : Option (Int × Signature) :=
  match pcreExecParseRegex rawstr with
  | none => some (-1, s)
  | some (varname, varcontent) =>
    let dubbed := varcontent.getD 0 0 == 34 && varcontent.getD (varcontent.length - 1) 0 == 34
    if dubbed && !mem.str_ok then some (-1, s)
    else if dubbed && varcontent.length < 2 then none
    else
      let str := if dubbed then (varcontent.drop 1).take (varcontent.length - 2) else rawstr
      some (flowvarSetupStr mem de_ctx s varname str)

/-! ## One packet's evaluation as a sequence of operations -/

/-- The state the flowvar operations act on during one packet: the worker's
thread context and the packet with its flow. -/
structure MatchState where
  det_ctx : DetectEngineThreadCtx
  p : Packet
deriving DecidableEq, Repr

/-- A call of one of the three pending-store functions, with its arguments. -/
inductive PendingOp where
  | store (malloc_ok : Bool) (idx : Nat) (buffer : List Nat) (len : Nat)
  | postmatch (fd : DetectFlowvarData)
  | cleanup
deriving DecidableEq, Repr

/-- Whether the call is `DetectFlowvarPostMatch`. -/
def PendingOp.isPostMatch : PendingOp → Bool
  | PendingOp.postmatch _ => true
  | _ => false

/-- Whether the call is `DetectFlowvarStoreMatch`. -/
def PendingOp.isStore : PendingOp → Bool
  | PendingOp.store _ _ _ _ => true
  | _ => false

/-- Perform one call on the state. -/
def applyOp (st : MatchState) : PendingOp → MatchState
  | PendingOp.store malloc_ok idx buffer len =>
    { st with det_ctx := (DetectFlowvarStoreMatch malloc_ok st.det_ctx idx buffer len).2 }
  | PendingOp.postmatch fd =>
    let r := DetectFlowvarPostMatch st.det_ctx st.p fd
    { det_ctx := r.2.1, p := r.2.2 }
  | PendingOp.cleanup =>
    { st with det_ctx := DetectFlowvarCleanupList st.det_ctx }

/-- Perform a sequence of calls, first to last. -/
def runOps (st : MatchState) (ops : List PendingOp) : MatchState :=
  ops.foldl applyOp st

/-- The pending-store invariant: at most one node per index. -/
def PendingDistinct (det_ctx : DetectEngineThreadCtx) : Prop :=
  (det_ctx.flowvarlist.map (fun e => e.idx)).Nodup

instance (det_ctx : DetectEngineThreadCtx) : Decidable (PendingDistinct det_ctx) := by
  unfold PendingDistinct; infer_instance

/-! ## The content grammar, as the specification words it -/

/-- The runs of a content token between its `|` delimiters (byte 124), in
order: the runs at even positions lie outside hex mode, those at odd
positions are hex runs.  A token with `k` delimiters has `k + 1` runs. -/
def splitBar : List Nat → List (List Nat)
  | [] => [[]]
  | c :: cs =>
    if c == 124 then [] :: splitBar cs
    else
      match splitBar cs with
      | [] => [[c]]
      | r :: rs => (c :: r) :: rs

/-- The token whose runs are `runs`: the runs with one `|` between
neighbours. -/
def joinBar : List (List Nat) → List Nat
  | [] => []
  | [r] => r
  | r :: r2 :: rs => r ++ 124 :: joinBar (r2 :: rs)

/-- The token has "balanced `|` delimiters": an even number of them, that is
an odd number of runs. -/
def balancedBars (token : List Nat) : Bool := (splitBar token).length % 2 == 1

/-- Decoding of digits as the specification has it, "pairs of hex digits are
decoded big-endian into one byte each": the digits taken two at a time,
each pair giving `16 * hi + lo`. -/
def hexPairs : List Nat → List Nat
  | hi :: lo :: rest => (16 * hexDigitValue hi + hexDigitValue lo) :: hexPairs rest
  | _ => []

/-- A hex run that "contains only hex-digit pairs and spaces": every byte is
a hex digit or a space (32) and the digits pair up. -/
def hexRunOk (r : List Nat) : Bool :=
  r.all (fun c => isHexChar c || c == 32) && (r.filter isHexChar).length % 2 == 0

/-- Every hex run among `runs` is well formed; `inHex` tells whether the
first run is a hex run. -/
def hexRunsOk : Bool → List (List Nat) → Bool
  | _, [] => true
  | false, _ :: rs => hexRunsOk true rs
  | true, r :: rs => hexRunOk r && hexRunsOk false rs

/-- Some hex run among `runs` holds a hex pair. -/
def hasHexPair : Bool → List (List Nat) → Bool
  | _, [] => false
  | false, _ :: rs => hasHexPair true rs
  | true, r :: rs => decide (2 ≤ (r.filter isHexChar).length) || hasHexPair false rs

/-- The bytes the specification assigns to a sequence of runs: "in order,
the literal bytes outside the hex runs and one byte for each hex pair inside
them" (spaces inside a hex run are ignored). -/
def decodeRuns : Bool → List (List Nat) → List Nat
  | _, [] => []
  | false, r :: rs => r ++ decodeRuns true rs
  | true, r :: rs => hexPairs (r.filter isHexChar) ++ decodeRuns false rs

/-- The content the specification assigns to a token. -/
def specContent (token : List Nat) : List Nat := decodeRuns false (splitBar token)

/-! ## The decoding loop without the buffer -/

/-- The variables of the decoding loop other than the buffer, with the bytes
written so far (`str[0..x)`) kept as the list `out`. -/
structure HexPure where
  out : List Nat
  bin : Bool
  binstr0 : Nat
  binstr1 : Nat
  binpos : Nat
  converted : Bool
deriving DecidableEq, Repr

/-- One iteration of the loop on the byte `c`, in terms of `HexPure`. -/
def hexPure (st : HexPure) (c : Nat) : HexPure :=
  if c == 124 then
    { st with bin := !st.bin }
  else if st.bin then
    if isHexChar c then
      let b0 := if st.binpos == 0 then c else st.binstr0
      let b1 := if st.binpos == 0 then st.binstr1 else c
      let binpos := st.binpos + 1
      if binpos == 2 then
        { out := st.out ++ [strtol16 b0 b1 % 256], bin := st.bin,
          binstr0 := b0, binstr1 := b1, binpos := 0, converted := true }
      else
        { st with binstr0 := b0, binstr1 := b1, binpos := binpos }
    else st
  else
    { st with out := st.out ++ [c] }

/-- The state of the in-place loop that corresponds to a `HexPure` state
when the buffer started as `s`: the bytes written, then the bytes of `s`
not yet overwritten. -/
def HexPure.toState (ps : HexPure) (s : List Nat) : HexState :=
  { str := ps.out ++ s.drop ps.out.length, x := ps.out.length, bin := ps.bin,
    binstr0 := ps.binstr0, binstr1 := ps.binstr1, binpos := ps.binpos,
    converted := ps.converted }

/-- The initial state of the loop. -/
def HexPure.init : HexPure :=
  { out := [], bin := false, binstr0 := 0, binstr1 := 0, binpos := 0, converted := false }

/-- The flowvar node `DetectFlowvarSetup` appends for descriptor `cd`. -/
def flowvarNode (cd : DetectFlowvarData) : SigMatch :=
  { type := SigMatchType.DETECT_FLOWVAR, idx := 0, ctx := SigMatchCtx.flowvar cd }

/-! ## `detect-isdataat.c`: parsing the keyword argument -/

/-- The class `\s` of PCRE in the C locale: the space and the control
characters 9 to 13 (tab, line feed, vertical tab, form feed, carriage
return; the vertical tab belongs to `\s` since PCRE 8.34). -/
def pcreSpace (c : Nat) : Bool := c == 32 || (9 ≤ c && c ≤ 13)

/-- A greedy `\s*`: what is left after the leading white space. -/
def skipSpace (s : List Nat) : List Nat := s.dropWhile pcreSpace

/-- The part of the isdataat `PARSE_REGEX` after group 1,
`\s*(,\s*relative)?\s*(,\s*rawbytes\s*)?\s*$` (detect-isdataat.c:53), run on
the rest `r` of the subject.  `none`: no match.  Otherwise the two Booleans
tell whether group 2 and group 3 took part in the match. -/
def isdataatRegexTail (r : List Nat) : Option (Bool × Bool) :=
  match skipSpace r with
  | [] => some (false, false)
  | c :: r2 =>
    if c != 44 then none
    else
      let r3 := skipSpace r2
      if (cstr "relative").isPrefixOf r3 then
        match skipSpace (r3.drop 8) with
        | [] => some (true, false)
        | c2 :: r5 =>
          if c2 != 44 then none
          else
            let r6 := skipSpace r5
            if (cstr "rawbytes").isPrefixOf r6 && (skipSpace (r6.drop 8)).isEmpty then
              some (true, true)
            else none
      else if (cstr "rawbytes").isPrefixOf r3 && (skipSpace (r3.drop 8)).isEmpty then
        some (false, true)
      else none

/-- Group 1, `([^\s,]+)`, matched greedily at the head of `s`: the longest
run of bytes that are neither white space nor a comma (byte 44). -/
def isdataatGroup1 (s : List Nat) : List Nat :=
  s.takeWhile (fun c => !pcreSpace c && c != 44)

/-- The regular expression from group 1 on: group 1 has to be non-empty
and, what follows it being white space, a comma or the end, cannot be
shorter than the longest run. -/
def isdataatRegexFrom (s : List Nat) : Option (List Nat × Bool × Bool) :=
  let g1 := isdataatGroup1 s
  if g1.isEmpty then none
  else (isdataatRegexTail (s.drop g1.length)).map (fun t => (g1, t.1, t.2))

/-- The call `pcre_exec(parse_regex, ...)` of `DetectIsdataatParse` for
`PARSE_REGEX "^\s*!?([^\s,]+)\s*(,\s*relative)?\s*(,\s*rawbytes\s*)?\s*$"`
compiled with `opts = 0` (detect-isdataat.c:53, 81, 147).  PCRE is an
external library; on this pattern it behaves as follows: the leading white
space is skipped, a `!` (byte 33) that follows is taken by `!?` when the
match can be completed that way and otherwise belongs to group 1.  `none`
is a failed match (`ret < 1`); otherwise the result is group 1 and whether
groups 2 and 3 took part, so that `ret` is 4 when group 3 did, else 3 when
group 2 did, else 2. -/
def pcreExecIsdataat (isdataatstr : List Nat) : Option (List Nat × Bool × Bool) :=
  match skipSpace isdataatstr with
  | [] => none
  | c :: rest =>
    if c == 33 then
      match isdataatRegexFrom rest with
      | some r => some r
      | none => isdataatRegexFrom (c :: rest)
    else isdataatRegexFrom (c :: rest)

/-- The test `isalpha((unsigned char)c)` in the C locale. -/
def isalpha (c : Nat) : Bool := (65 ≤ c && c ≤ 90) || (97 ≤ c && c ≤ 122)

/-- Modelled from the spec: `ByteExtractStringUint16` (util-byte.c is not
among the sources), called with base 10 on the whole offset token: "parse
as an unsigned 16-bit decimal; out-of-range or non-numeric is a compile
error".  `none` is the negative return value, `some v` the value stored. -/
def ByteExtractStringUint16 (str : List Nat) : Option Nat :=
  if str.isEmpty || !str.all isdigit then none
  else
    let v := str.foldl (fun a c => 10 * a + (c - 48)) 0
    if v ≤ 65535 then some v else none

/-- Outcomes of the allocations of `DetectIsdataatSetup`, in source order:
`SCMalloc(sizeof(DetectIsdataatData))` and `SCStrdup(args[0])` in
`DetectIsdataatParse`, then `SigMatchAlloc()`. -/
structure IsdataatAllocs where
  idad_ok : Bool
  offset_ok : Bool
  sm_ok : Bool
deriving DecidableEq, Repr

/-- Function `DetectIsdataatParse` (detect-isdataat.c:138-237).
`offset_supplied` tells whether the argument `offset` is non-NULL.  `none`
is the NULL result; otherwise the descriptor and the value left in
`*offset` (`none`: untouched, the token was a number).  `pcre_get_substring`
hands back an empty string, not NULL, for a group that took no part in the
match, so `args[1] != NULL` holds as soon as `ret > 2` and
`args[2] != NULL` as soon as `ret > 3`. -/
def DetectIsdataatParse (mem : IsdataatAllocs) (isdataatstr : List Nat)
    (offset_supplied : Bool) : Option (DetectIsdataatData × Option (List Nat)) :=
  match pcreExecIsdataat isdataatstr with
  | none => none
  | some (arg0, g2, g3) =>
    if !mem.idad_ok then none
    else
      let relative := g2 || g3
      let rawbytes := g3
      let negated := isdataatstr.getD 0 0 == 33
      if arg0.getD 0 0 != 45 && isalpha (arg0.getD 0 0) then
        if !offset_supplied then none
        else if !mem.offset_ok then none
        else
          some ({ dataat := 0, relative := relative, rawbytes := rawbytes, negated := negated,
                  offset_be := false }, some arg0)
      else
        match ByteExtractStringUint16 arg0 with
        | none => none
        | some v =>
          some ({ dataat := v, relative := relative, rawbytes := rawbytes, negated := negated,
                  offset_be := false }, none)

/-! ## `detect-isdataat.c`: placing the node -/

/-- A pointer to a node of a signature: the list it is in and its position
there, counted from the head. -/
structure SmRef where
  list : SmList
  pos : Nat
deriving DecidableEq, Repr

/-- The node a reference points to. -/
def Signature.nodeAt (s : Signature) (r : SmRef) : Option SigMatch :=
  (s.sm_lists r.list)[r.pos]?

/-- The sequence number `->idx` of the node a reference points to. -/
def Signature.idxAt (s : Signature) (r : SmRef) : Nat :=
  match s.nodeAt r with
  | some sm => sm.idx
  | none => 0

/-- Overwrite the node a reference points to. -/
def Signature.setNode (s : Signature) (r : SmRef) (sm : SigMatch) : Signature :=
  { s with
    sm_lists := fun l => if l = r.list then (s.sm_lists l).set r.pos sm else s.sm_lists l }

/-- Modelled from the spec: the backward walk of the anchor search
(detect-parse.c is not among the sources), which "finds the most recent
eligible preceding node": the last node of kind `type` among the first
`bound` nodes of the list. -/
def SigMatchGetLastSMByType (l : List SigMatch) (type : SigMatchType) : Nat → Option Nat
  | 0 => none
  | n + 1 =>
    match l[n]? with
    | some sm => if sm.type = type then some n else SigMatchGetLastSMByType l type n
    | none => SigMatchGetLastSMByType l type n

/-- One `(kind, start node)` pair of the argument list of
`SigMatchGetLastSMFromLists`.  The start node is given by its list and by
`bound`, the number of nodes of that list up to and including it (the list
tail has `bound` equal to the length of the list, NULL has `bound` 0). -/
structure SmSearchArg where
  type : SigMatchType
  list : SmList
  bound : Nat
deriving DecidableEq, Repr

/-- One pair of the anchor search: `sm_last` is the candidate kept so far,
`a` the pair visited. -/
def searchStep (s : Signature) (sm_last : Option SmRef) (a : SmSearchArg) : Option SmRef :=
  match SigMatchGetLastSMByType (s.sm_lists a.list) a.type a.bound with
  | none => sm_last
  | some i =>
    match sm_last with
    | none => some { list := a.list, pos := i }
    | some r =>
      if s.idxAt { list := a.list, pos := i } > s.idxAt r then
        some { list := a.list, pos := i }
      else some r

/-- Modelled from the spec: `SigMatchGetLastSMFromLists` (detect-parse.c is
not among the sources), the anchor resolver that "finds the most recent
eligible preceding node across context-appropriate buffer lists", "using the
higher compile-order sequence number as tie-break": the pairs are visited
in order and a candidate replaces the one kept so far when its sequence
number is higher. -/
def SigMatchGetLastSMFromLists (s : Signature) (args : List SmSearchArg) : Option SmRef :=
  args.foldl (searchStep s) none

/-- The pair `kind, s->sm_lists_tail[list]`. -/
def tailArg (s : Signature) (type : SigMatchType) (list : SmList) : SmSearchArg :=
  { type := type, list := list, bound := (s.sm_lists list).length }

/-- Modelled from the spec: `DetectByteExtractRetrieveSMVar`
(detect-byte-extract.c is not among the sources), the byte-extraction lookup
`resolve(name, scope) -> Option<local_id>`: the first byte_extract node of
the list `list` whose variable has the name `arg`. -/
def DetectByteExtractRetrieveSMVar (arg : List Nat) (s : Signature) (list : SmList) :
    Option DetectByteExtractData :=
  (s.sm_lists list).findSome? (fun sm =>
    if sm.type = SigMatchType.DETECT_BYTE_EXTRACT then
      match sm.ctx with
      | SigMatchCtx.byte_extract bed => if bed.name = arg then some bed else none
      | _ => none
    else none)

/-- The `(kind, list)` pairs of the search in a DCERPC signature, for the
list `list` (detect-isdataat.c:272-279). -/
def dceSearch (list : SmList) : List (SigMatchType × SmList) :=
  [(SigMatchType.DETECT_CONTENT, list), (SigMatchType.DETECT_PCRE, list),
   (SigMatchType.DETECT_BYTEJUMP, list)]

/-- The `(kind, list)` pairs of the search in file-data scope
(detect-isdataat.c:306-311). -/
def fileDataSearch : List (SigMatchType × SmList) :=
  [(SigMatchType.DETECT_CONTENT, SmList.DETECT_SM_LIST_HSBDMATCH),
   (SigMatchType.DETECT_PCRE, SmList.DETECT_SM_LIST_HSBDMATCH),
   (SigMatchType.DETECT_BYTEJUMP, SmList.DETECT_SM_LIST_HSBDMATCH),
   (SigMatchType.DETECT_BYTE_EXTRACT, SmList.DETECT_SM_LIST_HSBDMATCH),
   (SigMatchType.DETECT_BYTETEST, SmList.DETECT_SM_LIST_HSBDMATCH)]

/-- The 33 `(kind, list)` pairs of the search in the generic case, in
source order (detect-isdataat.c:356-389). -/
def plainSearch : List (SigMatchType × SmList) :=
  [(SigMatchType.DETECT_CONTENT, SmList.DETECT_SM_LIST_PMATCH),
   (SigMatchType.DETECT_CONTENT, SmList.DETECT_SM_LIST_UMATCH),
   (SigMatchType.DETECT_CONTENT, SmList.DETECT_SM_LIST_HCBDMATCH),
   (SigMatchType.DETECT_CONTENT, SmList.DETECT_SM_LIST_HSBDMATCH),
   (SigMatchType.DETECT_CONTENT, SmList.DETECT_SM_LIST_HHDMATCH),
   (SigMatchType.DETECT_CONTENT, SmList.DETECT_SM_LIST_HRHDMATCH),
   (SigMatchType.DETECT_CONTENT, SmList.DETECT_SM_LIST_HMDMATCH),
   (SigMatchType.DETECT_CONTENT, SmList.DETECT_SM_LIST_HCDMATCH),
   (SigMatchType.DETECT_CONTENT, SmList.DETECT_SM_LIST_HRUDMATCH),
   (SigMatchType.DETECT_CONTENT, SmList.DETECT_SM_LIST_HSMDMATCH),
   (SigMatchType.DETECT_CONTENT, SmList.DETECT_SM_LIST_HSCDMATCH),
   (SigMatchType.DETECT_CONTENT, SmList.DETECT_SM_LIST_HUADMATCH),
   (SigMatchType.DETECT_CONTENT, SmList.DETECT_SM_LIST_HHHDMATCH),
   (SigMatchType.DETECT_CONTENT, SmList.DETECT_SM_LIST_HRHHDMATCH),
   (SigMatchType.DETECT_PCRE, SmList.DETECT_SM_LIST_PMATCH),
   (SigMatchType.DETECT_PCRE, SmList.DETECT_SM_LIST_UMATCH),
   (SigMatchType.DETECT_PCRE, SmList.DETECT_SM_LIST_HCBDMATCH),
   (SigMatchType.DETECT_PCRE, SmList.DETECT_SM_LIST_HSBDMATCH),
   (SigMatchType.DETECT_PCRE, SmList.DETECT_SM_LIST_HHDMATCH),
   (SigMatchType.DETECT_PCRE, SmList.DETECT_SM_LIST_HRHDMATCH),
   (SigMatchType.DETECT_PCRE, SmList.DETECT_SM_LIST_HMDMATCH),
   (SigMatchType.DETECT_PCRE, SmList.DETECT_SM_LIST_HCDMATCH),
   (SigMatchType.DETECT_PCRE, SmList.DETECT_SM_LIST_HRUDMATCH),
   (SigMatchType.DETECT_PCRE, SmList.DETECT_SM_LIST_HUADMATCH),
   (SigMatchType.DETECT_PCRE, SmList.DETECT_SM_LIST_HHHDMATCH),
   (SigMatchType.DETECT_PCRE, SmList.DETECT_SM_LIST_HRHHDMATCH),
   (SigMatchType.DETECT_BYTEJUMP, SmList.DETECT_SM_LIST_PMATCH),
   (SigMatchType.DETECT_BYTE_EXTRACT, SmList.DETECT_SM_LIST_PMATCH),
   (SigMatchType.DETECT_BYTE_EXTRACT, SmList.DETECT_SM_LIST_DMATCH),
   (SigMatchType.DETECT_BYTE_EXTRACT, SmList.DETECT_SM_LIST_UMATCH),
   (SigMatchType.DETECT_BYTETEST, SmList.DETECT_SM_LIST_PMATCH),
   (SigMatchType.DETECT_BYTETEST, SmList.DETECT_SM_LIST_DMATCH),
   (SigMatchType.DETECT_BYTETEST, SmList.DETECT_SM_LIST_UMATCH)]

/-- The search over the list tails for the given `(kind, list)` pairs. -/
def searchTails (s : Signature) (pairs : List (SigMatchType × SmList)) : Option SmRef :=
  SigMatchGetLastSMFromLists s (pairs.map (fun p => tailArg s p.1 p.2))

/-- The isdataat node as `DetectIsdataatSetup` builds it (lines 262-267);
`SigMatchAppendSMToList` gives it its sequence number. -/
def isdataatNode (idad : DetectIsdataatData) : SigMatch :=
  { type := SigMatchType.DETECT_ISDATAAT, idx := 0, ctx := SigMatchCtx.isdataat idad }

/-- The two assignments `isdd->dataat = ...->local_id;` and
`isdd->flags |= ISDATAAT_OFFSET_BE;` on the descriptor of the node `sm`
(detect-isdataat.c:349-351, 420-422). -/
def isdataatSetVar (s : Signature) (sm : SmRef) (local_id : Nat) : Signature :=
  match s.nodeAt sm with
  | some n =>
    match n.ctx with
    | SigMatchCtx.isdataat isdd =>
      s.setNode sm
        { n with ctx := SigMatchCtx.isdataat ({ isdd with dataat := local_id, offset_be := true }) }
    | _ => s
  | none => s

/-- Where the placement part of `DetectIsdataatSetup` (lines 269-409) leaves
control: at the label `error`, at a `return 0`, or at line 411 with the
node `sm` appended and the anchor `prev_pm` found. -/
inductive IsdataatPlaced where
  | error (s : Signature)
  | done (s : Signature)
  | anchored (s : Signature) (sm : SmRef) (prev_pm : SmRef)

/-- The list a relative isdataat goes to in a DCERPC signature
(detect-isdataat.c:281-289), from the results `pm` and `dm` of the searches
in the payload list and in the stub-data list. -/
def dceList (s : Signature) (pm dm : Option SmRef) : SmList :=
  match pm, dm with
  | none, _ => SmList.DETECT_SM_LIST_DMATCH
  | some _, none => SmList.DETECT_SM_LIST_DMATCH
  | some p, some d =>
    if s.idxAt p > s.idxAt d then SmList.DETECT_SM_LIST_PMATCH
    else SmList.DETECT_SM_LIST_DMATCH

/-- The three-way branch of `DetectIsdataatSetup` on the signature context
(detect-isdataat.c:269-409).  `idad` and `offset` are what
`DetectIsdataatParse` returned. -/
def isdataatPlace (s : Signature) (idad : DetectIsdataatData) (offset : Option (List Nat)) :
    IsdataatPlaced :=
  if s.alproto = AppProto.ALPROTO_DCERPC ∧ idad.relative = true then
    let pm := searchTails s (dceSearch SmList.DETECT_SM_LIST_PMATCH)
    let dm := searchTails s (dceSearch SmList.DETECT_SM_LIST_DMATCH)
    let list := dceList s pm dm
    let sm : SmRef := { list := list, pos := (s.sm_lists list).length }
    let s1 := SigMatchAppendSMToList s (isdataatNode idad) list
    -- the three searches from `sm->prev`
    let prev_pm := SigMatchGetLastSMFromLists s1
      [{ type := SigMatchType.DETECT_CONTENT, list := list, bound := sm.pos },
       { type := SigMatchType.DETECT_BYTEJUMP, list := list, bound := sm.pos },
       { type := SigMatchType.DETECT_PCRE, list := list, bound := sm.pos }]
    match prev_pm with
    | none => if offset.isSome then IsdataatPlaced.error s1 else IsdataatPlaced.done s1
    | some a => IsdataatPlaced.anchored s1 sm a
  else if s.init_file_data = true then
    let pm := if idad.relative then searchTails s fileDataSearch else none
    let idad1 := if idad.relative && pm.isNone then { idad with relative := false } else idad
    let list := SmList.DETECT_SM_LIST_HSBDMATCH
    let sm : SmRef := { list := list, pos := (s.sm_lists list).length }
    let s1 := SigMatchAppendSMToList { s with flag_applayer := true } (isdataatNode idad1) list
    match pm with
    | none => if offset.isSome then IsdataatPlaced.error s1 else IsdataatPlaced.done s1
    | some a => IsdataatPlaced.anchored s1 sm a
  else if idad.relative = false then
    let list := SmList.DETECT_SM_LIST_PMATCH
    let sm : SmRef := { list := list, pos := (s.sm_lists list).length }
    let s1 := SigMatchAppendSMToList s (isdataatNode idad) list
    match offset with
    | some name =>
      match DetectByteExtractRetrieveSMVar name s1 list with
      | none => IsdataatPlaced.error s1
      | some bed => IsdataatPlaced.done (isdataatSetVar s1 sm bed.local_id)
    | none => IsdataatPlaced.done s1
  else
    match searchTails s plainSearch with
    | none => IsdataatPlaced.error s
    | some pm =>
      let sm : SmRef := { list := pm.list, pos := (s.sm_lists pm.list).length }
      IsdataatPlaced.anchored (SigMatchAppendSMToList s (isdataatNode idad) pm.list) sm pm

/-- Lines 411-424 of `DetectIsdataatSetup`: a symbolic offset is looked up
among the byte_extract nodes of the list of the new node `sm`.  `none`
stands for `goto error`. -/
def isdataatResolve (s1 : Signature) (sm : SmRef) (offset : Option (List Nat)) :
    Option Signature :=
  match offset with
  | some name =>
    match DetectByteExtractRetrieveSMVar name s1 sm.list with
    | none => none
    | some bed => some (isdataatSetVar s1 sm bed.local_id)
  | none => some s1

/-- The `switch (prev_pm->type)` of `DetectIsdataatSetup`
(detect-isdataat.c:426-466): the anchor is flagged according to its kind.
A Content or Regex node whose `ctx` is not a descriptor of its kind is
treated as the case `cd == NULL` / `pe == NULL`. -/
def isdataatFlagAnchor (s2 : Signature) (prev_pm : SmRef) : Int × Signature :=
  match s2.nodeAt prev_pm with
  | none => (-1, s2)
  | some a =>
    match a.type with
    | SigMatchType.DETECT_CONTENT =>
      match a.ctx with
      | SigMatchCtx.content cd =>
        (0, s2.setNode prev_pm
          { a with ctx := SigMatchCtx.content { cd with relative_next := true } })
      | _ => (-1, s2)
    | SigMatchType.DETECT_PCRE =>
      match a.ctx with
      | SigMatchCtx.pcre pe =>
        (0, s2.setNode prev_pm
          { a with ctx := SigMatchCtx.pcre { pe with relative_next := true } })
      | _ => (-1, s2)
    | SigMatchType.DETECT_BYTEJUMP => (0, s2)
    | SigMatchType.DETECT_BYTETEST => (0, s2)
    | SigMatchType.DETECT_BYTE_EXTRACT => (0, s2)
    | _ => (-1, s2)

/-- The common tail of `DetectIsdataatSetup` (detect-isdataat.c:411-466):
the symbolic offset is resolved, then the anchor `prev_pm` is flagged. -/
def isdataatFinish (s1 : Signature) (sm : SmRef) (offset : Option (List Nat))
    (prev_pm : SmRef) : Int × Signature :=
  match isdataatResolve s1 sm offset with
  | none => (-1, s1)
  | some s2 => isdataatFlagAnchor s2 prev_pm

/-- Well-formed descriptors: every Content node carries a content
descriptor and every Regex node a regex descriptor. -/
def Signature.CtxOk (s : Signature) : Prop :=
  ∀ l, ∀ n ∈ s.sm_lists l,
    (n.type = SigMatchType.DETECT_CONTENT → ∃ cd, n.ctx = SigMatchCtx.content cd) ∧
    (n.type = SigMatchType.DETECT_PCRE → ∃ pe, n.ctx = SigMatchCtx.pcre pe)

/-- Compile order: along every list the sequence numbers increase. -/
def Signature.Ordered (s : Signature) : Prop :=
  ∀ l, (s.sm_lists l).Pairwise (fun a b => a.idx < b.idx)

/-- The kinds of node the final `switch` accepts as an anchor. -/
def anchorKind (t : SigMatchType) : Bool :=
  t == SigMatchType.DETECT_CONTENT || t == SigMatchType.DETECT_PCRE ||
  t == SigMatchType.DETECT_BYTEJUMP || t == SigMatchType.DETECT_BYTETEST ||
  t == SigMatchType.DETECT_BYTE_EXTRACT

/-- Function `DetectIsdataatSetup` (detect-isdataat.c:249-470).  The engine
context `de_ctx` is not used by the function.  Returns the return value and
the signature afterwards.  The call `AppLayerHtpEnableResponseBodyCallback()`
of the file-data branch sets a process-wide switch outside the signature
and is not part of the result. -/
def DetectIsdataatSetup (mem : IsdataatAllocs) (s : Signature) (isdataatstr : List Nat) :
    Int × Signature :=
  match DetectIsdataatParse mem isdataatstr true with
  | none => (-1, s)
  | some (idad, offset) =>
    if !mem.sm_ok then (-1, s)
    else
      match isdataatPlace s idad offset with
      | IsdataatPlaced.error s1 => (-1, s1)
      | IsdataatPlaced.done s1 => (0, s1)
      | IsdataatPlaced.anchored s1 sm prev_pm => isdataatFinish s1 sm offset prev_pm

/-! ## Example signatures -/

/-- Every allocation of `DetectIsdataatSetup` succeeds. -/
def allocOk : IsdataatAllocs := { idad_ok := true, offset_ok := true, sm_ok := true }

/-- A Content node with sequence number `idx`, no other flag bit set. -/
def contentNode (idx : Nat) (relative_next : Bool) : SigMatch :=
  { type := SigMatchType.DETECT_CONTENT, idx := idx,
    ctx := SigMatchCtx.content { relative_next := relative_next, flags := 0 } }

/-- A signature whose only non-empty list is `list`, holding `nodes`. -/
def oneListSignature (list : SmList) (nodes : List SigMatch) (alproto : AppProto)
    (file_data : Bool) : Signature :=
  { sm_lists := fun l => if l = list then nodes else [], sm_cnt := nodes.length,
    alproto := alproto, init_file_data := file_data }

/-- The isdataat node with sequence number `idx` and the given descriptor
fields, rawbytes and variable-offset bits clear. -/
def isdataatNodeAt (idx dataat : Nat) (relative negated : Bool) : SigMatch :=
  { type := SigMatchType.DETECT_ISDATAAT, idx := idx,
    ctx := SigMatchCtx.isdataat
      { dataat := dataat, relative := relative, rawbytes := false, negated := negated,
        offset_be := false } }

/-- A DCERPC signature with the nodes `pnodes` in the payload list and
`dnodes` in the stub-data list. -/
def dceSignature (pnodes dnodes : List SigMatch) : Signature :=
  { sm_lists := fun l =>
      if l = SmList.DETECT_SM_LIST_PMATCH then pnodes
      else if l = SmList.DETECT_SM_LIST_DMATCH then dnodes
      else [],
    sm_cnt := pnodes.length + dnodes.length,
    alproto := AppProto.ALPROTO_DCERPC }

/-- A byte_extract node with sequence number `idx` defining the variable
`name` with local id `local_id`. -/
def byteExtractNode (idx : Nat) (name : List Nat) (local_id : Nat) : SigMatch :=
  { type := SigMatchType.DETECT_BYTE_EXTRACT, idx := idx,
    ctx := SigMatchCtx.byte_extract { name := name, local_id := local_id } }

/-- The isdataat node with sequence number `idx` whose offset is the
byte_extract variable with local id `local_id`. -/
def isdataatVarNode (idx local_id : Nat) (relative : Bool) : SigMatch :=
  { type := SigMatchType.DETECT_ISDATAAT, idx := idx,
    ctx := SigMatchCtx.isdataat
      { dataat := local_id, relative := relative, rawbytes := false, negated := false,
        offset_be := true } }

/-! ## `detect-flowvar.c`: the commit node -/

/-- Outcomes of the two allocations of `DetectFlowvarPostMatchSetup`, in
source order: `SCMalloc(sizeof(DetectFlowvarData))`, then `SigMatchAlloc()`. -/
structure PostMatchSetupAllocs where
  fv_ok : Bool
  sm_ok : Bool
deriving DecidableEq, Repr

/-- Function `DetectFlowvarPostMatchSetup` (detect-flowvar.c:313-336).  The
descriptor is zeroed by `memset` (name and content NULL, length and flags
0) and only `idx` is assigned; the node goes to the post-match list. -/
def DetectFlowvarPostMatchSetup (mem : PostMatchSetupAllocs) (s : Signature) (idx : Nat) :
    Int × Signature :=
  if !mem.fv_ok then (-1, s)
  else
    let fv : DetectFlowvarData :=
      { name := none, idx := idx, content := [], content_len := 0, flags := 0 }
    if !mem.sm_ok then (-1, s)
    else
      (0, SigMatchAppendSMToList s
        { type := SigMatchType.DETECT_FLOWVAR_POSTMATCH, idx := 0,
          ctx := SigMatchCtx.flowvar fv }
        SmList.DETECT_SM_LIST_POSTMATCH)

/-- The commit node `DetectFlowvarPostMatchSetup` builds for the variable
`idx`, before it gets its sequence number. -/
def postMatchNode (idx : Nat) : SigMatch :=
  { type := SigMatchType.DETECT_FLOWVAR_POSTMATCH, idx := 0,
    ctx := SigMatchCtx.flowvar
      { name := none, idx := idx, content := [], content_len := 0, flags := 0 } }

/-! ## Decimal numerals and list shapes, as the specification words them -/

/-- A decimal numeral: one or more decimal digits. -/
def isDecimalNumeral (tok : List Nat) : Bool := !tok.isEmpty && tok.all isdigit

/-- Value of a numeral given least significant digit first. -/
def digitsValue : List Nat → Nat
  | [] => 0
  | d :: ds => (d - 48) + 10 * digitsValue ds

/-- Value of a decimal numeral written most significant digit first. -/
def decimalValue (tok : List Nat) : Nat := digitsValue tok.reverse

/-- Kind and sequence number of a node: what identifies it in its list. -/
def nodeKey (n : SigMatch) : SigMatchType × Nat := (n.type, n.idx)

/-- Signature `t` is `s` with one isdataat node, numbered `s.sm_cnt`, added
at the tail of `list`: every list of `t` holds the nodes of `s` at their
old positions, `list` one more. -/
def AppendedOnce (s t : Signature) (list : SmList) : Prop :=
  ∀ l, (t.sm_lists l).map nodeKey =
    (s.sm_lists l).map nodeKey ++
      (if l = list then [(SigMatchType.DETECT_ISDATAAT, s.sm_cnt)] else [])

/-! ## `detect-flowvar.c`: stripping the quotes -/

/-- The index `strlen(varcontent)-2` of the store
`str[strlen(varcontent)-2] = 0` (detect-flowvar.c:174), computed in the
unsigned type `size_t` (64 bits wide). -/
def stripIndex (varcontent : List Nat) : Nat :=
  (varcontent.length + 2 ^ 64 - 2) % 2 ^ 64

/-- The size in bytes of the copy `SCStrdup(varcontent+1)`
(detect-flowvar.c:170): the bytes after the first one and the terminator. -/
def stripCopySize (varcontent : List Nat) : Nat :=
  (varcontent.drop 1).length + 1

/-- The test `varcontent[0] == '"' && varcontent[strlen(varcontent)-1] == '"'`
(detect-flowvar.c:169). -/
def quoteTest (varcontent : List Nat) : Bool :=
  varcontent.getD 0 0 == 34 && varcontent.getD (varcontent.length - 1) 0 == 34

/-- A content token with the spaces (byte 32) inside its hex runs removed;
`bin` tells whether the token starts inside a hex run. -/
def dropHexSpaces : Bool → List Nat → List Nat
  | _, [] => []
  | bin, c :: cs =>
    if c == 124 then c :: dropHexSpaces (!bin) cs
    else if bin && c == 32 then dropHexSpaces bin cs
    else c :: dropHexSpaces bin cs

/-- Every allocation of `DetectFlowvarSetup` succeeds. -/
def flowvarAllocOk : FlowvarSetupAllocs :=
  { str_ok := true, cd_ok := true, content_ok := true, name_ok := true, sm_ok := true }

/-- The content and `content_len` of the flowvar nodes of the match list. -/
def flowvarContents (s : Signature) : List (List Nat × Nat) :=
  (s.sm_lists SmList.DETECT_SM_LIST_MATCH).filterMap (fun n =>
    match n.ctx with
    | SigMatchCtx.flowvar fd => some (fd.content, fd.content_len)
    | _ => none)

/-- Signature `t` holds the nodes of `s`, each list as it was, and one
isdataat node more at the tail of one list. -/
def IsdataatAdded (s t : Signature) : Prop :=
  ∃ list node, node.type = SigMatchType.DETECT_ISDATAAT ∧
    t.sm_lists list = s.sm_lists list ++ [node] ∧
    ∀ l, l ≠ list → t.sm_lists l = s.sm_lists l

/-! ## The flow lock -/

/-- What a function does to the flow `p->flow`, one event per call or macro:
`FLOWLOCK_RDLOCK`, `FLOWLOCK_WRLOCK`, `FLOWLOCK_UNLOCK`, the lookup
`FlowVarGet`, the search `SpmSearch` over the value stored in the flow, and
the move of a value into the flow. -/
inductive FlowEvent where
  | rdlock
  | wrlock
  | unlock
  | get (idx : Nat)
  | search
  | add (idx : Nat)
deriving DecidableEq, Repr

/-- The calls `DetectFlowvarMatch` (detect-flowvar.c:113-132) makes on the
flow, in source order: the read lock, the lookup, the search when the
variable exists, the unlock before the only `return`. -/
def DetectFlowvarMatchEvents (f : Flow) (fd : DetectFlowvarData) : List FlowEvent :=
  [FlowEvent.rdlock, FlowEvent.get fd.idx] ++
    (match FlowVarGet f fd.idx with
     | some _ => [FlowEvent.search]
     | none => []) ++
    [FlowEvent.unlock]

/-- Modelled from the spec: the locking of `FlowVarAddStr` (flow-var.c is
not among the sources): the commit does "acquire the flow's write lock, move
(ownership transfer) the pending buffer into the flow's persistent table
(replacing any prior value), release the lock". -/
def FlowVarAddStrEvents (idx : Nat) : List FlowEvent :=
  [FlowEvent.wrlock, FlowEvent.add idx, FlowEvent.unlock]

/-- The calls the `while` loop of `DetectFlowvarPostMatch` makes on the flow
(detect-flowvar.c:354-373): one `FlowVarAddStr` per node with the index. -/
def postMatchLoopEvents (idx : Nat) : List DetectFlowvarList → List FlowEvent
  | [] => []
  | fs :: rest =>
    if idx == fs.idx then FlowVarAddStrEvents fs.idx ++ postMatchLoopEvents idx rest
    else postMatchLoopEvents idx rest

/-- The calls `DetectFlowvarPostMatch` (detect-flowvar.c:343-375) makes on
the flow. -/
def DetectFlowvarPostMatchEvents (det_ctx : DetectEngineThreadCtx) (p : Packet)
    (fd : DetectFlowvarData) : List FlowEvent :=
  match det_ctx.flowvarlist, p.flow with
  | [], _ => []
  | _ :: _, none => []
  | fs :: rest, some _ => postMatchLoopEvents fd.idx (fs :: rest)

/-- What a thread holds of the flow's lock. -/
inductive Held where
  | free
  | read
  | write
deriving DecidableEq, Repr

/-- What a thread holds after an event of its own. -/
def heldAfter (h : Held) : FlowEvent → Held
  | FlowEvent.rdlock => Held.read
  | FlowEvent.wrlock => Held.write
  | FlowEvent.unlock => Held.free
  | _ => h

/-- The lock discipline for one thread that holds `h`: the lock is taken
only when none is held and released only when held, the flow is read only
under a lock and written only under the write lock. -/
def allowed (h : Held) : FlowEvent → Bool
  | FlowEvent.rdlock => h == Held.free
  | FlowEvent.wrlock => h == Held.free
  | FlowEvent.unlock => h != Held.free
  | FlowEvent.get _ => h != Held.free
  | FlowEvent.search => h != Held.free
  | FlowEvent.add _ => h == Held.write

/-- A sequence of events keeps the discipline from `h` on and ends with the
lock released. -/
def disciplined : Held → List FlowEvent → Bool
  | h, [] => h == Held.free
  | h, e :: es => allowed h e && disciplined (heldAfter h e) es

/-- The reader/writer lock, as the specification has it ("shared read
access", "exclusive write access"): whether an event is possible while the
other thread holds `other`. -/
def granted (other : Held) : FlowEvent → Bool
  | FlowEvent.rdlock => other != Held.write
  | FlowEvent.wrlock => other == Held.free
  | _ => true

/-- A schedule interleaves the events of two threads on one flow; `true`
tags the events of the first thread.  It is possible from the holdings `a`
(first thread) and `b` (second thread) when every lock is granted at the
time it is taken. -/
def schedOk : Held → Held → List (Bool × FlowEvent) → Bool
  | _, _, [] => true
  | a, b, (true, e) :: rest => granted b e && schedOk (heldAfter a e) b rest
  | a, b, (false, e) :: rest => granted a e && schedOk a (heldAfter b e) rest

/-- The events of thread `t` in a schedule, in order. -/
def threadEvents (t : Bool) (sched : List (Bool × FlowEvent)) : List FlowEvent :=
  (sched.filter (fun x => x.1 == t)).map (fun x => x.2)

/-- What thread `t` holds after a schedule that started with the lock free. -/
def heldBy (t : Bool) (sched : List (Bool × FlowEvent)) : Held :=
  (threadEvents t sched).foldl heldAfter Held.free

/-- The exclusion a reader/writer lock keeps between the holdings `a` and
`b` of two threads: when one holds the write lock the other holds nothing. -/
def lockCompat (a b : Held) : Prop :=
  (a = Held.write → b = Held.free) ∧ (b = Held.write → a = Held.free)

/-- A flow in which variable 7 holds the bytes `abc`. -/
def exampleFlow : Flow :=
  { flowvar := [{ idx := 7, value := cstr "abc", value_len := 3 }] }

/-- The descriptor of a flowvar node or post-match node for variable 7 with
content `b`. -/
def exampleFlowvarData : DetectFlowvarData :=
  { name := none, idx := 7, content := cstr "b", content_len := 1, flags := 0 }

/-- A thread context with one capture pending for variable 7. -/
def examplePending : DetectEngineThreadCtx :=
  { flowvarlist := [{ idx := 7, len := 2, buffer := cstr "xy" }] }

/-- A packet on the flow `exampleFlow`. -/
def examplePacket : Packet := { payload_len := 0, flow := some exampleFlow }

/-- A schedule in which a commit of variable 7 is followed by a read. -/
def exampleSchedule : List (Bool × FlowEvent) :=
  [(false, FlowEvent.wrlock), (false, FlowEvent.add 7), (false, FlowEvent.unlock),
   (true, FlowEvent.rdlock), (true, FlowEvent.get 7), (true, FlowEvent.search),
   (true, FlowEvent.unlock)]

/-! # Theorems -/

/-! ## `DetectIsdataatMatch` -/

/-- C1: on a non-relative, non-negated node the predicate returns 1 exactly
when the buffer length is at least `dataat`, and 0 otherwise. -/
theorem isdataat_absolute_match (L : Nat) (idad : DetectIsdataatData)
    (hrel : idad.relative = false) (_hneg : idad.negated = false) :
    (DetectIsdataatMatch L idad = 1 ↔ L ≥ idad.dataat) ∧
    (¬ L ≥ idad.dataat → DetectIsdataatMatch L idad = 0) := by
  unfold DetectIsdataatMatch
  simp only [hrel, Bool.false_eq_true, if_false]
  by_cases h : L ≥ idad.dataat
  · simp [h]
  · simp [h]

/-- C1, witness: the payload `Hi all!` (7 bytes) matches `isdataat:6` and
does not match `isdataat:8`. -/
theorem isdataat_absolute_match_witness :
    ((cstr "Hi all!").length = 7) ∧
    DetectIsdataatMatch (cstr "Hi all!").length
      { dataat := 6, relative := false, rawbytes := false, negated := false,
        offset_be := false } = 1 ∧
    DetectIsdataatMatch (cstr "Hi all!").length
      { dataat := 8, relative := false, rawbytes := false, negated := false,
        offset_be := false } = 0 :=
  ⟨by decide,
   (isdataat_absolute_match _ _ rfl rfl).1.2 (by decide),
   (isdataat_absolute_match _ _ rfl rfl).2 (by decide)⟩

/-- C2, as stated, fails: with 7 bytes of payload the negated node
`isdataat:!6` is reported as a match although 7 < 6 is false. -/
theorem isdataat_negated_counterexample :
    ¬ (DetectIsdataatMatch 7
        { dataat := 6, relative := false, rawbytes := false, negated := true,
          offset_be := false } = 1 ↔ 7 < 6) := by
  decide

/-- C2, amended: `DetectIsdataatMatch` does not read the negated flag; on a
non-relative negated node it returns 1 exactly when the buffer length is at
least `dataat`, the same value as on the node with the flag cleared. -/
theorem isdataat_negated_ignored (L : Nat) (idad : DetectIsdataatData)
    (hrel : idad.relative = false) (_hneg : idad.negated = true) :
    (DetectIsdataatMatch L idad = 1 ↔ L ≥ idad.dataat) ∧
    DetectIsdataatMatch L idad = DetectIsdataatMatch L { idad with negated := false } := by
  unfold DetectIsdataatMatch
  simp only [hrel, Bool.false_eq_true, if_false]
  by_cases h : L ≥ idad.dataat
  · simp [h]
  · simp [h]

/-- C2, witness of the amended statement at `isdataat:!6` and 7 bytes. -/
theorem isdataat_negated_ignored_witness :
    DetectIsdataatMatch 7
      { dataat := 6, relative := false, rawbytes := false, negated := true,
        offset_be := false } = 1 :=
  (isdataat_negated_ignored 7
    { dataat := 6, relative := false, rawbytes := false, negated := true,
      offset_be := false } rfl rfl).1.2 (by decide)

/-- C3: on a node whose relative flag is set the predicate returns 1,
whatever the offset, the buffer length and the other flags. -/
theorem isdataat_relative_passthrough (L : Nat) (idad : DetectIsdataatData)
    (hrel : idad.relative = true) : DetectIsdataatMatch L idad = 1 := by
  unfold DetectIsdataatMatch
  simp [hrel]

/-- C3, witness: `isdataat:!65535,relative,rawbytes` on an empty buffer. -/
theorem isdataat_relative_passthrough_witness :
    DetectIsdataatMatch 0
      { dataat := 65535, relative := true, rawbytes := true, negated := true,
        offset_be := false } = 1 :=
  isdataat_relative_passthrough 0 _ rfl

/-! ## Pending store and commit -/

theorem postMatchLoop_fst (idx : Nat) (l : List DetectFlowvarList) (f : Flow) :
    (postMatchLoop idx l f).1 = l.filter (fun e => !(idx == e.idx)) := by
  induction l generalizing f with
  | nil => rfl
  | cons e rest ih =>
    by_cases h : idx = e.idx
    · subst h
      simp [postMatchLoop, ih]
    · simp [postMatchLoop, h, ih]

theorem postMatchLoop_snd (idx : Nat) (l : List DetectFlowvarList) (f : Flow) :
    (postMatchLoop idx l f).2 =
      (l.filter (fun e => idx == e.idx)).foldl
        (fun g e => FlowVarAddStr g e.idx e.buffer e.len) f := by
  induction l generalizing f with
  | nil => rfl
  | cons e rest ih =>
    by_cases h : idx = e.idx
    · subst h
      simp [postMatchLoop, ih]
    · simp [postMatchLoop, h, ih]

theorem filter_idx_eq_nil (idx : Nat) (l : List DetectFlowvarList)
    (h : ∀ e ∈ l, e.idx ≠ idx) : l.filter (fun e => idx == e.idx) = [] := by
  rw [List.filter_eq_nil_iff]
  intro e he
  have := h e he
  simp [Ne.symm this]

theorem filter_idx_ne_self (idx : Nat) (l : List DetectFlowvarList)
    (h : ∀ e ∈ l, e.idx ≠ idx) : l.filter (fun e => !(idx == e.idx)) = l := by
  rw [List.filter_eq_self]
  intro e he
  have := h e he
  simp [Ne.symm this]

theorem filter_idx_singleton (l : List DetectFlowvarList) (e : DetectFlowvarList)
    (hnd : (l.map (fun x => x.idx)).Nodup) (he : e ∈ l) :
    l.filter (fun x => e.idx == x.idx) = [e] := by
  induction l with
  | nil => simp at he
  | cons a rest ih =>
    simp only [List.map_cons, List.nodup_cons, List.mem_map, not_exists, not_and] at hnd
    rcases List.mem_cons.1 he with h | h
    · subst h
      have hrest : rest.filter (fun x => e.idx == x.idx) = [] :=
        filter_idx_eq_nil e.idx rest (fun x hx => hnd.1 x hx)
      simp [List.filter_cons, hrest]
    · have hne : ¬ e.idx = a.idx := fun hh => hnd.1 e h hh
      simp [List.filter_cons, hne, ih hnd.2 h]

theorem FlowVarGet_flowVarUpdate (idx : Nat) (v : List Nat) (n : Nat) (l : List FlowVar)
    (h : ∃ fv ∈ l, fv.idx = idx) :
    (flowVarUpdate idx v n l).find? (fun fv => fv.idx == idx) =
      some { idx := idx, value := v, value_len := n } := by
  induction l with
  | nil => simp at h
  | cons a rest ih =>
    by_cases ha : a.idx = idx
    · simp [flowVarUpdate, ha]
    · have : ∃ fv ∈ rest, fv.idx = idx := by
        obtain ⟨fv, hfv, hi⟩ := h
        rcases List.mem_cons.1 hfv with h1 | h1
        · subst h1; exact absurd hi ha
        · exact ⟨fv, h1, hi⟩
      simp [flowVarUpdate, ha, List.find?_cons, ih this]

theorem FlowVarGet_FlowVarAddStr (f : Flow) (idx : Nat) (v : List Nat) (n : Nat) :
    FlowVarGet (FlowVarAddStr f idx v n) idx =
      some { idx := idx, value := v, value_len := n } := by
  unfold FlowVarAddStr
  cases hget : FlowVarGet f idx with
  | some fv =>
    simp only [FlowVarGet] at hget ⊢
    apply FlowVarGet_flowVarUpdate
    have h1 := List.find?_some hget
    have h2 := List.mem_of_find?_eq_some hget
    exact ⟨fv, h2, by simpa using h1⟩
  | none =>
    simp only [FlowVarGet] at hget ⊢
    rw [List.find?_append, hget]
    simp

theorem mem_flowVarUpdate (idx : Nat) (v : List Nat) (n : Nat) (l : List FlowVar)
    (fv : FlowVar) (h : fv ∈ flowVarUpdate idx v n l) :
    fv ∈ l ∨ fv = { idx := idx, value := v, value_len := n } := by
  induction l with
  | nil => simp [flowVarUpdate] at h
  | cons a rest ih =>
    by_cases ha : a.idx = idx
    · simp only [flowVarUpdate, ha, beq_self_eq_true, if_true, List.mem_cons] at h
      rcases h with h | h
      · exact Or.inr h
      · exact Or.inl (List.mem_cons_of_mem _ h)
    · simp only [flowVarUpdate, beq_iff_eq, ha, if_false, List.mem_cons] at h
      rcases h with h | h
      · exact Or.inl (h ▸ List.mem_cons_self _ _)
      · rcases ih h with h2 | h2
        · exact Or.inl (List.mem_cons_of_mem _ h2)
        · exact Or.inr h2

theorem mem_FlowVarAddStr (f : Flow) (idx : Nat) (v : List Nat) (n : Nat) (fv : FlowVar)
    (h : fv ∈ (FlowVarAddStr f idx v n).flowvar) :
    fv ∈ f.flowvar ∨ fv = { idx := idx, value := v, value_len := n } := by
  unfold FlowVarAddStr at h
  cases hget : FlowVarGet f idx with
  | some x =>
    rw [hget] at h
    exact mem_flowVarUpdate idx v n f.flowvar fv h
  | none =>
    rw [hget] at h
    simpa using h

/-- The commit, spelled out: with a non-null flow the pending list loses the
nodes of the index and the flow receives them in list order. -/
theorem DetectFlowvarPostMatch_eq (det_ctx : DetectEngineThreadCtx) (p : Packet) (f : Flow)
    (fd : DetectFlowvarData) (hf : p.flow = some f) (hne : det_ctx.flowvarlist ≠ []) :
    DetectFlowvarPostMatch det_ctx p fd =
      (1, { flowvarlist := det_ctx.flowvarlist.filter (fun e => !(fd.idx == e.idx)) },
          { p with flow := some ((det_ctx.flowvarlist.filter (fun e => fd.idx == e.idx)).foldl
              (fun g e => FlowVarAddStr g e.idx e.buffer e.len) f) }) := by
  unfold DetectFlowvarPostMatch
  cases hl : det_ctx.flowvarlist with
  | nil => exact absurd hl hne
  | cons a rest =>
    simp only [hf]
    rw [postMatchLoop_fst, postMatchLoop_snd]

/-- C4: commit.  With the one-node-per-index invariant, a pending node
`(idx, buffer, len)` and a non-null flow, `DetectFlowvarPostMatch` for `idx`
stores exactly `(buffer, len)` under `idx` in the flow, whatever was there
before, and leaves no pending node with that index. -/
theorem postmatch_commits (det_ctx : DetectEngineThreadCtx) (p : Packet) (f : Flow)
    (fd : DetectFlowvarData) (buffer : List Nat) (len : Nat)
    (hinv : PendingDistinct det_ctx)
    (hmem : ({ idx := fd.idx, len := len, buffer := buffer } : DetectFlowvarList)
      ∈ det_ctx.flowvarlist)
    (hf : p.flow = some f) :
    (DetectFlowvarPostMatch det_ctx p fd).1 = 1 ∧
    (DetectFlowvarPostMatch det_ctx p fd).2.2.flow
      = some (FlowVarAddStr f fd.idx buffer len) ∧
    FlowVarGet (FlowVarAddStr f fd.idx buffer len) fd.idx
      = some { idx := fd.idx, value := buffer, value_len := len } ∧
    (DetectFlowvarPostMatch det_ctx p fd).2.1.flowvarlist
      = det_ctx.flowvarlist.filter (fun e => !(fd.idx == e.idx)) ∧
    (∀ e ∈ (DetectFlowvarPostMatch det_ctx p fd).2.1.flowvarlist, e.idx ≠ fd.idx) := by
  have hne : det_ctx.flowvarlist ≠ [] := List.ne_nil_of_mem hmem
  have hsing := filter_idx_singleton det_ctx.flowvarlist _ hinv hmem
  simp only at hsing
  rw [DetectFlowvarPostMatch_eq det_ctx p f fd hf hne, hsing]
  refine ⟨rfl, rfl, FlowVarGet_FlowVarAddStr _ _ _ _, rfl, ?_⟩
  intro e he
  simp only [List.mem_filter, Bool.not_eq_true', beq_eq_false_iff_ne, ne_eq] at he
  exact fun h => he.2 h.symm

/-- C4, witness: index 7 holds an older value; the pending list stages
`abc` for index 7 next to a node for index 2. -/
theorem postmatch_commits_witness :
    (DetectFlowvarPostMatch
        { flowvarlist := [{ idx := 2, len := 1, buffer := [120] },
                          { idx := 7, len := 3, buffer := [97, 98, 99] }] }
        { payload_len := 0, flow := some { flowvar := [{ idx := 7, value := [1], value_len := 1 }] } }
        { name := none, idx := 7, content := [], content_len := 0, flags := 0 }).2.2.flow
      = some { flowvar := [{ idx := 7, value := [97, 98, 99], value_len := 3 }] } :=
  (postmatch_commits
    { flowvarlist := [{ idx := 2, len := 1, buffer := [120] },
                      { idx := 7, len := 3, buffer := [97, 98, 99] }] }
    { payload_len := 0, flow := some { flowvar := [{ idx := 7, value := [1], value_len := 1 }] } }
    { flowvar := [{ idx := 7, value := [1], value_len := 1 }] }
    { name := none, idx := 7, content := [], content_len := 0, flags := 0 }
    [97, 98, 99] 3 (by decide) (by decide) rfl).2.1

/-- C7: when no pending node carries the post-match node's index (the empty
list included), `DetectFlowvarPostMatch` returns the thread context and the
packet, flow included, exactly as they were. -/
theorem postmatch_noop (det_ctx : DetectEngineThreadCtx) (p : Packet)
    (fd : DetectFlowvarData) (habs : ∀ e ∈ det_ctx.flowvarlist, e.idx ≠ fd.idx) :
    DetectFlowvarPostMatch det_ctx p fd = (1, det_ctx, p) := by
  cases hl : det_ctx.flowvarlist with
  | nil => simp [DetectFlowvarPostMatch, hl]
  | cons a rest =>
    cases hf : p.flow with
    | none => simp [DetectFlowvarPostMatch, hl, hf]
    | some f =>
      have hne : det_ctx.flowvarlist ≠ [] := by simp [hl]
      rw [DetectFlowvarPostMatch_eq det_ctx p f fd hf hne,
        filter_idx_ne_self fd.idx _ habs, filter_idx_eq_nil fd.idx _ habs]
      cases det_ctx
      cases p
      simp_all

/-- C7, witness: a pending node for index 2 only, a post-match node for
index 7. -/
theorem postmatch_noop_witness :
    DetectFlowvarPostMatch
        { flowvarlist := [{ idx := 2, len := 1, buffer := [120] }] }
        { payload_len := 0, flow := some { flowvar := [{ idx := 7, value := [1], value_len := 1 }] } }
        { name := none, idx := 7, content := [], content_len := 0, flags := 0 }
      = (1, { flowvarlist := [{ idx := 2, len := 1, buffer := [120] }] },
          { payload_len := 0,
            flow := some { flowvar := [{ idx := 7, value := [1], value_len := 1 }] } }) :=
  postmatch_noop _ _ _ (by decide)

theorem applyOp_frame (st : MatchState) (op : PendingOp) (h : op.isPostMatch = false) :
    (applyOp st op).p = st.p := by
  cases op with
  | store m idx b n => rfl
  | postmatch fd => simp [PendingOp.isPostMatch] at h
  | cleanup => rfl

theorem runOps_frame (ops : List PendingOp) (st : MatchState)
    (h : ∀ op ∈ ops, op.isPostMatch = false) : (runOps st ops).p = st.p := by
  induction ops generalizing st with
  | nil => rfl
  | cons op rest ih =>
    have h1 : (applyOp st op).p = st.p := applyOp_frame st op (h op (List.mem_cons_self _ _))
    have h2 := ih (applyOp st op) (fun o ho => h o (List.mem_cons_of_mem _ ho))
    simp only [runOps, List.foldl_cons] at h2 ⊢
    rw [h2, h1]

theorem isPostMatch_of_isStore (op : PendingOp) (h : op.isStore = true) :
    op.isPostMatch = false := by
  cases op <;> simp_all [PendingOp.isStore, PendingOp.isPostMatch]

theorem DetectFlowvarCleanupList_nil (det_ctx : DetectEngineThreadCtx) :
    (DetectFlowvarCleanupList det_ctx).flowvarlist = [] := by
  unfold DetectFlowvarCleanupList
  cases h : det_ctx.flowvarlist with
  | nil => simp [h]
  | cons a rest => simp

/-- C5: transactionality.  After any sequence of `DetectFlowvarStoreMatch`
calls followed by `DetectFlowvarCleanupList`, with no
`DetectFlowvarPostMatch` in between, the packet and its flow are what they
were before and the pending list is empty; indeed no single call other than
`DetectFlowvarPostMatch` changes the flow. -/
theorem flowvar_transactional (st : MatchState) (stores : List PendingOp)
    (hst : ∀ op ∈ stores, op.isStore = true) :
    (runOps st (stores ++ [PendingOp.cleanup])).p = st.p ∧
    (runOps st (stores ++ [PendingOp.cleanup])).det_ctx.flowvarlist = [] ∧
    (∀ (s : MatchState) (op : PendingOp), op.isPostMatch = false → (applyOp s op).p = s.p) := by
  refine ⟨?_, ?_, fun s op h => applyOp_frame s op h⟩
  · apply runOps_frame
    intro op hop
    rcases List.mem_append.1 hop with h | h
    · exact isPostMatch_of_isStore op (hst op h)
    · simp only [List.mem_singleton] at h
      subst h
      rfl
  · simp only [runOps, List.foldl_append, List.foldl_cons, List.foldl_nil, applyOp]
    exact DetectFlowvarCleanupList_nil _

/-- C5, witness: two captures are staged on a flow that holds `old` under
index 7, then the list is cleaned; the flow still holds `old`. -/
theorem flowvar_transactional_witness :
    (runOps
        { det_ctx := { flowvarlist := [] },
          p := { payload_len := 7,
                 flow := some { flowvar := [{ idx := 7, value := cstr "old", value_len := 3 }] } } }
        ([PendingOp.store true 7 (cstr "new") 3, PendingOp.store true 9 (cstr "x") 1]
          ++ [PendingOp.cleanup])).p
      = { payload_len := 7,
          flow := some { flowvar := [{ idx := 7, value := cstr "old", value_len := 3 }] } } :=
  (flowvar_transactional
    { det_ctx := { flowvarlist := [] },
      p := { payload_len := 7,
             flow := some { flowvar := [{ idx := 7, value := cstr "old", value_len := 3 }] } } }
    [PendingOp.store true 7 (cstr "new") 3, PendingOp.store true 9 (cstr "x") 1]
    (by decide)).1

theorem storeReplace_eq_none (idx : Nat) (b : List Nat) (n : Nat)
    (l : List DetectFlowvarList) :
    storeReplace idx b n l = none ↔ ∀ e ∈ l, e.idx ≠ idx := by
  induction l with
  | nil => simp [storeReplace]
  | cons a rest ih =>
    by_cases ha : a.idx = idx
    · simp [storeReplace, ha]
    · simp [storeReplace, ha, ih]

theorem storeReplace_filter_ne (idx : Nat) (b : List Nat) (n : Nat)
    (l l1 : List DetectFlowvarList) (h : storeReplace idx b n l = some l1) :
    l1.filter (fun e => !(idx == e.idx)) = l.filter (fun e => !(idx == e.idx)) := by
  induction l generalizing l1 with
  | nil => simp [storeReplace] at h
  | cons a rest ih =>
    by_cases ha : a.idx = idx
    · simp only [storeReplace, ha, beq_self_eq_true, if_true, Option.some.injEq] at h
      subst h
      simp [List.filter_cons, ha]
    · simp only [storeReplace, beq_iff_eq, ha, if_false, Option.map_eq_some'] at h
      obtain ⟨r, hr, hl1⟩ := h
      subst hl1
      simp [List.filter_cons, ih r hr]

theorem storeReplace_map_idx (idx : Nat) (b : List Nat) (n : Nat)
    (l l1 : List DetectFlowvarList) (h : storeReplace idx b n l = some l1) :
    l1.map (fun e => e.idx) = l.map (fun e => e.idx) := by
  induction l generalizing l1 with
  | nil => simp [storeReplace] at h
  | cons a rest ih =>
    by_cases ha : a.idx = idx
    · simp only [storeReplace, ha, beq_self_eq_true, if_true, Option.some.injEq] at h
      subst h
      simp [ha]
    · simp only [storeReplace, beq_iff_eq, ha, if_false, Option.map_eq_some'] at h
      obtain ⟨r, hr, hl1⟩ := h
      subst hl1
      simp [ih r hr]

theorem storeReplace_mem (idx : Nat) (b : List Nat) (n : Nat)
    (l l1 : List DetectFlowvarList) (h : storeReplace idx b n l = some l1) :
    ({ idx := idx, len := n, buffer := b } : DetectFlowvarList) ∈ l1 := by
  induction l generalizing l1 with
  | nil => simp [storeReplace] at h
  | cons a rest ih =>
    by_cases ha : a.idx = idx
    · simp only [storeReplace, ha, beq_self_eq_true, if_true, Option.some.injEq] at h
      subst h
      simp
    · simp only [storeReplace, beq_iff_eq, ha, if_false, Option.map_eq_some'] at h
      obtain ⟨r, hr, hl1⟩ := h
      subst hl1
      exact List.mem_cons_of_mem _ (ih r hr)

theorem storeReplace_twice (idx : Nat) (b1 b2 : List Nat) (n1 n2 : Nat)
    (l l1 : List DetectFlowvarList) (h : storeReplace idx b1 n1 l = some l1) :
    storeReplace idx b2 n2 l1 = storeReplace idx b2 n2 l := by
  induction l generalizing l1 with
  | nil => simp [storeReplace] at h
  | cons a rest ih =>
    by_cases ha : a.idx = idx
    · simp only [storeReplace, ha, beq_self_eq_true, if_true, Option.some.injEq] at h
      subst h
      simp [storeReplace, ha]
    · simp only [storeReplace, beq_iff_eq, ha, if_false, Option.map_eq_some'] at h
      obtain ⟨r, hr, hl1⟩ := h
      subst hl1
      simp [storeReplace, ha, ih r hr]

/-- What a staging call leaves behind: the nodes of other indexes are kept
in order, the invariant is kept, and after a successful call the only node
of the index is the one just staged. -/
theorem DetectFlowvarStoreMatch_props (m : Bool) (det_ctx : DetectEngineThreadCtx)
    (idx : Nat) (b : List Nat) (n : Nat) (hinv : PendingDistinct det_ctx) :
    PendingDistinct (DetectFlowvarStoreMatch m det_ctx idx b n).2 ∧
    (DetectFlowvarStoreMatch m det_ctx idx b n).2.flowvarlist.filter (fun e => !(idx == e.idx))
      = det_ctx.flowvarlist.filter (fun e => !(idx == e.idx)) ∧
    ((DetectFlowvarStoreMatch m det_ctx idx b n).1 = 0 →
      (DetectFlowvarStoreMatch m det_ctx idx b n).2.flowvarlist.filter (fun e => idx == e.idx)
        = [{ idx := idx, len := n, buffer := b }]) := by
  unfold DetectFlowvarStoreMatch
  cases hs : storeReplace idx b n det_ctx.flowvarlist with
  | some l1 =>
    have hmap := storeReplace_map_idx idx b n _ l1 hs
    have hd : PendingDistinct { flowvarlist := l1 } := by
      unfold PendingDistinct at hinv ⊢
      simpa [hmap] using hinv
    refine ⟨hd, storeReplace_filter_ne idx b n _ l1 hs, fun _ => ?_⟩
    exact filter_idx_singleton l1 { idx := idx, len := n, buffer := b } hd
      (storeReplace_mem idx b n _ l1 hs)
  | none =>
    have habs := (storeReplace_eq_none idx b n _).1 hs
    cases m with
    | false => simp [hinv, filter_idx_eq_nil idx _ habs]
    | true =>
      have hd : PendingDistinct
          { flowvarlist := { idx := idx, len := n, buffer := b } :: det_ctx.flowvarlist } := by
        unfold PendingDistinct at hinv ⊢
        simp only [List.map_cons, List.nodup_cons, List.mem_map, not_exists, not_and]
        exact ⟨fun e he h => habs e he h, hinv⟩
      refine ⟨hd, ?_, fun _ => ?_⟩
      · simp [List.filter_cons]
      · simp [List.filter_cons, filter_idx_eq_nil idx _ habs]

/-- Two staging calls for one index in a row: the outcome does not depend on
what the first call staged. -/
theorem DetectFlowvarStoreMatch_twice (m1 m2 : Bool) (det_ctx : DetectEngineThreadCtx)
    (idx : Nat) (b1 b2 : List Nat) (n1 n2 : Nat) :
    DetectFlowvarStoreMatch m2 (DetectFlowvarStoreMatch m1 det_ctx idx b1 n1).2 idx b2 n2 =
      match storeReplace idx b2 n2 det_ctx.flowvarlist with
      | some l => (0, { flowvarlist := l })
      | none =>
        if m1 || m2 then
          (0, { flowvarlist := { idx := idx, len := n2, buffer := b2 } :: det_ctx.flowvarlist })
        else (-1, det_ctx) := by
  cases hs : storeReplace idx b1 n1 det_ctx.flowvarlist with
  | some l1 =>
    have h2 := storeReplace_twice idx b1 b2 n1 n2 _ l1 hs
    have hne : storeReplace idx b2 n2 det_ctx.flowvarlist ≠ none := by
      intro hh
      rw [storeReplace_eq_none] at hh
      rw [← storeReplace_eq_none idx b1 n1] at hh
      rw [hh] at hs
      exact Option.noConfusion hs
    simp only [DetectFlowvarStoreMatch, hs, h2]
    cases h3 : storeReplace idx b2 n2 det_ctx.flowvarlist with
    | some l => rfl
    | none => exact absurd h3 hne
  | none =>
    have hn2 : storeReplace idx b2 n2 det_ctx.flowvarlist = none := by
      rw [storeReplace_eq_none] at hs ⊢
      exact hs
    cases m1 with
    | true => simp [DetectFlowvarStoreMatch, hs, hn2, storeReplace]
    | false => simp [DetectFlowvarStoreMatch, hs, hn2]

/-- C6: when index `idx` is staged twice (`b1`, then `b2`, the second call
returning 0) and then committed, the flow holds `(b2, l2)` under `idx`, no
node of `idx` is left pending, the final state is the same whatever the
first call staged, and a buffer `b1` that is distinct from `b2` and was not
already held by the pending list or the flow occurs in neither. -/
theorem double_stage_commits_later (m1 m2 : Bool) (det_ctx : DetectEngineThreadCtx)
    (p : Packet) (f : Flow) (fd : DetectFlowvarData) (b1 b2 : List Nat) (l1 l2 : Nat)
    (hinv : PendingDistinct det_ctx) (hf : p.flow = some f)
    (hret : (DetectFlowvarStoreMatch m2
      (DetectFlowvarStoreMatch m1 det_ctx fd.idx b1 l1).2 fd.idx b2 l2).1 = 0) :
    (runOps { det_ctx := det_ctx, p := p }
        [PendingOp.store m1 fd.idx b1 l1, PendingOp.store m2 fd.idx b2 l2,
         PendingOp.postmatch fd]).p.flow = some (FlowVarAddStr f fd.idx b2 l2) ∧
    FlowVarGet (FlowVarAddStr f fd.idx b2 l2) fd.idx
      = some { idx := fd.idx, value := b2, value_len := l2 } ∧
    (runOps { det_ctx := det_ctx, p := p }
        [PendingOp.store m1 fd.idx b1 l1, PendingOp.store m2 fd.idx b2 l2,
         PendingOp.postmatch fd]).det_ctx.flowvarlist
      = det_ctx.flowvarlist.filter (fun e => !(fd.idx == e.idx)) ∧
    (∀ (b1' : List Nat) (l1' : Nat),
      runOps { det_ctx := det_ctx, p := p }
        [PendingOp.store m1 fd.idx b1' l1', PendingOp.store m2 fd.idx b2 l2,
         PendingOp.postmatch fd]
      = runOps { det_ctx := det_ctx, p := p }
        [PendingOp.store m1 fd.idx b1 l1, PendingOp.store m2 fd.idx b2 l2,
         PendingOp.postmatch fd]) ∧
    (b1 ≠ b2 → (∀ e ∈ det_ctx.flowvarlist, e.buffer ≠ b1) →
      (∀ fv ∈ f.flowvar, fv.value ≠ b1) →
      (∀ e ∈ (runOps { det_ctx := det_ctx, p := p }
          [PendingOp.store m1 fd.idx b1 l1, PendingOp.store m2 fd.idx b2 l2,
           PendingOp.postmatch fd]).det_ctx.flowvarlist, e.buffer ≠ b1) ∧
      (∀ fv ∈ (FlowVarAddStr f fd.idx b2 l2).flowvar, fv.value ≠ b1)) := by
  have p1 := DetectFlowvarStoreMatch_props m1 det_ctx fd.idx b1 l1 hinv
  have p2 := DetectFlowvarStoreMatch_props m2
    (DetectFlowvarStoreMatch m1 det_ctx fd.idx b1 l1).2 fd.idx b2 l2 p1.1
  have hsing := p2.2.2 hret
  have hne : (DetectFlowvarStoreMatch m2
      (DetectFlowvarStoreMatch m1 det_ctx fd.idx b1 l1).2 fd.idx b2 l2).2.flowvarlist ≠ [] := by
    intro h
    rw [h] at hsing
    simp at hsing
  have hpm := DetectFlowvarPostMatch_eq _ p f fd hf hne
  rw [hsing, p2.2.1, p1.2.1] at hpm
  have hflow : (runOps { det_ctx := det_ctx, p := p }
        [PendingOp.store m1 fd.idx b1 l1, PendingOp.store m2 fd.idx b2 l2,
         PendingOp.postmatch fd]).p.flow = some (FlowVarAddStr f fd.idx b2 l2) := by
    simp only [runOps, List.foldl_cons, List.foldl_nil, applyOp, hpm]
  have hlist : (runOps { det_ctx := det_ctx, p := p }
        [PendingOp.store m1 fd.idx b1 l1, PendingOp.store m2 fd.idx b2 l2,
         PendingOp.postmatch fd]).det_ctx.flowvarlist
      = det_ctx.flowvarlist.filter (fun e => !(fd.idx == e.idx)) := by
    simp only [runOps, List.foldl_cons, List.foldl_nil, applyOp, hpm]
  refine ⟨hflow, FlowVarGet_FlowVarAddStr _ _ _ _, hlist, ?_, ?_⟩
  · intro b1' l1'
    simp only [runOps, List.foldl_cons, List.foldl_nil, applyOp]
    rw [DetectFlowvarStoreMatch_twice m1 m2 det_ctx fd.idx b1' b2 l1' l2,
      DetectFlowvarStoreMatch_twice m1 m2 det_ctx fd.idx b1 b2 l1 l2]
  · intro hb hpend hfl
    refine ⟨?_, ?_⟩
    · intro e he
      rw [hlist] at he
      exact hpend e (List.mem_of_mem_filter he)
    · intro fv hfv
      rcases mem_FlowVarAddStr f fd.idx b2 l2 fv hfv with h | h
      · exact hfl fv h
      · subst h
        exact fun hh => hb hh.symm

/-- C6, witness: index 7 is staged with `one`, then with `two`, and
committed into a flow that holds `old` under index 7. -/
theorem double_stage_commits_later_witness :
    (runOps
        { det_ctx := { flowvarlist := [{ idx := 2, len := 1, buffer := [120] }] },
          p := { payload_len := 0,
                 flow := some { flowvar := [{ idx := 7, value := cstr "old", value_len := 3 }] } } }
        [PendingOp.store true 7 (cstr "one") 3, PendingOp.store true 7 (cstr "two") 3,
         PendingOp.postmatch
           { name := none, idx := 7, content := [], content_len := 0, flags := 0 }]).p.flow
      = some { flowvar := [{ idx := 7, value := cstr "two", value_len := 3 }] } :=
  (double_stage_commits_later true true
    { flowvarlist := [{ idx := 2, len := 1, buffer := [120] }] }
    { payload_len := 0,
      flow := some { flowvar := [{ idx := 7, value := cstr "old", value_len := 3 }] } }
    { flowvar := [{ idx := 7, value := cstr "old", value_len := 3 }] }
    { name := none, idx := 7, content := [], content_len := 0, flags := 0 }
    (cstr "one") (cstr "two") 3 3 (by decide) rfl (by decide)).1

/-! ## `DetectFlowvarMatch` -/

theorem spmScan_isSome (needle : List Nat) (hay : List Nat) (off : Nat) :
    (spmScan needle hay off).isSome = true ↔ needle <:+: hay := by
  induction hay generalizing off with
  | nil =>
    cases needle with
    | nil => simp [spmScan]
    | cons a t => simp [spmScan, List.isPrefixOf]
  | cons h hs ih =>
    unfold spmScan
    by_cases hp : needle.isPrefixOf (h :: hs) = true
    · simp only [hp, if_true, Option.isSome_some, true_iff]
      exact (List.isPrefixOf_iff_prefix.1 hp).isInfix
    · simp only [hp, if_false, Bool.false_eq_true]
      rw [ih, List.infix_cons_iff]
      constructor
      · exact fun hh => Or.inr hh
      · rintro (hh | hh)
        · exact absurd (List.isPrefixOf_iff_prefix.2 hh) hp
        · exact hh

/-- C8: the read form returns 1 exactly when the flow holds a variable for
the descriptor's index and the descriptor's content (its first
`content_len` bytes) occurs as a contiguous run inside the stored bytes (the
first `value_len` bytes of the value); in every other case it returns 0, so
it never returns -1. -/
theorem flowvar_read_match (f : Flow) (fd : DetectFlowvarData) :
    (DetectFlowvarMatch f fd = 1 ↔
      ∃ fv, FlowVarGet f fd.idx = some fv ∧
        fd.content.take fd.content_len <:+: fv.value.take fv.value_len) ∧
    (FlowVarGet f fd.idx = none → DetectFlowvarMatch f fd = 0) ∧
    (∀ fv, FlowVarGet f fd.idx = some fv →
      ¬ (fd.content.take fd.content_len <:+: fv.value.take fv.value_len) →
      DetectFlowvarMatch f fd = 0) ∧
    (DetectFlowvarMatch f fd = 1 ∨ DetectFlowvarMatch f fd = 0) ∧
    DetectFlowvarMatch f fd ≠ -1 := by
  unfold DetectFlowvarMatch SpmSearch
  cases hget : FlowVarGet f fd.idx with
  | none => simp
  | some fv =>
    have hscan := spmScan_isSome (fd.content.take fd.content_len)
      (fv.value.take fv.value_len) 0
    cases hs : spmScan (fd.content.take fd.content_len) (fv.value.take fv.value_len) 0 with
    | none =>
      rw [hs] at hscan
      simp only [Option.isSome_none, Bool.false_eq_true, false_iff] at hscan
      simp [hscan, hs]
    | some o =>
      rw [hs] at hscan
      simp only [Option.isSome_some, true_iff] at hscan
      simp [hscan, hs]

/-- C8, witness: the flow holds `hello world` under index 3; the content
`lo w` is found, the content `low` is not, and index 4 is absent. -/
theorem flowvar_read_match_witness :
    DetectFlowvarMatch { flowvar := [{ idx := 3, value := cstr "hello world", value_len := 11 }] }
        { name := none, idx := 3, content := cstr "lo w", content_len := 4, flags := 0 } = 1 ∧
    DetectFlowvarMatch { flowvar := [{ idx := 3, value := cstr "hello world", value_len := 11 }] }
        { name := none, idx := 3, content := cstr "low", content_len := 3, flags := 0 } = 0 ∧
    DetectFlowvarMatch { flowvar := [{ idx := 3, value := cstr "hello world", value_len := 11 }] }
        { name := none, idx := 4, content := cstr "lo w", content_len := 4, flags := 0 } = 0 :=
  ⟨(flowvar_read_match _ _).1.2
      ⟨{ idx := 3, value := cstr "hello world", value_len := 11 }, by decide,
        ⟨cstr "hel", cstr "orld", by decide⟩⟩,
   (flowvar_read_match _ _).2.2.1 { idx := 3, value := cstr "hello world", value_len := 11 }
      (by decide) (by decide),
   (flowvar_read_match _ _).2.1 (by decide)⟩

/-! ## `DetectFlowvarSetup`: the decoding loop -/

theorem getD_written (out s : List Nat) (n : Nat) (hx : out.length ≤ n) :
    (out ++ s.drop out.length).getD n 0 = s.getD n 0 := by
  rw [List.getD_append_right _ _ _ _ hx, List.getD_eq_getElem?_getD, List.getElem?_drop,
    List.getD_eq_getElem?_getD]
  congr 2
  omega

theorem set_written (out s : List Nat) (v : Nat) (hx : out.length < s.length) :
    (out ++ s.drop out.length).set out.length v = (out ++ [v]) ++ s.drop (out.length + 1) := by
  rw [List.drop_eq_getElem_cons hx, List.set_append]
  simp only [Nat.lt_irrefl, if_false, Nat.sub_self, List.set_cons_zero, List.append_assoc,
    List.singleton_append]

/-- One iteration of the in-place loop at index `n` is one `hexPure` step on
the byte `s[n]` of the original buffer: the write position never passes the
read position, so the byte read is still the original one. -/
theorem hexStep_toState (s : List Nat) (ps : HexPure) (n : Nat)
    (hx : ps.out.length ≤ n) (hn : n < s.length) :
    hexStep (ps.toState s) n = (hexPure ps (s.getD n 0)).toState s := by
  have hlt : ps.out.length < s.length := Nat.lt_of_le_of_lt hx hn
  have hc : (ps.toState s).str.getD n 0 = s.getD n 0 := getD_written ps.out s n hx
  have hset : ∀ v, (ps.toState s).str.set (ps.toState s).x v
      = (ps.out ++ [v]) ++ s.drop (ps.out.length + 1) := fun v => set_written ps.out s v hlt
  unfold hexStep hexPure
  simp only [hc, hset]
  generalize s.getD n 0 = c
  by_cases h1 : c = 124
  · simp [h1, HexPure.toState]
  · by_cases h2 : ps.bin = true
    · by_cases h3 : isHexChar c = true
      · by_cases h4 : ps.binpos = 1
        · simp [h1, h2, h3, h4, HexPure.toState]
        · simp [h1, h2, h3, h4, HexPure.toState]
      · simp [h1, h2, h3, HexPure.toState]
    · simp [h1, h2, HexPure.toState]

theorem hexPure_out_length (ps : HexPure) (c : Nat) :
    (hexPure ps c).out.length ≤ ps.out.length + 1 := by
  unfold hexPure
  split
  · simp
  · split
    · split
      · simp only []
        split <;> simp
      · simp
    · simp

theorem foldl_hexPure_out_length (l : List Nat) (ps : HexPure) :
    (l.foldl hexPure ps).out.length ≤ ps.out.length + l.length := by
  induction l generalizing ps with
  | nil => simp
  | cons c t ih =>
    have h1 := hexPure_out_length ps c
    have h2 := ih (hexPure ps c)
    simp only [List.foldl_cons, List.length_cons]
    omega

/-- The in-place loop over the first `n` bytes of `s` computes what the
buffer-free loop computes on those bytes. -/
theorem foldl_hexStep_eq (s : List Nat) (n : Nat) (hn : n ≤ s.length) :
    (List.range n).foldl hexStep (HexPure.init.toState s)
      = ((s.take n).foldl hexPure HexPure.init).toState s := by
  induction n with
  | zero => simp
  | succ k ih =>
    have hk : k < s.length := hn
    have hlen := foldl_hexPure_out_length (s.take k) HexPure.init
    have hx : ((s.take k).foldl hexPure HexPure.init).out.length ≤ k := by
      have : (s.take k).length ≤ k := by simp
      simp only [HexPure.init, List.length_nil] at hlen
      simp only [HexPure.init]
      omega
    rw [List.range_succ, List.foldl_append, ih (Nat.le_of_lt hk), List.take_succ,
      List.foldl_append]
    simp only [List.foldl_cons, List.foldl_nil]
    rw [hexStep_toState s _ k hx hk]
    have hget : s[k]?.toList = [s.getD k 0] := by
      rw [List.getD_eq_getElem?_getD, List.getElem?_eq_getElem hk]
      rfl
    rw [hget]
    simp

theorem hexLoop_eq (s : List Nat) (n : Nat) (hn : n ≤ s.length) :
    hexLoop s n = ((s.take n).foldl hexPure HexPure.init).toState s := by
  rw [← foldl_hexStep_eq s n hn]
  rfl

theorem hexDigitValue_le (c : Nat) : hexDigitValue c ≤ 15 := by
  unfold hexDigitValue
  split
  · rename_i h
    simp only [Bool.and_eq_true, decide_eq_true_eq] at h
    omega
  · split
    · rename_i h
      simp only [Bool.and_eq_true, decide_eq_true_eq] at h
      omega
    · split
      · rename_i h
        simp only [Bool.and_eq_true, decide_eq_true_eq] at h
        omega
      · omega

theorem strtol16_mod (b0 b1 : Nat) :
    strtol16 b0 b1 % 256 = 16 * hexDigitValue b0 + hexDigitValue b1 := by
  have h0 := hexDigitValue_le b0
  have h1 := hexDigitValue_le b1
  unfold strtol16
  omega

theorem foldl_hexPure_literal (r : List Nat) (ps : HexPure) (hbin : ps.bin = false)
    (hr : ∀ c ∈ r, c ≠ 124) : r.foldl hexPure ps = { ps with out := ps.out ++ r } := by
  induction r generalizing ps with
  | nil => simp
  | cons c t ih =>
    have hc : c ≠ 124 := hr c (List.mem_cons_self _ _)
    have hstep : hexPure ps c = { ps with out := ps.out ++ [c] } := by
      simp [hexPure, hc, hbin]
    have h2 := ih { ps with out := ps.out ++ [c] } hbin
      (fun x hx => hr x (List.mem_cons_of_mem _ hx))
    rw [List.foldl_cons, hstep, h2]
    simp

/-- A hex run, started with `binpos` at 0 or 1: the digits (after the one
that may be waiting in `binstr[0]`) are consumed two at a time. -/
theorem foldl_hexPure_hex (r : List Nat) (ps : HexPure) (hbin : ps.bin = true)
    (hpos : ps.binpos ≤ 1) (hr : ∀ c ∈ r, isHexChar c = true ∨ c = 32) :
    (r.foldl hexPure ps).out
      = ps.out ++ hexPairs ((if ps.binpos = 1 then [ps.binstr0] else []) ++ r.filter isHexChar) ∧
    (r.foldl hexPure ps).bin = true ∧
    (r.foldl hexPure ps).binpos
      = ((if ps.binpos = 1 then [ps.binstr0] else []) ++ r.filter isHexChar).length % 2 ∧
    (r.foldl hexPure ps).converted
      = (ps.converted ||
          decide (2 ≤ ((if ps.binpos = 1 then [ps.binstr0] else [])
            ++ r.filter isHexChar).length)) := by
  induction r generalizing ps with
  | nil =>
    rcases Nat.le_one_iff_eq_zero_or_eq_one.1 hpos with h | h
    · simp [h, hbin, hexPairs]
    · simp [h, hbin, hexPairs]
  | cons c t ih =>
    have ht : ∀ x ∈ t, isHexChar x = true ∨ x = 32 :=
      fun x hx => hr x (List.mem_cons_of_mem _ hx)
    rw [List.foldl_cons]
    rcases hr c (List.mem_cons_self _ _) with hc | hc
    · have hne : c ≠ 124 := by
        rintro rfl
        revert hc
        decide
      rcases Nat.le_one_iff_eq_zero_or_eq_one.1 hpos with h | h
      · have hstep : hexPure ps c = { ps with binstr0 := c, binpos := 1 } := by
          simp [hexPure, hne, hbin, hc, h]
        have := ih (hexPure ps c) (by rw [hstep]; exact hbin) (by rw [hstep])
          ht
        rw [hstep] at this ⊢
        simpa [h, hc, List.filter_cons] using this
      · have hstep : hexPure ps c =
            { out := ps.out ++ [16 * hexDigitValue ps.binstr0 + hexDigitValue c], bin := true,
              binstr0 := ps.binstr0, binstr1 := c, binpos := 0, converted := true } := by
          simp [hexPure, hne, hbin, hc, h, strtol16_mod]
        have := ih (hexPure ps c) (by rw [hstep]) (by rw [hstep]; exact Nat.zero_le _) ht
        rw [hstep] at this ⊢
        simp only [zero_ne_one, if_false, List.nil_append, Bool.true_or] at this
        obtain ⟨h1, h2, h3, h4⟩ := this
        refine ⟨?_, h2, ?_, ?_⟩
        · rw [h1]
          simp [h, hc, List.filter_cons, hexPairs]
        · rw [h3]
          simp only [h, if_true, hc, List.filter_cons, List.singleton_append, List.length_cons]
          omega
        · rw [h4]
          simp [h, hc, List.filter_cons]
    · subst hc
      have hstep : hexPure ps 32 = ps := by
        have : isHexChar 32 = false := by decide
        simp [hexPure, hbin, this]
      have := ih ps hbin hpos ht
      rw [hstep]
      have hf : isHexChar 32 = false := by decide
      simpa [List.filter_cons, hf] using this

/-- One run between two delimiters, entered with no digit waiting. -/
theorem foldl_hexPure_run (r : List Nat) (ps : HexPure) (hpos : ps.binpos = 0)
    (hfree : ∀ c ∈ r, c ≠ 124) (hok : hexRunsOk ps.bin [r] = true) :
    (r.foldl hexPure ps).out = ps.out ++ decodeRuns ps.bin [r] ∧
    (r.foldl hexPure ps).bin = ps.bin ∧
    (r.foldl hexPure ps).binpos = 0 ∧
    (r.foldl hexPure ps).converted = (ps.converted || hasHexPair ps.bin [r]) := by
  cases hb : ps.bin with
  | false =>
    rw [foldl_hexPure_literal r ps hb hfree]
    simp [decodeRuns, hasHexPair, hb, hpos]
  | true =>
    rw [hb] at hok
    simp only [hexRunsOk, hexRunOk, Bool.and_true, Bool.and_eq_true, List.all_eq_true,
      Bool.or_eq_true, beq_iff_eq] at hok
    have h := foldl_hexPure_hex r ps hb (by omega) hok.1
    simp only [hpos, zero_ne_one, if_false, List.nil_append] at h
    refine ⟨?_, h.2.1, ?_, ?_⟩
    · rw [h.1]
      simp [decodeRuns]
    · rw [h.2.2.1]
      exact hok.2
    · rw [h.2.2.2]
      simp [hasHexPair]

theorem decodeRuns_cons (b : Bool) (r : List Nat) (rs : List (List Nat)) :
    decodeRuns b (r :: rs) = decodeRuns b [r] ++ decodeRuns (!b) rs := by
  cases b <;> cases rs <;> simp [decodeRuns]

theorem hasHexPair_cons (b : Bool) (r : List Nat) (rs : List (List Nat)) :
    hasHexPair b (r :: rs) = (hasHexPair b [r] || hasHexPair (!b) rs) := by
  cases b <;> cases rs <;> simp [hasHexPair]

theorem hexRunsOk_cons (b : Bool) (r : List Nat) (rs : List (List Nat)) :
    hexRunsOk b (r :: rs) = (hexRunsOk b [r] && hexRunsOk (!b) rs) := by
  cases b <;> cases rs <;> simp [hexRunsOk]

/-- The buffer-free loop over a whole token, run by run. -/
theorem foldl_hexPure_runs (runs : List (List Nat)) (ps : HexPure) (hpos : ps.binpos = 0)
    (hfree : ∀ r ∈ runs, ∀ c ∈ r, c ≠ 124) (hok : hexRunsOk ps.bin runs = true) :
    ((joinBar runs).foldl hexPure ps).out = ps.out ++ decodeRuns ps.bin runs ∧
    ((joinBar runs).foldl hexPure ps).converted = (ps.converted || hasHexPair ps.bin runs) := by
  induction runs generalizing ps with
  | nil => simp [joinBar, decodeRuns, hasHexPair]
  | cons r rest ih =>
    rw [hexRunsOk_cons, Bool.and_eq_true] at hok
    have hrun := foldl_hexPure_run r ps hpos (hfree r (List.mem_cons_self _ _)) hok.1
    cases rest with
    | nil =>
      simp only [joinBar]
      exact ⟨hrun.1, hrun.2.2.2⟩
    | cons r2 rs =>
      simp only [joinBar, List.foldl_append, List.foldl_cons]
      have hbar : hexPure (r.foldl hexPure ps) 124
          = { (r.foldl hexPure ps) with bin := !ps.bin } := by
        simp [hexPure, hrun.2.1]
      have h2 := ih (hexPure (r.foldl hexPure ps) 124) (by rw [hbar]; exact hrun.2.2.1)
        (fun x hx => hfree x (List.mem_cons_of_mem _ hx)) (by rw [hbar]; exact hok.2)
      rw [hbar] at h2 ⊢
      simp only at h2
      rw [decodeRuns_cons ps.bin r, hasHexPair_cons ps.bin r, h2.1, h2.2, hrun.1, hrun.2.2.2]
      simp [Bool.or_assoc]

theorem splitBar_ne_nil (t : List Nat) : splitBar t ≠ [] := by
  induction t with
  | nil => simp [splitBar]
  | cons c cs ih =>
    unfold splitBar
    split
    · simp
    · split <;> simp

theorem joinBar_cons_cons (c : Nat) (r : List Nat) (rs : List (List Nat)) :
    joinBar ((c :: r) :: rs) = c :: joinBar (r :: rs) := by
  cases rs <;> simp [joinBar]

theorem joinBar_splitBar (t : List Nat) : joinBar (splitBar t) = t := by
  induction t with
  | nil => simp [splitBar, joinBar]
  | cons c cs ih =>
    have hne := splitBar_ne_nil cs
    unfold splitBar
    cases hs : splitBar cs with
    | nil => exact absurd hs hne
    | cons r rs =>
      rw [hs] at ih
      by_cases hc : c = 124
      · simp [hc, joinBar, ih]
      · simp [hc, joinBar_cons_cons, ih]

theorem splitBar_free (t : List Nat) : ∀ r ∈ splitBar t, ∀ c ∈ r, c ≠ 124 := by
  induction t with
  | nil => simp [splitBar]
  | cons c cs ih =>
    have hne := splitBar_ne_nil cs
    unfold splitBar
    cases hs : splitBar cs with
    | nil => exact absurd hs hne
    | cons r rs =>
      rw [hs] at ih
      by_cases hc : c = 124
      · simp only [hc, beq_self_eq_true, if_true, List.mem_cons]
        rintro x (hx | hx) y hy
        · subst hx; simp at hy
        · exact ih x (List.mem_cons.2 hx) y hy
      · simp only [beq_iff_eq, hc, if_false, List.mem_cons]
        rintro x (hx | hx) y hy
        · subst hx
          rcases List.mem_cons.1 hy with h | h
          · exact h ▸ hc
          · exact ih r (List.mem_cons_self _ _) y h
        · exact ih x (List.mem_cons_of_mem _ hx) y hy

/-- The loop of `DetectFlowvarSetup` on a token whose hex runs are well
formed: the bytes written are the content the specification assigns to the
token, and `converted` tells whether a hex pair was seen. -/
theorem hexLoop_token (token : List Nat) (hok : hexRunsOk false (splitBar token) = true) :
    (hexLoop token token.length).str.take (hexLoop token token.length).x = specContent token ∧
    (hexLoop token token.length).x = (specContent token).length ∧
    (hexLoop token token.length).converted = hasHexPair false (splitBar token) := by
  have h := foldl_hexPure_runs (splitBar token) HexPure.init rfl (splitBar_free token) hok
  rw [joinBar_splitBar] at h
  have h1 : (token.foldl hexPure HexPure.init).out = decodeRuns false (splitBar token) := by
    rw [h.1]
    rfl
  have h2 : (token.foldl hexPure HexPure.init).converted = hasHexPair false (splitBar token) := by
    rw [h.2]
    rfl
  rw [hexLoop_eq token token.length (Nat.le_refl _), List.take_length]
  simp only [HexPure.toState, h1, h2, specContent]
  simp

/-! ## `DetectFlowvarSetup`: splitting the argument -/

theorem splitLastComma_none (b : List Nat) (h : 44 ∉ b) : splitLastComma b = none := by
  induction b with
  | nil => rfl
  | cons c cs ih =>
    simp only [List.mem_cons, not_or] at h
    have hc : c ≠ 44 := fun hh => h.1 hh.symm
    simp [splitLastComma, ih h.2, hc]

theorem splitLastComma_append (a b : List Nat) (h : 44 ∉ b) :
    splitLastComma (a ++ 44 :: b) = some (a, b) := by
  induction a with
  | nil => simp [splitLastComma, splitLastComma_none b h]
  | cons c cs ih => simp [splitLastComma, ih]

theorem pcreScanLines_line (cur s : List Nat) (h : 10 ∉ s) :
    pcreScanLines cur s = splitLastComma (cur ++ s) := by
  induction s generalizing cur with
  | nil => simp [pcreScanLines]
  | cons c cs ih =>
    simp only [List.mem_cons, not_or] at h
    have hc : c ≠ 10 := fun hh => h.1 hh.symm
    simp [pcreScanLines, hc, ih _ h.2]

/-- On an argument without line feed whose content holds no comma, the
regular expression captures the part before the last comma as the name and
the part after it as the content. -/
theorem pcreExecParseRegex_split (name content : List Nat) (hn : 10 ∉ name)
    (hc : 10 ∉ content) (hcomma : 44 ∉ content) :
    pcreExecParseRegex (name ++ 44 :: content) = some (name, content) := by
  unfold pcreExecParseRegex
  rw [pcreScanLines_line, List.nil_append, splitLastComma_append name content hcomma]
  simp only [List.mem_append, List.mem_cons, not_or]
  exact ⟨hn, by decide, hc⟩

/-- A content wrapped in double quotes is compiled from the bytes between
the quotes, unless the copy cannot be allocated. -/
theorem DetectFlowvarSetup_quoted (mem : FlowvarSetupAllocs) (de_ctx : DetectEngineCtx)
    (s : Signature) (rawstr varname str : List Nat)
    (hparse : pcreExecParseRegex rawstr = some (varname, 34 :: (str ++ [34]))) :
    DetectFlowvarSetup mem de_ctx s rawstr =
      if mem.str_ok then some (flowvarSetupStr mem de_ctx s varname str) else some (-1, s) := by
  have h1 : (34 :: (str ++ [34])).getD ((34 :: (str ++ [34])).length - 1) 0 = 34 := by
    have : (34 :: (str ++ [34])).length - 1 = str.length + 1 := by simp
    rw [this, List.getD_cons_succ, List.getD_append_right _ _ _ _ (Nat.le_refl _)]
    simp
  have h2 : ((34 :: (str ++ [34])).drop 1).take ((34 :: (str ++ [34])).length - 2) = str := by
    have : (34 :: (str ++ [34])).length - 2 = str.length := by simp
    rw [this, List.drop_succ_cons, List.drop_zero, List.take_left]
  have h3 : ¬ (34 :: (str ++ [34])).length < 2 := by simp
  unfold DetectFlowvarSetup
  rw [hparse]
  simp only [h1, h2, h3, List.getD_cons_zero, beq_self_eq_true, Bool.and_self, Bool.true_and,
    decide_False, Bool.false_eq_true, if_false, if_true]
  cases mem.str_ok <;> simp

theorem flowvarSetupStr_nil (mem : FlowvarSetupAllocs) (de_ctx : DetectEngineCtx)
    (s : Signature) (varname : List Nat) :
    flowvarSetupStr mem de_ctx s varname [] = (-1, s) := by
  simp [flowvarSetupStr]

theorem hasHexPair_ne_nil (token : List Nat)
    (hpair : hasHexPair false (splitBar token) = true) : token ≠ [] := by
  rintro rfl
  simp [splitBar, hasHexPair] at hpair

/-- The compilation of a token shorter than 65536 bytes whose hex runs are
well formed and which holds a hex pair, when every allocation succeeds. -/
theorem flowvarSetupStr_token (mem : FlowvarSetupAllocs) (de_ctx : DetectEngineCtx)
    (s : Signature) (varname token : List Nat)
    (hcd : mem.cd_ok = true) (hcontent : mem.content_ok = true) (hsm : mem.sm_ok = true)
    (hlen : token.length < 65536)
    (hruns : hexRunsOk false (splitBar token) = true)
    (hpair : hasHexPair false (splitBar token) = true) :
    flowvarSetupStr mem de_ctx s varname token =
      (0, SigMatchAppendSMToList s
        (flowvarNode
          { name := if mem.name_ok then some varname else none
            idx := de_ctx.VariableNameGetIdx varname SigMatchType.DETECT_FLOWVAR
            content := specContent token
            content_len := (specContent token).length
            flags := 0 })
        SmList.DETECT_SM_LIST_MATCH) := by
  have hne := hasHexPair_ne_nil token hpair
  have hpos : 0 < token.length := List.length_pos.2 hne
  have hmod : token.length % 65536 = token.length := Nat.mod_eq_of_lt hlen
  have hloop := hexLoop_token token hruns
  rw [hpair] at hloop
  have hz : ¬ token.length = 0 := by omega
  simp only [flowvarSetupStr, hmod, beq_iff_eq, hz, if_false, hcd, hcontent, hsm,
    Bool.not_true, Bool.false_eq_true, hloop.2.2, if_true, flowvarNode]
  rw [hloop.1, hloop.2.1]

/-- C9, as stated, fails: the token `a,|42|` has balanced delimiters, a
well-formed hex run and a hex pair, and the specification assigns it the
three bytes `a,B`; compiling `myvar,"a,|42|"` succeeds, yet the compiled
content is the eleven bytes `myvar,"a,B"`, registered under the name
`myvar,"a`, and not the node the claim describes. -/
theorem flowvar_setup_comma_counterexample :
    balancedBars (cstr "a,|42|") = true ∧
    hexRunsOk false (splitBar (cstr "a,|42|")) = true ∧
    hasHexPair false (splitBar (cstr "a,|42|")) = true ∧
    specContent (cstr "a,|42|") = cstr "a,B" ∧
    (DetectFlowvarSetup
        { str_ok := true, cd_ok := true, content_ok := true, name_ok := true, sm_ok := true }
        { VariableNameGetIdx := fun _ _ => 1 } { sm_lists := fun _ => [], sm_cnt := 0 }
        (cstr "myvar,\"a,|42|\"")).map
      (fun r => (r.1, r.2.sm_lists SmList.DETECT_SM_LIST_MATCH))
    = some (0, [flowvarNode
        { name := some (cstr "myvar,\"a"), idx := 1, content := cstr "myvar,\"a,B\"",
          content_len := 11, flags := 0 }]) ∧
    (DetectFlowvarSetup
        { str_ok := true, cd_ok := true, content_ok := true, name_ok := true, sm_ok := true }
        { VariableNameGetIdx := fun _ _ => 1 } { sm_lists := fun _ => [], sm_cnt := 0 }
        (cstr "myvar,\"a,|42|\"")).map
      (fun r => (r.1, r.2.sm_lists SmList.DETECT_SM_LIST_MATCH))
    ≠ some (0, [flowvarNode
        { name := some (cstr "myvar"), idx := 1, content := specContent (cstr "a,|42|"),
          content_len := (specContent (cstr "a,|42|")).length, flags := 0 }]) := by
  refine ⟨by decide, by decide, by decide, by decide, ?_, ?_⟩
  · decide
  · decide

/-- C9, amended: for an argument `name,"token"` without line feed, whose
token holds no comma, is shorter than 65536 bytes, has balanced `|`
delimiters, hex runs made of hex-digit pairs and spaces only, and at least
one hex pair, `DetectFlowvarSetup` returns 0 when its allocations succeed
and appends to the match list the flowvar node whose content is, in order,
the literal bytes outside the hex runs and one byte `16 * hi + lo` per hex
pair, with `content_len` the number of those bytes. -/
theorem flowvar_setup_decodes (mem : FlowvarSetupAllocs) (de_ctx : DetectEngineCtx)
    (s : Signature) (name token : List Nat)
    (hstr : mem.str_ok = true) (hcd : mem.cd_ok = true) (hcontent : mem.content_ok = true)
    (hsm : mem.sm_ok = true)
    (hname : 10 ∉ name) (hnl : 10 ∉ token) (hcomma : 44 ∉ token)
    (hlen : token.length < 65536)
    (_hbal : balancedBars token = true)
    (hruns : hexRunsOk false (splitBar token) = true)
    (hpair : hasHexPair false (splitBar token) = true) :
    DetectFlowvarSetup mem de_ctx s (name ++ cstr ",\"" ++ token ++ cstr "\"") =
      some (0, SigMatchAppendSMToList s
        (flowvarNode
          { name := if mem.name_ok then some name else none
            idx := de_ctx.VariableNameGetIdx name SigMatchType.DETECT_FLOWVAR
            content := specContent token
            content_len := (specContent token).length
            flags := 0 })
        SmList.DETECT_SM_LIST_MATCH) := by
  have e1 : cstr ",\"" = [44, 34] := by decide
  have e2 : cstr "\"" = [34] := by decide
  have hraw : name ++ cstr ",\"" ++ token ++ cstr "\"" = name ++ 44 :: (34 :: (token ++ [34])) := by
    rw [e1, e2]
    simp
  have hparse : pcreExecParseRegex (name ++ 44 :: (34 :: (token ++ [34])))
      = some (name, 34 :: (token ++ [34])) := by
    apply pcreExecParseRegex_split name _ hname
    · simp only [List.mem_cons, List.mem_append, List.mem_singleton, not_or]
      exact ⟨by decide, hnl, by decide, by simp⟩
    · simp only [List.mem_cons, List.mem_append, List.mem_singleton, not_or]
      exact ⟨by decide, hcomma, by decide, by simp⟩
  rw [hraw, DetectFlowvarSetup_quoted mem de_ctx s _ name token hparse, hstr, if_pos rfl,
    flowvarSetupStr_token mem de_ctx s name token hcd hcontent hsm hlen hruns hpair]

/-- C9, witness: `myvar,"A|42|C"` compiles to the three bytes 0x41, 0x42,
0x43 with `content_len` 3. -/
theorem flowvar_setup_decodes_witness :
    cstr "myvar" ++ cstr ",\"" ++ cstr "A|42|C" ++ cstr "\"" = cstr "myvar,\"A|42|C\"" ∧
    specContent (cstr "A|42|C") = [0x41, 0x42, 0x43] ∧
    (specContent (cstr "A|42|C")).length = 3 ∧
    DetectFlowvarSetup
        { str_ok := true, cd_ok := true, content_ok := true, name_ok := true, sm_ok := true }
        { VariableNameGetIdx := fun _ _ => 1 } { sm_lists := fun _ => [], sm_cnt := 0 }
        (cstr "myvar" ++ cstr ",\"" ++ cstr "A|42|C" ++ cstr "\"")
      = some (0, SigMatchAppendSMToList { sm_lists := fun _ => [], sm_cnt := 0 }
          (flowvarNode
            { name := some (cstr "myvar"), idx := 1, content := specContent (cstr "A|42|C"),
              content_len := (specContent (cstr "A|42|C")).length, flags := 0 })
          SmList.DETECT_SM_LIST_MATCH) :=
  ⟨by decide, by decide, by decide,
   flowvar_setup_decodes
     { str_ok := true, cd_ok := true, content_ok := true, name_ok := true, sm_ok := true }
     { VariableNameGetIdx := fun _ _ => 1 } { sm_lists := fun _ => [], sm_cnt := 0 }
     (cstr "myvar") (cstr "A|42|C") rfl rfl rfl rfl (by decide) (by decide) (by decide)
     (by decide) (by decide) (by decide) (by decide)⟩

/-- C10: for every variable name (a name, being what the first group `(.*)`
captures, holds no line feed) the argument `name,""` is split into that name
and the content `""`, and `DetectFlowvarSetup` returns -1 leaving the
signature as it was, whatever the allocator does. -/
theorem flowvar_setup_empty_literal (mem : FlowvarSetupAllocs) (de_ctx : DetectEngineCtx)
    (s : Signature) (name : List Nat) (hname : 10 ∉ name) :
    pcreExecParseRegex (name ++ cstr ",\"\"") = some (name, cstr "\"\"") ∧
    DetectFlowvarSetup mem de_ctx s (name ++ cstr ",\"\"") = some (-1, s) := by
  have e1 : cstr ",\"\"" = 44 :: (34 :: ([] ++ [34])) := by decide
  have e2 : cstr "\"\"" = 34 :: ([] ++ [34]) := by decide
  have hparse : pcreExecParseRegex (name ++ 44 :: (34 :: ([] ++ [34])))
      = some (name, 34 :: ([] ++ [34])) :=
    pcreExecParseRegex_split name _ hname (by decide) (by decide)
  rw [e1, e2]
  refine ⟨hparse, ?_⟩
  rw [DetectFlowvarSetup_quoted mem de_ctx s _ name [] hparse, flowvarSetupStr_nil]
  cases mem.str_ok <;> rfl

/-- C10, witness: `x,""` is a compile error. -/
theorem flowvar_setup_empty_literal_witness :
    cstr "x" ++ cstr ",\"\"" = cstr "x,\"\"" ∧
    (DetectFlowvarSetup
        { str_ok := true, cd_ok := true, content_ok := true, name_ok := true, sm_ok := true }
        { VariableNameGetIdx := fun _ _ => 1 } { sm_lists := fun _ => [], sm_cnt := 0 }
        (cstr "x" ++ cstr ",\"\"")).map (fun r => r.1) = some (-1) :=
  ⟨by decide,
   by rw [(flowvar_setup_empty_literal
        { str_ok := true, cd_ok := true, content_ok := true, name_ok := true, sm_ok := true }
        { VariableNameGetIdx := fun _ _ => 1 } { sm_lists := fun _ => [], sm_cnt := 0 }
        (cstr "x") (by decide)).2]
      rfl⟩

/-! ## `DetectFlowvarSetup`: tokens without a hex pair, unquoted content -/

/-- C11, the code at the failing input `myvar,"||"`: the token `||` decodes
to no byte at all, yet `DetectFlowvarSetup` returns 0 and appends a node
whose content is the two delimiter bytes themselves, with `content_len`
2. -/
theorem flowvar_setup_bars_only :
    specContent (cstr "||") = [] ∧
    (DetectFlowvarSetup
        { str_ok := true, cd_ok := true, content_ok := true, name_ok := true, sm_ok := true }
        { VariableNameGetIdx := fun _ _ => 1 } { sm_lists := fun _ => [], sm_cnt := 0 }
        (cstr "myvar,\"||\"")).map
      (fun r => (r.1, r.2.sm_lists SmList.DETECT_SM_LIST_MATCH))
    = some (0, [flowvarNode
        { name := some (cstr "myvar"), idx := 1, content := cstr "||",
          content_len := 2, flags := 0 }]) := by
  refine ⟨by decide, ?_⟩
  decide

/-- C12, the code at the failing input `myvar,|41 42|`: the content token
`|41 42|` decodes to the two bytes `AB`, yet the compiled content is the
eight bytes `myvar,AB`, the decoding of the whole argument. -/
theorem flowvar_setup_unquoted :
    pcreExecParseRegex (cstr "myvar,|41 42|") = some (cstr "myvar", cstr "|41 42|") ∧
    specContent (cstr "|41 42|") = cstr "AB" ∧
    (DetectFlowvarSetup
        { str_ok := true, cd_ok := true, content_ok := true, name_ok := true, sm_ok := true }
        { VariableNameGetIdx := fun _ _ => 1 } { sm_lists := fun _ => [], sm_cnt := 0 }
        (cstr "myvar,|41 42|")).map
      (fun r => (r.1, r.2.sm_lists SmList.DETECT_SM_LIST_MATCH))
    = some (0, [flowvarNode
        { name := some (cstr "myvar"), idx := 1, content := cstr "myvar,AB",
          content_len := 8, flags := 0 }]) := by
  refine ⟨by decide, by decide, ?_⟩
  decide

/-! ## `DetectIsdataatSetup`: the anchor search -/

theorem getLastByType_none (l : List SigMatch) (t : SigMatchType) (b : Nat)
    (h : ∀ n ∈ l, n.type ≠ t) : SigMatchGetLastSMByType l t b = none := by
  induction b with
  | zero => rfl
  | succ k ih =>
    unfold SigMatchGetLastSMByType
    cases hk : l[k]? with
    | none => simpa using ih
    | some sm =>
      have hmem : sm ∈ l := List.getElem?_mem hk
      simp [h sm hmem, ih]

theorem getLastByType_some (l : List SigMatch) (t : SigMatchType) (b i : Nat)
    (h : SigMatchGetLastSMByType l t b = some i) :
    i < b ∧ (∃ sm, l[i]? = some sm ∧ sm.type = t) ∧
    (∀ j, i < j → j < b → ∀ n, l[j]? = some n → n.type ≠ t) := by
  induction b with
  | zero => simp [SigMatchGetLastSMByType] at h
  | succ k ih =>
    unfold SigMatchGetLastSMByType at h
    cases hk : l[k]? with
    | none =>
      rw [hk] at h
      obtain ⟨h1, h2, h3⟩ := ih h
      refine ⟨by omega, h2, ?_⟩
      intro j hij hjk n hn
      by_cases hjk2 : j = k
      · subst hjk2
        rw [hk] at hn
        exact Option.noConfusion hn
      · exact h3 j hij (by omega) n hn
    | some sm =>
      rw [hk] at h
      by_cases ht : sm.type = t
      · simp only [ht, if_true, Option.some.injEq] at h
        subst h
        refine ⟨by omega, ⟨sm, hk, ht⟩, ?_⟩
        intro j hij hjk
        omega
      · simp only [ht, if_false] at h
        obtain ⟨h1, h2, h3⟩ := ih h
        refine ⟨by omega, h2, ?_⟩
        intro j hij hjk n hn
        by_cases hjk2 : j = k
        · subst hjk2
          rw [hk] at hn
          cases hn
          exact ht
        · exact h3 j hij (by omega) n hn

theorem getLastByType_of_node (l : List SigMatch) (t : SigMatchType) (b j : Nat) (n : SigMatch)
    (hj : j < b) (hn : l[j]? = some n) (ht : n.type = t) :
    ∃ i, SigMatchGetLastSMByType l t b = some i ∧ j ≤ i := by
  induction b with
  | zero => omega
  | succ k ih =>
    unfold SigMatchGetLastSMByType
    cases hk : l[k]? with
    | none =>
      have hjk : j ≠ k := by
        rintro rfl
        rw [hk] at hn
        exact Option.noConfusion hn
      obtain ⟨i, hi, hji⟩ := ih (by omega)
      exact ⟨i, by simpa using hi, hji⟩
    | some sm =>
      by_cases hs : sm.type = t
      · exact ⟨k, by simp [hs], by omega⟩
      · have hjk : j ≠ k := by
          rintro rfl
          rw [hk] at hn
          cases hn
          exact hs ht
        obtain ⟨i, hi, hji⟩ := ih (by omega)
        exact ⟨i, by simpa [hs] using hi, hji⟩

theorem searchFold_none (s : Signature) (args : List SmSearchArg) (acc : Option SmRef) :
    args.foldl (searchStep s) acc = none ↔
      (acc = none ∧
        ∀ a ∈ args, SigMatchGetLastSMByType (s.sm_lists a.list) a.type a.bound = none) := by
  induction args generalizing acc with
  | nil => simp
  | cons a rest ih =>
    rw [List.foldl_cons, ih]
    unfold searchStep
    cases hc : SigMatchGetLastSMByType (s.sm_lists a.list) a.type a.bound with
    | none => simp [hc]
    | some i =>
      cases acc with
      | none => simp [hc]
      | some r =>
        simp only [hc]
        split <;> simp [hc]

/-- What the anchor search returns: a candidate of one of the pairs (or the
one kept at the start), whose sequence number is at least that of every
candidate. -/
theorem searchFold_some (s : Signature) (args : List SmSearchArg) (acc : Option SmRef)
    (r : SmRef) (h : args.foldl (searchStep s) acc = some r) :
    (acc = some r ∨ ∃ a ∈ args, a.list = r.list ∧
      SigMatchGetLastSMByType (s.sm_lists a.list) a.type a.bound = some r.pos) ∧
    (∀ r0, acc = some r0 → s.idxAt r0 ≤ s.idxAt r) ∧
    (∀ a ∈ args, ∀ i, SigMatchGetLastSMByType (s.sm_lists a.list) a.type a.bound = some i →
      s.idxAt { list := a.list, pos := i } ≤ s.idxAt r) := by
  induction args generalizing acc with
  | nil =>
    simp only [List.foldl_nil] at h
    subst h
    simp
  | cons a rest ih =>
    rw [List.foldl_cons] at h
    obtain ⟨h1, h2, h3⟩ := ih _ h
    have hstep : ∀ x, searchStep s acc a = some x →
        (acc = some x ∨ (a.list = x.list ∧
          SigMatchGetLastSMByType (s.sm_lists a.list) a.type a.bound = some x.pos)) ∧
        (∀ r0, acc = some r0 → s.idxAt r0 ≤ s.idxAt x) ∧
        (∀ i, SigMatchGetLastSMByType (s.sm_lists a.list) a.type a.bound = some i →
          s.idxAt { list := a.list, pos := i } ≤ s.idxAt x) := by
      intro x hx
      unfold searchStep at hx
      cases hc : SigMatchGetLastSMByType (s.sm_lists a.list) a.type a.bound with
      | none =>
        rw [hc] at hx
        simp only at hx
        refine ⟨Or.inl hx, ?_, ?_⟩
        · intro r0 hr0
          rw [hr0] at hx
          cases hx
          exact Nat.le_refl _
        · intro i hi
          exact Option.noConfusion hi
      | some i =>
        rw [hc] at hx
        cases hacc : acc with
        | none =>
          rw [hacc] at hx
          simp only [Option.some.injEq] at hx
          subst hx
          refine ⟨Or.inr ⟨rfl, rfl⟩, ?_, ?_⟩
          · intro r0 hr0
            exact Option.noConfusion hr0
          · intro j hj
            cases hj
            exact Nat.le_refl _
        | some r1 =>
          rw [hacc] at hx
          simp only at hx
          by_cases hgt : s.idxAt { list := a.list, pos := i } > s.idxAt r1
          · simp only [hgt, if_true, Option.some.injEq] at hx
            subst hx
            refine ⟨Or.inr ⟨rfl, rfl⟩, ?_, ?_⟩
            · intro r0 hr0
              cases hr0
              exact Nat.le_of_lt hgt
            · intro j hj
              cases hj
              exact Nat.le_refl _
          · simp only [hgt, if_false, Option.some.injEq] at hx
            subst hx
            refine ⟨Or.inl rfl, ?_, ?_⟩
            · intro r0 hr0
              cases hr0
              exact Nat.le_refl _
            · intro j hj
              cases hj
              exact Nat.le_of_not_lt hgt
    refine ⟨?_, ?_, ?_⟩
    · rcases h1 with h1 | ⟨b, hb, hbl, hbc⟩
      · rcases (hstep r h1).1 with h4 | ⟨h4, h5⟩
        · exact Or.inl h4
        · exact Or.inr ⟨a, List.mem_cons_self _ _, h4, h5⟩
      · exact Or.inr ⟨b, List.mem_cons_of_mem _ hb, hbl, hbc⟩
    · intro r0 hr0
      cases hx : searchStep s acc a with
      | none =>
        unfold searchStep at hx
        rw [hr0] at hx
        cases hc : SigMatchGetLastSMByType (s.sm_lists a.list) a.type a.bound with
        | none =>
          rw [hc] at hx
          exact Option.noConfusion hx
        | some i =>
          rw [hc] at hx
          simp only at hx
          split at hx <;> exact Option.noConfusion hx
      | some x =>
        exact Nat.le_trans ((hstep x hx).2.1 r0 hr0) (h2 x hx)
    · intro b hb i hi
      rcases List.mem_cons.1 hb with hb | hb
      · subst hb
        cases hx : searchStep s acc b with
        | none =>
          unfold searchStep at hx
          rw [hi] at hx
          cases acc with
          | none => exact Option.noConfusion hx
          | some r1 =>
            simp only at hx
            split at hx <;> exact Option.noConfusion hx
        | some x =>
          exact Nat.le_trans ((hstep x hx).2.2 i hi) (h2 x hx)
      · exact h3 b hb i hi

theorem searchTails_none (s : Signature) (pairs : List (SigMatchType × SmList))
    (h : ∀ p ∈ pairs, ∀ n ∈ s.sm_lists p.2, n.type ≠ p.1) : searchTails s pairs = none := by
  unfold searchTails SigMatchGetLastSMFromLists
  rw [searchFold_none]
  refine ⟨rfl, ?_⟩
  intro a ha
  obtain ⟨p, hp, rfl⟩ := List.mem_map.1 ha
  exact getLastByType_none _ _ _ (h p hp)

/-! ## `DetectIsdataatSetup`: the branches -/

theorem DetectIsdataatSetup_of_parse (mem : IsdataatAllocs) (s : Signature)
    (str : List Nat) (idad : DetectIsdataatData) (offset : Option (List Nat))
    (hparse : DetectIsdataatParse mem str true = some (idad, offset))
    (hsm : mem.sm_ok = true) :
    DetectIsdataatSetup mem s str =
      match isdataatPlace s idad offset with
      | IsdataatPlaced.error s1 => (-1, s1)
      | IsdataatPlaced.done s1 => (0, s1)
      | IsdataatPlaced.anchored s1 sm prev_pm => isdataatFinish s1 sm offset prev_pm := by
  simp [DetectIsdataatSetup, hparse, hsm]

/-- C13: in plain context (not DCERPC, no file-data scope), when no searched
list holds a node of a kind searched for in it, `DetectIsdataatSetup` of a
relative isdataat returns -1 and leaves the signature as it was. -/
theorem isdataat_relative_unanchored_fails (mem : IsdataatAllocs) (s : Signature)
    (str : List Nat) (idad : DetectIsdataatData) (offset : Option (List Nat))
    (hparse : DetectIsdataatParse mem str true = some (idad, offset))
    (hrel : idad.relative = true)
    (hproto : s.alproto ≠ AppProto.ALPROTO_DCERPC) (hfd : s.init_file_data = false)
    (hnone : ∀ p ∈ plainSearch, ∀ n ∈ s.sm_lists p.2, n.type ≠ p.1) :
    DetectIsdataatSetup mem s str = (-1, s) := by
  cases hsm : mem.sm_ok with
  | false => simp [DetectIsdataatSetup, hparse, hsm]
  | true =>
    rw [DetectIsdataatSetup_of_parse mem s str idad offset hparse hsm]
    have hs := searchTails_none s plainSearch hnone
    simp [isdataatPlace, hproto, hfd, hrel, hs]

/-- C13, witness: `4,relative` as the first keyword of a signature. -/
theorem isdataat_relative_unanchored_fails_witness :
    (DetectIsdataatSetup { idad_ok := true, offset_ok := true, sm_ok := true }
      { sm_lists := fun _ => [], sm_cnt := 0 } (cstr "4,relative")).1 = -1 := by
  rw [isdataat_relative_unanchored_fails { idad_ok := true, offset_ok := true, sm_ok := true }
    { sm_lists := fun _ => [], sm_cnt := 0 } (cstr "4,relative")
    { dataat := 4, relative := true, rawbytes := false, negated := false, offset_be := false }
    none (by decide) rfl (by decide) rfl (by simp)]

/-- In a DCERPC signature whose stub-data list holds no Content, Regex or
ByteJump node, a relative isdataat with a literal offset is appended to the
stub-data list, whatever the payload list holds, and nothing else changes. -/
theorem isdataat_dce_stub_default (mem : IsdataatAllocs) (s : Signature)
    (str : List Nat) (idad : DetectIsdataatData)
    (hparse : DetectIsdataatParse mem str true = some (idad, none))
    (hsm : mem.sm_ok = true) (hrel : idad.relative = true)
    (hproto : s.alproto = AppProto.ALPROTO_DCERPC)
    (hnone : ∀ n ∈ s.sm_lists SmList.DETECT_SM_LIST_DMATCH,
      n.type ≠ SigMatchType.DETECT_CONTENT ∧ n.type ≠ SigMatchType.DETECT_PCRE ∧
      n.type ≠ SigMatchType.DETECT_BYTEJUMP) :
    DetectIsdataatSetup mem s str =
      (0, SigMatchAppendSMToList s (isdataatNode idad) SmList.DETECT_SM_LIST_DMATCH) := by
  rw [DetectIsdataatSetup_of_parse mem s str idad none hparse hsm]
  have hdm : searchTails s (dceSearch SmList.DETECT_SM_LIST_DMATCH) = none := by
    apply searchTails_none
    intro p hp n hn
    simp only [dceSearch, List.mem_cons, List.mem_singleton, List.not_mem_nil, or_false] at hp
    rcases hp with rfl | rfl | rfl
    · exact (hnone n hn).1
    · exact (hnone n hn).2.1
    · exact (hnone n hn).2.2
  have hlist : dceList s (searchTails s (dceSearch SmList.DETECT_SM_LIST_PMATCH)) none
      = SmList.DETECT_SM_LIST_DMATCH := by
    unfold dceList
    cases searchTails s (dceSearch SmList.DETECT_SM_LIST_PMATCH) <;> rfl
  have hprev : SigMatchGetLastSMFromLists
      (SigMatchAppendSMToList s (isdataatNode idad) SmList.DETECT_SM_LIST_DMATCH)
      [{ type := SigMatchType.DETECT_CONTENT, list := SmList.DETECT_SM_LIST_DMATCH,
         bound := (s.sm_lists SmList.DETECT_SM_LIST_DMATCH).length },
       { type := SigMatchType.DETECT_BYTEJUMP, list := SmList.DETECT_SM_LIST_DMATCH,
         bound := (s.sm_lists SmList.DETECT_SM_LIST_DMATCH).length },
       { type := SigMatchType.DETECT_PCRE, list := SmList.DETECT_SM_LIST_DMATCH,
         bound := (s.sm_lists SmList.DETECT_SM_LIST_DMATCH).length }] = none := by
    unfold SigMatchGetLastSMFromLists
    rw [searchFold_none]
    refine ⟨rfl, ?_⟩
    intro a ha
    apply getLastByType_none
    intro n hn
    simp only [SigMatchAppendSMToList, if_pos, List.mem_cons, List.mem_singleton,
      List.not_mem_nil, or_false] at ha hn
    have hl : a.list = SmList.DETECT_SM_LIST_DMATCH := by
      rcases ha with rfl | rfl | rfl <;> rfl
    rw [hl] at hn
    simp only [if_true, List.mem_append, List.mem_singleton] at hn
    have hty : a.type = SigMatchType.DETECT_CONTENT ∨ a.type = SigMatchType.DETECT_BYTEJUMP ∨
        a.type = SigMatchType.DETECT_PCRE := by
      rcases ha with rfl | rfl | rfl <;> simp
    rcases hn with hn | hn
    · rcases hty with h | h | h <;> rw [h]
      · exact (hnone n hn).1
      · exact (hnone n hn).2.2
      · exact (hnone n hn).2.1
    · subst hn
      rcases hty with h | h | h <;> rw [h] <;> simp [isdataatNode]
  simp only [isdataatPlace, hproto, hrel, and_self, if_true, hdm, hlist, hprev]
  rfl

/-- C16: in a DCERPC signature with no Content, Regex or ByteJump node in
the payload list or in the stub-data list, `DetectIsdataatSetup` of a
relative isdataat with a literal offset returns 0; the signature afterwards
is the one before with the parsed node appended to the stub-data list, so
the payload list is unchanged and the node keeps its relative flag. -/
theorem isdataat_dce_unanchored (mem : IsdataatAllocs) (s : Signature)
    (str : List Nat) (idad : DetectIsdataatData)
    (hparse : DetectIsdataatParse mem str true = some (idad, none))
    (hsm : mem.sm_ok = true) (hrel : idad.relative = true)
    (hproto : s.alproto = AppProto.ALPROTO_DCERPC)
    (hnone : ∀ l ∈ [SmList.DETECT_SM_LIST_PMATCH, SmList.DETECT_SM_LIST_DMATCH],
      ∀ n ∈ s.sm_lists l,
        n.type ≠ SigMatchType.DETECT_CONTENT ∧ n.type ≠ SigMatchType.DETECT_PCRE ∧
        n.type ≠ SigMatchType.DETECT_BYTEJUMP) :
    DetectIsdataatSetup mem s str =
      (0, SigMatchAppendSMToList s (isdataatNode idad) SmList.DETECT_SM_LIST_DMATCH) ∧
    (DetectIsdataatSetup mem s str).2.sm_lists SmList.DETECT_SM_LIST_DMATCH =
      s.sm_lists SmList.DETECT_SM_LIST_DMATCH ++
        [{ type := SigMatchType.DETECT_ISDATAAT, idx := s.sm_cnt,
           ctx := SigMatchCtx.isdataat idad }] ∧
    (DetectIsdataatSetup mem s str).2.sm_lists SmList.DETECT_SM_LIST_PMATCH =
      s.sm_lists SmList.DETECT_SM_LIST_PMATCH ∧
    idad.relative = true := by
  have h := isdataat_dce_stub_default mem s str idad hparse hsm hrel hproto
    (hnone SmList.DETECT_SM_LIST_DMATCH (by simp))
  rw [h]
  refine ⟨rfl, ?_, ?_, hrel⟩
  · simp [SigMatchAppendSMToList, isdataatNode]
  · simp [SigMatchAppendSMToList]

/-- C16, witness: an empty DCERPC signature given `30,relative`. -/
theorem isdataat_dce_unanchored_witness :
    (DetectIsdataatSetup { idad_ok := true, offset_ok := true, sm_ok := true }
        { sm_lists := fun _ => [], sm_cnt := 0, alproto := AppProto.ALPROTO_DCERPC }
        (cstr "30,relative")).2.sm_lists SmList.DETECT_SM_LIST_DMATCH
      = [{ type := SigMatchType.DETECT_ISDATAAT, idx := 0,
           ctx := SigMatchCtx.isdataat
             { dataat := 30, relative := true, rawbytes := false, negated := false,
               offset_be := false } }] :=
  (isdataat_dce_unanchored { idad_ok := true, offset_ok := true, sm_ok := true }
    { sm_lists := fun _ => [], sm_cnt := 0, alproto := AppProto.ALPROTO_DCERPC }
    (cstr "30,relative")
    { dataat := 30, relative := true, rawbytes := false, negated := false, offset_be := false }
    (by decide) rfl rfl rfl (by simp)).2.1

/-- C18: without file-data scope, in a DCERPC signature or not,
`DetectIsdataatSetup` of a non-relative isdataat with a literal offset
returns 0 and the signature afterwards is the one before with the parsed
node appended to the payload list: no other list and no existing node
changes. -/
theorem isdataat_nonrelative_payload (mem : IsdataatAllocs) (s : Signature)
    (str : List Nat) (idad : DetectIsdataatData)
    (hparse : DetectIsdataatParse mem str true = some (idad, none))
    (hsm : mem.sm_ok = true) (hrel : idad.relative = false)
    (hfd : s.init_file_data = false) :
    DetectIsdataatSetup mem s str =
      (0, SigMatchAppendSMToList s (isdataatNode idad) SmList.DETECT_SM_LIST_PMATCH) ∧
    (DetectIsdataatSetup mem s str).2.sm_lists SmList.DETECT_SM_LIST_PMATCH =
      s.sm_lists SmList.DETECT_SM_LIST_PMATCH ++
        [{ type := SigMatchType.DETECT_ISDATAAT, idx := s.sm_cnt,
           ctx := SigMatchCtx.isdataat idad }] ∧
    (∀ l, l ≠ SmList.DETECT_SM_LIST_PMATCH →
      (DetectIsdataatSetup mem s str).2.sm_lists l = s.sm_lists l) := by
  have h : DetectIsdataatSetup mem s str =
      (0, SigMatchAppendSMToList s (isdataatNode idad) SmList.DETECT_SM_LIST_PMATCH) := by
    rw [DetectIsdataatSetup_of_parse mem s str idad none hparse hsm]
    simp [isdataatPlace, hrel, hfd]
  rw [h]
  refine ⟨rfl, ?_, ?_⟩
  · simp [SigMatchAppendSMToList, isdataatNode]
  · intro l hl
    simp [SigMatchAppendSMToList, hl]

/-- C18, witness: a DCERPC signature given `30` ends with the node in the
payload list and an empty stub-data list. -/
theorem isdataat_nonrelative_payload_witness :
    (DetectIsdataatSetup { idad_ok := true, offset_ok := true, sm_ok := true }
        { sm_lists := fun _ => [], sm_cnt := 0, alproto := AppProto.ALPROTO_DCERPC }
        (cstr "30")).1 = 0 ∧
    (DetectIsdataatSetup { idad_ok := true, offset_ok := true, sm_ok := true }
        { sm_lists := fun _ => [], sm_cnt := 0, alproto := AppProto.ALPROTO_DCERPC }
        (cstr "30")).2.sm_lists SmList.DETECT_SM_LIST_PMATCH
      = [{ type := SigMatchType.DETECT_ISDATAAT, idx := 0,
           ctx := SigMatchCtx.isdataat
             { dataat := 30, relative := false, rawbytes := false, negated := false,
               offset_be := false } }] ∧
    (DetectIsdataatSetup { idad_ok := true, offset_ok := true, sm_ok := true }
        { sm_lists := fun _ => [], sm_cnt := 0, alproto := AppProto.ALPROTO_DCERPC }
        (cstr "30")).2.sm_lists SmList.DETECT_SM_LIST_DMATCH = [] :=
  ⟨by rw [(isdataat_nonrelative_payload { idad_ok := true, offset_ok := true, sm_ok := true }
        { sm_lists := fun _ => [], sm_cnt := 0, alproto := AppProto.ALPROTO_DCERPC }
        (cstr "30")
        { dataat := 30, relative := false, rawbytes := false, negated := false,
          offset_be := false }
        (by decide) rfl rfl rfl).1],
   (isdataat_nonrelative_payload { idad_ok := true, offset_ok := true, sm_ok := true }
        { sm_lists := fun _ => [], sm_cnt := 0, alproto := AppProto.ALPROTO_DCERPC }
        (cstr "30")
        { dataat := 30, relative := false, rawbytes := false, negated := false,
          offset_be := false }
        (by decide) rfl rfl rfl).2.1,
   (isdataat_nonrelative_payload { idad_ok := true, offset_ok := true, sm_ok := true }
        { sm_lists := fun _ => [], sm_cnt := 0, alproto := AppProto.ALPROTO_DCERPC }
        (cstr "30")
        { dataat := 30, relative := false, rawbytes := false, negated := false,
          offset_be := false }
        (by decide) rfl rfl rfl).2.2 SmList.DETECT_SM_LIST_DMATCH (by decide)⟩

/-! ## `DetectIsdataatSetup`: nodes before and after -/

theorem nodeAt_setNode (s : Signature) (r r2 : SmRef) (n : SigMatch) :
    (s.setNode r n).nodeAt r2 = if r2 = r then (s.nodeAt r).map (fun _ => n) else s.nodeAt r2 := by
  obtain ⟨rl, rp⟩ := r
  obtain ⟨l2, p2⟩ := r2
  simp only [Signature.setNode, Signature.nodeAt, SmRef.mk.injEq]
  by_cases hl : l2 = rl
  · subst hl
    simp only [if_true, true_and, List.getElem?_set]
    by_cases hp : rp = p2
    · subst hp
      simp only [if_true]
      by_cases hlt : rp < (s.sm_lists l2).length
      · simp [hlt, List.getElem?_eq_getElem hlt]
      · simp [hlt, List.getElem?_eq_none (Nat.le_of_not_lt hlt)]
    · have hp2 : ¬ p2 = rp := fun h => hp h.symm
      simp [hp, hp2]
  · simp [hl]

theorem sm_lists_setNode_length (s : Signature) (r : SmRef) (n : SigMatch) (l : SmList) :
    ((s.setNode r n).sm_lists l).length = (s.sm_lists l).length := by
  simp only [Signature.setNode]
  split <;> simp

theorem nodeAt_append_old (s : Signature) (new : SigMatch) (list : SmList) (r : SmRef)
    (h : r.pos < (s.sm_lists r.list).length) :
    (SigMatchAppendSMToList s new list).nodeAt r = s.nodeAt r := by
  simp only [SigMatchAppendSMToList, Signature.nodeAt]
  split
  · rename_i hl
    rw [List.getElem?_append_left h]
  · rfl

theorem nodeAt_append_new (s : Signature) (new : SigMatch) (list : SmList) :
    (SigMatchAppendSMToList s new list).nodeAt { list := list, pos := (s.sm_lists list).length }
      = some { new with idx := s.sm_cnt } := by
  simp [SigMatchAppendSMToList, Signature.nodeAt]

theorem nodeAt_isdataatSetVar_ne (s : Signature) (sm r : SmRef) (k : Nat) (h : r ≠ sm) :
    (isdataatSetVar s sm k).nodeAt r = s.nodeAt r := by
  unfold isdataatSetVar
  cases s.nodeAt sm with
  | none => rfl
  | some n =>
    obtain ⟨ty, ix, cx⟩ := n
    cases cx
    all_goals first | rfl | (simp only []; rw [nodeAt_setNode]; simp [h])

/-- What the final `switch` does when it returns 0: the anchor is a node of
one of the five kinds; a Content or Regex anchor comes out with its
relative-next bit set and its other bits as before, an anchor of the three
other kinds comes out as it was, and so does every other node. -/
theorem isdataatFlagAnchor_ok (s2 : Signature) (pm : SmRef)
    (h0 : (isdataatFlagAnchor s2 pm).1 = 0) :
    ∃ a, s2.nodeAt pm = some a ∧ anchorKind a.type = true ∧
      (a.type = SigMatchType.DETECT_CONTENT → ∃ cd, a.ctx = SigMatchCtx.content cd ∧
        (isdataatFlagAnchor s2 pm).2.nodeAt pm
          = some { a with ctx := SigMatchCtx.content { cd with relative_next := true } }) ∧
      (a.type = SigMatchType.DETECT_PCRE → ∃ pe, a.ctx = SigMatchCtx.pcre pe ∧
        (isdataatFlagAnchor s2 pm).2.nodeAt pm
          = some { a with ctx := SigMatchCtx.pcre { pe with relative_next := true } }) ∧
      (a.type = SigMatchType.DETECT_BYTEJUMP ∨ a.type = SigMatchType.DETECT_BYTETEST ∨
        a.type = SigMatchType.DETECT_BYTE_EXTRACT →
        (isdataatFlagAnchor s2 pm).2.nodeAt pm = some a) ∧
      (∀ r, r ≠ pm → (isdataatFlagAnchor s2 pm).2.nodeAt r = s2.nodeAt r) ∧
      (∀ l, ((isdataatFlagAnchor s2 pm).2.sm_lists l).length = (s2.sm_lists l).length) := by
  unfold isdataatFlagAnchor at h0 ⊢
  cases hn : s2.nodeAt pm with
  | none => simp [hn] at h0
  | some a =>
    refine ⟨a, rfl, ?_⟩
    obtain ⟨ty, ix, cx⟩ := a
    simp only [hn] at h0 ⊢
    cases ty <;> cases cx <;>
      simp_all [anchorKind, nodeAt_setNode, sm_lists_setNode_length]

/-- When the final `switch` returns 0 on an anchor with a well-formed
descriptor. -/
theorem isdataatFlagAnchor_ret (s2 : Signature) (pm : SmRef) (a : SigMatch)
    (ha : s2.nodeAt pm = some a) (hk : anchorKind a.type = true)
    (hc : a.type = SigMatchType.DETECT_CONTENT → ∃ cd, a.ctx = SigMatchCtx.content cd)
    (hp : a.type = SigMatchType.DETECT_PCRE → ∃ pe, a.ctx = SigMatchCtx.pcre pe) :
    (isdataatFlagAnchor s2 pm).1 = 0 := by
  unfold isdataatFlagAnchor
  obtain ⟨ty, ix, cx⟩ := a
  simp only [ha]
  cases ty <;> simp_all [anchorKind]
  · obtain ⟨cd, rfl⟩ := hc
    rfl
  · obtain ⟨pe, rfl⟩ := hp
    rfl

/-- What a search over list tails returns: an existing node of a kind
searched for in its list, whose sequence number is at least that of every
candidate. -/
theorem searchTails_some (s : Signature) (pairs : List (SigMatchType × SmList)) (r : SmRef)
    (h : searchTails s pairs = some r) :
    r.pos < (s.sm_lists r.list).length ∧
    (∃ a, s.nodeAt r = some a ∧ (a.type, r.list) ∈ pairs) ∧
    (∀ p ∈ pairs, ∀ i,
      SigMatchGetLastSMByType (s.sm_lists p.2) p.1 (s.sm_lists p.2).length = some i →
      s.idxAt { list := p.2, pos := i } ≤ s.idxAt r) := by
  unfold searchTails SigMatchGetLastSMFromLists at h
  obtain ⟨h1, _, h3⟩ := searchFold_some s _ none r h
  rcases h1 with h1 | ⟨a, ha, hal, hac⟩
  · exact Option.noConfusion h1
  · obtain ⟨p, hp, rfl⟩ := List.mem_map.1 ha
    simp only [tailArg] at hal hac
    obtain ⟨g1, ⟨n, hn, hnt⟩, _⟩ := getLastByType_some _ _ _ _ hac
    refine ⟨by rw [← hal]; exact g1, ⟨n, ?_, ?_⟩, ?_⟩
    · simp only [Signature.nodeAt, ← hal]
      exact hn
    · rw [hnt, ← hal]
      exact hp
    · intro q hq i hi
      exact h3 (tailArg s q.1 q.2) (List.mem_map.2 ⟨q, hq, rfl⟩) i hi

theorem searchTails_isSome (s : Signature) (pairs : List (SigMatchType × SmList))
    (h : ∃ p ∈ pairs, ∃ n ∈ s.sm_lists p.2, n.type = p.1) :
    ∃ r, searchTails s pairs = some r := by
  cases hs : searchTails s pairs with
  | some r => exact ⟨r, rfl⟩
  | none =>
    exfalso
    unfold searchTails SigMatchGetLastSMFromLists at hs
    rw [searchFold_none] at hs
    obtain ⟨p, hp, n, hn, ht⟩ := h
    obtain ⟨j, hj⟩ := List.mem_iff_getElem?.1 hn
    have hjlt : j < (s.sm_lists p.2).length := by
      obtain ⟨hlt, _⟩ := List.getElem?_eq_some_iff.1 hj
      exact hlt
    obtain ⟨i, hi, _⟩ := getLastByType_of_node _ _ _ j n hjlt hj ht
    have := hs.2 (tailArg s p.1 p.2) (List.mem_map.2 ⟨p, hp, rfl⟩)
    simp only [tailArg] at this
    rw [this] at hi
    exact Option.noConfusion hi

/-- In a signature in compile order, the node a search over list tails
returns has the highest sequence number among all nodes of a kind searched
for in their list. -/
theorem searchTails_max (s : Signature) (pairs : List (SigMatchType × SmList)) (r : SmRef)
    (a : SigMatch) (hord : s.Ordered) (h : searchTails s pairs = some r)
    (ha : s.nodeAt r = some a) :
    ∀ p ∈ pairs, ∀ n ∈ s.sm_lists p.2, n.type = p.1 → n.idx ≤ a.idx := by
  intro p hp n hn ht
  obtain ⟨_, _, h3⟩ := searchTails_some s pairs r h
  obtain ⟨j, hj⟩ := List.mem_iff_getElem?.1 hn
  obtain ⟨hjlt, hjn⟩ := List.getElem?_eq_some_iff.1 hj
  obtain ⟨i, hi, hji⟩ := getLastByType_of_node _ _ _ j n hjlt hj ht
  obtain ⟨hib, ⟨m, hm, _⟩, _⟩ := getLastByType_some _ _ _ _ hi
  have h4 := h3 p hp i hi
  have hidx : s.idxAt { list := p.2, pos := i } = m.idx := by
    simp [Signature.idxAt, Signature.nodeAt, hm]
  have hra : s.idxAt r = a.idx := by
    simp [Signature.idxAt, ha]
  rw [hidx, hra] at h4
  have hnm : n.idx ≤ m.idx := by
    rcases Nat.lt_or_ge j i with hlt | hge
    · obtain ⟨hilt, him⟩ := List.getElem?_eq_some_iff.1 hm
      have := (List.pairwise_iff_getElem.1 (hord p.2)) j i hjlt hilt hlt
      rw [hjn, him] at this
      exact Nat.le_of_lt this
    · have hij : i = j := Nat.le_antisymm hge hji
      subst hij
      rw [hj] at hm
      cases hm
      exact Nat.le_refl _
  exact Nat.le_trans hnm h4

theorem plainSearch_anchorKind : ∀ p ∈ plainSearch, anchorKind p.1 = true := by
  decide

theorem fileDataSearch_anchorKind : ∀ p ∈ fileDataSearch, anchorKind p.1 = true := by
  decide

theorem getLast?_of_getElem? (l : List SigMatch) (k : Nat) (x : SigMatch)
    (hlen : l.length = k + 1) (hx : l[k]? = some x) : l.getLast? = some x := by
  rw [List.getLast?_eq_getElem?, hlen]
  simpa using hx

/-- An anchored relative isdataat with a literal offset, once the node is
appended to the list `list` of a signature `s0` and the anchor `pm` is an
older node with a well-formed descriptor: the tail returns 0 and the new
node stays the last node of its list. -/
theorem isdataatFinish_literal (s0 : Signature) (idad : DetectIsdataatData) (list : SmList)
    (pm : SmRef) (a : SigMatch) (ha : s0.nodeAt pm = some a)
    (hk : anchorKind a.type = true)
    (hc : a.type = SigMatchType.DETECT_CONTENT → ∃ cd, a.ctx = SigMatchCtx.content cd)
    (hp : a.type = SigMatchType.DETECT_PCRE → ∃ pe, a.ctx = SigMatchCtx.pcre pe) :
    (isdataatFinish (SigMatchAppendSMToList s0 (isdataatNode idad) list)
      { list := list, pos := (s0.sm_lists list).length } none pm).1 = 0 ∧
    ((isdataatFinish (SigMatchAppendSMToList s0 (isdataatNode idad) list)
      { list := list, pos := (s0.sm_lists list).length } none pm).2.sm_lists list).getLast?
      = some { type := SigMatchType.DETECT_ISDATAAT, idx := s0.sm_cnt,
               ctx := SigMatchCtx.isdataat idad } ∧
    ((isdataatFinish (SigMatchAppendSMToList s0 (isdataatNode idad) list)
      { list := list, pos := (s0.sm_lists list).length } none pm).2.sm_lists list).length
      = (s0.sm_lists list).length + 1 := by
  have hpos : pm.pos < (s0.sm_lists pm.list).length := by
    simp only [Signature.nodeAt] at ha
    exact (List.getElem?_eq_some_iff.1 ha).1
  have ha1 : (SigMatchAppendSMToList s0 (isdataatNode idad) list).nodeAt pm = some a := by
    rw [nodeAt_append_old s0 _ list pm hpos]
    exact ha
  have hret := isdataatFlagAnchor_ret _ pm a ha1 hk hc hp
  obtain ⟨b, _, _, _, _, _, hother, hlen⟩ := isdataatFlagAnchor_ok _ pm hret
  have hne : ({ list := list, pos := (s0.sm_lists list).length } : SmRef) ≠ pm := by
    intro h
    rw [← h] at hpos
    exact Nat.lt_irrefl _ hpos
  have hnew := hother _ hne
  rw [nodeAt_append_new] at hnew
  have hl := hlen list
  have hl1 : ((SigMatchAppendSMToList s0 (isdataatNode idad) list).sm_lists list).length
      = (s0.sm_lists list).length + 1 := by
    simp [SigMatchAppendSMToList]
  simp only [isdataatFinish, isdataatResolve]
  refine ⟨hret, ?_, ?_⟩
  · apply getLast?_of_getElem? _ (s0.sm_lists list).length
    · rw [hl, hl1]
    · simpa [Signature.nodeAt, isdataatNode] using hnew
  · rw [hl, hl1]

/-- C14: in plain context, for a signature in compile order with well-formed
descriptors that holds at least one eligible anchor, `DetectIsdataatSetup`
of a relative isdataat with a literal offset returns 0.  The anchor `a`
chosen is a node of a kind searched for in its list and has the highest
sequence number of all such nodes; the new node, with the descriptor as
parsed (relative and negated flags included), becomes the last node of the
anchor's list, which grows by one. -/
theorem isdataat_relative_plain_anchored (mem : IsdataatAllocs) (s : Signature)
    (str : List Nat) (idad : DetectIsdataatData)
    (hparse : DetectIsdataatParse mem str true = some (idad, none))
    (hsm : mem.sm_ok = true) (hrel : idad.relative = true)
    (hproto : s.alproto ≠ AppProto.ALPROTO_DCERPC) (hfd : s.init_file_data = false)
    (hord : s.Ordered) (hctx : s.CtxOk)
    (hanchor : ∃ p ∈ plainSearch, ∃ n ∈ s.sm_lists p.2, n.type = p.1) :
    ∃ (pm : SmRef) (a : SigMatch),
      s.nodeAt pm = some a ∧ (a.type, pm.list) ∈ plainSearch ∧
      (∀ p ∈ plainSearch, ∀ n ∈ s.sm_lists p.2, n.type = p.1 → n.idx ≤ a.idx) ∧
      (DetectIsdataatSetup mem s str).1 = 0 ∧
      ((DetectIsdataatSetup mem s str).2.sm_lists pm.list).getLast?
        = some { type := SigMatchType.DETECT_ISDATAAT, idx := s.sm_cnt,
                 ctx := SigMatchCtx.isdataat idad } ∧
      ((DetectIsdataatSetup mem s str).2.sm_lists pm.list).length
        = (s.sm_lists pm.list).length + 1 := by
  obtain ⟨pm, hpm⟩ := searchTails_isSome s plainSearch hanchor
  obtain ⟨_, ⟨a, ha, hin⟩, _⟩ := searchTails_some s plainSearch pm hpm
  have hk : anchorKind a.type = true := plainSearch_anchorKind _ hin
  have hmem : a ∈ s.sm_lists pm.list := List.getElem?_mem ha
  have hfin := isdataatFinish_literal s idad pm.list pm a ha hk
    (hctx pm.list a hmem).1 (hctx pm.list a hmem).2
  have hsetup : DetectIsdataatSetup mem s str =
      isdataatFinish (SigMatchAppendSMToList s (isdataatNode idad) pm.list)
        { list := pm.list, pos := (s.sm_lists pm.list).length } none pm := by
    rw [DetectIsdataatSetup_of_parse mem s str idad none hparse hsm]
    simp [isdataatPlace, hproto, hfd, hrel, hpm]
  rw [hsetup]
  exact ⟨pm, a, ha, hin, searchTails_max s plainSearch pm a hord hpm ha, hfin⟩

/-- C14, witness: after a Content node (sequence number 0) in the URI list,
`!4,relative` becomes the last node of that list; the same holds with the
Content node in the client-body, header, raw-header, method or cookie
list (the anchor comes out flagged). -/
theorem isdataat_relative_plain_anchored_witness :
    (∃ (pm : SmRef) (a : SigMatch),
      (oneListSignature SmList.DETECT_SM_LIST_UMATCH [contentNode 0 false]
        AppProto.ALPROTO_UNKNOWN false).nodeAt pm = some a ∧
      (a.type, pm.list) ∈ plainSearch ∧
      (∀ p ∈ plainSearch,
        ∀ n ∈ (oneListSignature SmList.DETECT_SM_LIST_UMATCH [contentNode 0 false]
          AppProto.ALPROTO_UNKNOWN false).sm_lists p.2, n.type = p.1 → n.idx ≤ a.idx) ∧
      (DetectIsdataatSetup allocOk
        (oneListSignature SmList.DETECT_SM_LIST_UMATCH [contentNode 0 false]
          AppProto.ALPROTO_UNKNOWN false) (cstr "!4,relative")).1 = 0 ∧
      ((DetectIsdataatSetup allocOk
        (oneListSignature SmList.DETECT_SM_LIST_UMATCH [contentNode 0 false]
          AppProto.ALPROTO_UNKNOWN false) (cstr "!4,relative")).2.sm_lists pm.list).getLast?
        = some { type := SigMatchType.DETECT_ISDATAAT,
                 idx := (oneListSignature SmList.DETECT_SM_LIST_UMATCH [contentNode 0 false]
                   AppProto.ALPROTO_UNKNOWN false).sm_cnt,
                 ctx := SigMatchCtx.isdataat
                   { dataat := 4, relative := true, rawbytes := false, negated := true,
                     offset_be := false } } ∧
      ((DetectIsdataatSetup allocOk
        (oneListSignature SmList.DETECT_SM_LIST_UMATCH [contentNode 0 false]
          AppProto.ALPROTO_UNKNOWN false) (cstr "!4,relative")).2.sm_lists pm.list).length
        = ((oneListSignature SmList.DETECT_SM_LIST_UMATCH [contentNode 0 false]
          AppProto.ALPROTO_UNKNOWN false).sm_lists pm.list).length + 1) ∧
    (∀ list ∈ [SmList.DETECT_SM_LIST_UMATCH, SmList.DETECT_SM_LIST_HCBDMATCH,
        SmList.DETECT_SM_LIST_HHDMATCH, SmList.DETECT_SM_LIST_HRHDMATCH,
        SmList.DETECT_SM_LIST_HMDMATCH, SmList.DETECT_SM_LIST_HCDMATCH],
      (DetectIsdataatSetup allocOk
        (oneListSignature list [contentNode 0 false] AppProto.ALPROTO_UNKNOWN false)
        (cstr "!4,relative")).2.sm_lists list
        = [contentNode 0 true, isdataatNodeAt 1 4 true true]) :=
  ⟨isdataat_relative_plain_anchored allocOk
    (oneListSignature SmList.DETECT_SM_LIST_UMATCH [contentNode 0 false]
      AppProto.ALPROTO_UNKNOWN false)
    (cstr "!4,relative")
    { dataat := 4, relative := true, rawbytes := false, negated := true, offset_be := false }
    (by decide) rfl rfl (by decide) rfl
    (by intro l; cases l <;> simp [oneListSignature])
    (by intro l; cases l <;> simp [oneListSignature, contentNode])
    ⟨(SigMatchType.DETECT_CONTENT, SmList.DETECT_SM_LIST_UMATCH), by decide,
     contentNode 0 false, by simp [oneListSignature], rfl⟩,
   by decide⟩

theorem fileDataSearch_list : ∀ p ∈ fileDataSearch, p.2 = SmList.DETECT_SM_LIST_HSBDMATCH := by
  decide

/-- C17: in a non-DCERPC signature with file-data scope, a relative isdataat
with a literal offset is appended to the file-data list and the call
returns 0.  If that list holds no eligible anchor, the node is appended with
its relative flag cleared and every other field, the negated flag included,
as parsed; if it holds one (with a well-formed descriptor), the node is
appended as parsed, relative flag set. -/
theorem isdataat_file_data (mem : IsdataatAllocs) (s : Signature)
    (str : List Nat) (idad : DetectIsdataatData)
    (hparse : DetectIsdataatParse mem str true = some (idad, none))
    (hsm : mem.sm_ok = true) (hrel : idad.relative = true)
    (hproto : s.alproto ≠ AppProto.ALPROTO_DCERPC) (hfd : s.init_file_data = true) :
    ((∀ p ∈ fileDataSearch, ∀ n ∈ s.sm_lists p.2, n.type ≠ p.1) →
      DetectIsdataatSetup mem s str =
        (0, SigMatchAppendSMToList { s with flag_applayer := true }
          (isdataatNode { idad with relative := false }) SmList.DETECT_SM_LIST_HSBDMATCH) ∧
      (DetectIsdataatSetup mem s str).2.sm_lists SmList.DETECT_SM_LIST_HSBDMATCH =
        s.sm_lists SmList.DETECT_SM_LIST_HSBDMATCH ++
          [{ type := SigMatchType.DETECT_ISDATAAT, idx := s.sm_cnt,
             ctx := SigMatchCtx.isdataat
               { dataat := idad.dataat, relative := false, rawbytes := idad.rawbytes,
                 negated := idad.negated, offset_be := idad.offset_be } }]) ∧
    ((∃ p ∈ fileDataSearch, ∃ n ∈ s.sm_lists p.2, n.type = p.1) → s.CtxOk →
      (DetectIsdataatSetup mem s str).1 = 0 ∧
      ((DetectIsdataatSetup mem s str).2.sm_lists SmList.DETECT_SM_LIST_HSBDMATCH).getLast?
        = some { type := SigMatchType.DETECT_ISDATAAT, idx := s.sm_cnt,
                 ctx := SigMatchCtx.isdataat idad } ∧
      ((DetectIsdataatSetup mem s str).2.sm_lists SmList.DETECT_SM_LIST_HSBDMATCH).length
        = (s.sm_lists SmList.DETECT_SM_LIST_HSBDMATCH).length + 1) := by
  constructor
  · intro hnone
    have hs := searchTails_none s fileDataSearch hnone
    have h : DetectIsdataatSetup mem s str =
        (0, SigMatchAppendSMToList { s with flag_applayer := true }
          (isdataatNode { idad with relative := false }) SmList.DETECT_SM_LIST_HSBDMATCH) := by
      rw [DetectIsdataatSetup_of_parse mem s str idad none hparse hsm]
      simp [isdataatPlace, hproto, hfd, hrel, hs]
    rw [h]
    refine ⟨rfl, ?_⟩
    simp [SigMatchAppendSMToList, isdataatNode]
  · intro hanchor hctx
    obtain ⟨pm, hpm⟩ := searchTails_isSome s fileDataSearch hanchor
    obtain ⟨_, ⟨a, ha, hin⟩, _⟩ := searchTails_some s fileDataSearch pm hpm
    have hk : anchorKind a.type = true := fileDataSearch_anchorKind _ hin
    have hl : pm.list = SmList.DETECT_SM_LIST_HSBDMATCH := fileDataSearch_list _ hin
    have hmem : a ∈ s.sm_lists pm.list := List.getElem?_mem ha
    have hfin := isdataatFinish_literal { s with flag_applayer := true } idad
      SmList.DETECT_SM_LIST_HSBDMATCH pm a ha hk
      (hctx pm.list a hmem).1 (hctx pm.list a hmem).2
    have hsetup : DetectIsdataatSetup mem s str =
        isdataatFinish (SigMatchAppendSMToList { s with flag_applayer := true }
            (isdataatNode idad) SmList.DETECT_SM_LIST_HSBDMATCH)
          { list := SmList.DETECT_SM_LIST_HSBDMATCH,
            pos := (s.sm_lists SmList.DETECT_SM_LIST_HSBDMATCH).length } none pm := by
      rw [DetectIsdataatSetup_of_parse mem s str idad none hparse hsm]
      simp [isdataatPlace, hproto, hfd, hrel, hpm]
    rw [hsetup]
    exact hfin

/-- C17, witness: `file_data; isdataat:!4,relative` (the node is appended
with the relative flag cleared and the negated flag set) and
`file_data; content:"one"; isdataat:!4,relative` (the relative flag is
kept). -/
theorem isdataat_file_data_witness :
    (DetectIsdataatSetup allocOk
        (oneListSignature SmList.DETECT_SM_LIST_HSBDMATCH [] AppProto.ALPROTO_UNKNOWN true)
        (cstr "!4,relative")).2.sm_lists SmList.DETECT_SM_LIST_HSBDMATCH
      = [isdataatNodeAt 0 4 false true] ∧
    ((DetectIsdataatSetup allocOk
        (oneListSignature SmList.DETECT_SM_LIST_HSBDMATCH [contentNode 0 false]
          AppProto.ALPROTO_UNKNOWN true)
        (cstr "!4,relative")).2.sm_lists SmList.DETECT_SM_LIST_HSBDMATCH).getLast?
      = some (isdataatNodeAt 1 4 true true) :=
  ⟨((isdataat_file_data allocOk
      (oneListSignature SmList.DETECT_SM_LIST_HSBDMATCH [] AppProto.ALPROTO_UNKNOWN true)
      (cstr "!4,relative")
      { dataat := 4, relative := true, rawbytes := false, negated := true, offset_be := false }
      (by decide) rfl rfl (by decide) rfl).1
      (by intro p _ n hn; cases p.2 <;> simp [oneListSignature] at hn)).2,
   ((isdataat_file_data allocOk
      (oneListSignature SmList.DETECT_SM_LIST_HSBDMATCH [contentNode 0 false]
        AppProto.ALPROTO_UNKNOWN true)
      (cstr "!4,relative")
      { dataat := 4, relative := true, rawbytes := false, negated := true, offset_be := false }
      (by decide) rfl rfl (by decide) rfl).2
      ⟨(SigMatchType.DETECT_CONTENT, SmList.DETECT_SM_LIST_HSBDMATCH), by decide,
        contentNode 0 false, by simp [oneListSignature], rfl⟩
      (by intro l; cases l <;> simp [oneListSignature, contentNode])).2.1⟩

/-- When the placement part ends with an anchor: the new node `sm` is the
node just appended at the tail of its list, and the anchor `prev_pm` is an
older node. -/
theorem isdataatPlace_anchored (s : Signature) (idad : DetectIsdataatData)
    (offset : Option (List Nat)) (s1 : Signature) (sm pm : SmRef)
    (h : isdataatPlace s idad offset = IsdataatPlaced.anchored s1 sm pm) :
    sm.pos = (s.sm_lists sm.list).length ∧
    pm.pos < (s.sm_lists pm.list).length ∧
    (∃ s0 idad1, s0.sm_lists = s.sm_lists ∧
      s1 = SigMatchAppendSMToList s0 (isdataatNode idad1) sm.list) := by
  unfold isdataatPlace at h
  by_cases hdce : s.alproto = AppProto.ALPROTO_DCERPC ∧ idad.relative = true
  · simp only [hdce, and_self, if_true] at h
    generalize hlist : dceList s (searchTails s (dceSearch SmList.DETECT_SM_LIST_PMATCH))
      (searchTails s (dceSearch SmList.DETECT_SM_LIST_DMATCH)) = list at h
    cases hprev : SigMatchGetLastSMFromLists (SigMatchAppendSMToList s (isdataatNode idad) list)
      [{ type := SigMatchType.DETECT_CONTENT, list := list, bound := (s.sm_lists list).length },
       { type := SigMatchType.DETECT_BYTEJUMP, list := list, bound := (s.sm_lists list).length },
       { type := SigMatchType.DETECT_PCRE, list := list, bound := (s.sm_lists list).length }] with
    | none =>
      rw [hprev] at h
      cases offset <;> simp at h
    | some a =>
      rw [hprev] at h
      simp only [IsdataatPlaced.anchored.injEq] at h
      obtain ⟨h1, h2, h3⟩ := h
      subst h1 h2 h3
      refine ⟨rfl, ?_, ⟨s, idad, rfl, rfl⟩⟩
      unfold SigMatchGetLastSMFromLists at hprev
      obtain ⟨hc, _, _⟩ := searchFold_some _ _ none a hprev
      rcases hc with hc | ⟨arg, harg, hal, hac⟩
      · exact Option.noConfusion hc
      · obtain ⟨g1, _, _⟩ := getLastByType_some _ _ _ _ hac
        have hb : arg.list = list ∧ arg.bound = (s.sm_lists list).length := by
          simp only [List.mem_cons, List.mem_singleton, List.not_mem_nil, or_false] at harg
          rcases harg with rfl | rfl | rfl <;> exact ⟨rfl, rfl⟩
        rw [hb.2, ← hb.1, hal] at g1
        exact g1
  · simp only [hdce, if_false] at h
    cases hfd : s.init_file_data with
    | true =>
      simp only [hfd, if_true] at h
      cases hpm : (if idad.relative = true then searchTails s fileDataSearch else none) with
      | none =>
        rw [hpm] at h
        cases offset <;> simp at h
      | some a =>
        rw [hpm] at h
        simp only [IsdataatPlaced.anchored.injEq] at h
        obtain ⟨h1, h2, h3⟩ := h
        subst h1 h2 h3
        refine ⟨rfl, ?_, ⟨_, _, ?_, rfl⟩⟩
        swap
        · rfl
        by_cases hr : idad.relative = true
        · rw [if_pos hr] at hpm
          exact (searchTails_some s _ a hpm).1
        · rw [if_neg hr] at hpm
          exact Option.noConfusion hpm
    | false =>
      simp only [hfd, Bool.false_eq_true, if_false] at h
      cases hr : idad.relative with
      | false =>
        simp only [hr, if_true] at h
        cases offset with
        | none => simp at h
        | some name =>
          simp only at h
          cases hb : DetectByteExtractRetrieveSMVar name
            (SigMatchAppendSMToList s (isdataatNode idad) SmList.DETECT_SM_LIST_PMATCH)
            SmList.DETECT_SM_LIST_PMATCH with
          | none =>
            rw [hb] at h
            simp at h
          | some bed =>
            rw [hb] at h
            simp at h
      | true =>
        simp only [hr, Bool.true_eq_false, if_false] at h
        cases hpm : searchTails s plainSearch with
        | none =>
          rw [hpm] at h
          simp at h
        | some a =>
          rw [hpm] at h
          simp only [IsdataatPlaced.anchored.injEq] at h
          obtain ⟨h1, h2, h3⟩ := h
          subst h1 h2 h3
          exact ⟨rfl, (searchTails_some s _ a hpm).1, ⟨s, idad, rfl, rfl⟩⟩

theorem sm_lists_isdataatSetVar_length (s : Signature) (sm : SmRef) (k : Nat) (l : SmList) :
    ((isdataatSetVar s sm k).sm_lists l).length = (s.sm_lists l).length := by
  unfold isdataatSetVar
  cases s.nodeAt sm with
  | none => rfl
  | some n =>
    obtain ⟨ty, ix, cx⟩ := n
    cases cx
    all_goals first | rfl | (simp only []; rw [sm_lists_setNode_length])

theorem retrieve_append (name : List Nat) (s0 : Signature) (idad : DetectIsdataatData)
    (list l : SmList) :
    DetectByteExtractRetrieveSMVar name (SigMatchAppendSMToList s0 (isdataatNode idad) list) l
      = DetectByteExtractRetrieveSMVar name s0 l := by
  unfold DetectByteExtractRetrieveSMVar SigMatchAppendSMToList
  by_cases hl : l = list
  · simp [hl, List.findSome?_append, isdataatNode]
  · simp [hl]

theorem retrieve_congr (name : List Nat) (s0 s : Signature) (l : SmList)
    (h : s0.sm_lists = s.sm_lists) :
    DetectByteExtractRetrieveSMVar name s0 l = DetectByteExtractRetrieveSMVar name s l := by
  unfold DetectByteExtractRetrieveSMVar
  rw [h]

theorem isdataatResolve_some (s1 : Signature) (sm : SmRef) (offset : Option (List Nat))
    (s2 : Signature) (h : isdataatResolve s1 sm offset = some s2) :
    (∀ r, r ≠ sm → s2.nodeAt r = s1.nodeAt r) ∧
    (∀ l, (s2.sm_lists l).length = (s1.sm_lists l).length) ∧
    (∀ name, offset = some name →
      ∃ bed, DetectByteExtractRetrieveSMVar name s1 sm.list = some bed) := by
  unfold isdataatResolve at h
  cases offset with
  | none =>
    simp only [Option.some.injEq] at h
    subst h
    exact ⟨fun _ _ => rfl, fun _ => rfl, fun _ hn => Option.noConfusion hn⟩
  | some name =>
    simp only at h
    cases hb : DetectByteExtractRetrieveSMVar name s1 sm.list with
    | none =>
      rw [hb] at h
      exact Option.noConfusion h
    | some bed =>
      rw [hb] at h
      simp only [Option.some.injEq] at h
      subst h
      refine ⟨fun r hr => nodeAt_isdataatSetVar_ne s1 sm r _ hr,
        fun l => sm_lists_isdataatSetVar_length s1 sm _ l, ?_⟩
      intro n hn
      cases hn
      exact ⟨bed, hb⟩

theorem isdataatFlagAnchor_ret_cases (s2 : Signature) (pm : SmRef) :
    (isdataatFlagAnchor s2 pm).1 = 0 ∨ (isdataatFlagAnchor s2 pm).1 = -1 := by
  unfold isdataatFlagAnchor
  cases s2.nodeAt pm with
  | none => exact Or.inr rfl
  | some a =>
    obtain ⟨ty, ix, cx⟩ := a
    cases ty <;> cases cx <;> simp

/-- C19: on a successful `DetectIsdataatSetup` that found an anchor
`prev_pm`, the anchor is an older node of one of the five anchor kinds; a
Content or Regex anchor ends with its relative-next bit set and its other
fields as before, a ByteJump, ByteTest or ByteExtract anchor ends as it was,
and every other node the signature had ends as it was. -/
theorem isdataat_anchor_flagged (mem : IsdataatAllocs) (s : Signature) (str : List Nat)
    (idad : DetectIsdataatData) (offset : Option (List Nat)) (s1 : Signature) (sm pm : SmRef)
    (hparse : DetectIsdataatParse mem str true = some (idad, offset))
    (hsm : mem.sm_ok = true)
    (hplace : isdataatPlace s idad offset = IsdataatPlaced.anchored s1 sm pm)
    (hret : (DetectIsdataatSetup mem s str).1 = 0) :
    ∃ a, s.nodeAt pm = some a ∧ anchorKind a.type = true ∧
      (a.type = SigMatchType.DETECT_CONTENT → ∃ cd, a.ctx = SigMatchCtx.content cd ∧
        (DetectIsdataatSetup mem s str).2.nodeAt pm
          = some { a with ctx := SigMatchCtx.content { cd with relative_next := true } }) ∧
      (a.type = SigMatchType.DETECT_PCRE → ∃ pe, a.ctx = SigMatchCtx.pcre pe ∧
        (DetectIsdataatSetup mem s str).2.nodeAt pm
          = some { a with ctx := SigMatchCtx.pcre { pe with relative_next := true } }) ∧
      (a.type = SigMatchType.DETECT_BYTEJUMP ∨ a.type = SigMatchType.DETECT_BYTETEST ∨
        a.type = SigMatchType.DETECT_BYTE_EXTRACT →
        (DetectIsdataatSetup mem s str).2.nodeAt pm = some a) ∧
      (∀ r n, r ≠ pm → s.nodeAt r = some n →
        (DetectIsdataatSetup mem s str).2.nodeAt r = some n) := by
  obtain ⟨hsmpos, hpmpos, s0, idad1, hs0, hs1⟩ := isdataatPlace_anchored s idad offset s1 sm pm hplace
  have hsetup : DetectIsdataatSetup mem s str = isdataatFinish s1 sm offset pm := by
    rw [DetectIsdataatSetup_of_parse mem s str idad offset hparse hsm, hplace]
  rw [hsetup] at hret ⊢
  have hold : ∀ r : SmRef, r.pos < (s.sm_lists r.list).length → s1.nodeAt r = s.nodeAt r := by
    intro r hr
    rw [hs1, nodeAt_append_old s0 _ sm.list r (by rw [hs0]; exact hr)]
    simp only [Signature.nodeAt, hs0]
  have hne : pm ≠ sm := by
    intro h
    rw [h] at hpmpos
    omega
  unfold isdataatFinish at hret ⊢
  cases hres : isdataatResolve s1 sm offset with
  | none => simp [hres] at hret
  | some s2 =>
    simp only [hres] at hret ⊢
    obtain ⟨hr1, _, _⟩ := isdataatResolve_some s1 sm offset s2 hres
    obtain ⟨a, ha, hk, hc, hp, hb, hother, _⟩ := isdataatFlagAnchor_ok s2 pm hret
    have ha0 : s.nodeAt pm = some a := by
      rw [← hold pm hpmpos, ← hr1 pm hne]
      exact ha
    refine ⟨a, ha0, hk, hc, hp, hb, ?_⟩
    intro r n hrne hn
    have hrpos : r.pos < (s.sm_lists r.list).length := by
      simp only [Signature.nodeAt] at hn
      exact (List.getElem?_eq_some_iff.1 hn).1
    have hrsm : r ≠ sm := by
      intro h
      rw [h] at hrpos
      omega
    rw [hother r hrne, hr1 r hrsm, hold r hrpos]
    exact hn

/-- C19, witness: `content` in the URI list followed by `!4,relative`; the
Content node ends with its relative-next bit set. -/
theorem isdataat_anchor_flagged_witness :
    (DetectIsdataatSetup allocOk
        (oneListSignature SmList.DETECT_SM_LIST_UMATCH [contentNode 0 false]
          AppProto.ALPROTO_UNKNOWN false)
        (cstr "!4,relative")).2.nodeAt { list := SmList.DETECT_SM_LIST_UMATCH, pos := 0 }
      = some (contentNode 0 true) := by
  obtain ⟨a, ha, _, hc, _⟩ := isdataat_anchor_flagged allocOk
    (oneListSignature SmList.DETECT_SM_LIST_UMATCH [contentNode 0 false]
      AppProto.ALPROTO_UNKNOWN false)
    (cstr "!4,relative")
    { dataat := 4, relative := true, rawbytes := false, negated := true, offset_be := false }
    none
    (SigMatchAppendSMToList
      (oneListSignature SmList.DETECT_SM_LIST_UMATCH [contentNode 0 false]
        AppProto.ALPROTO_UNKNOWN false)
      (isdataatNode
        { dataat := 4, relative := true, rawbytes := false, negated := true,
          offset_be := false })
      SmList.DETECT_SM_LIST_UMATCH)
    { list := SmList.DETECT_SM_LIST_UMATCH, pos := 1 }
    { list := SmList.DETECT_SM_LIST_UMATCH, pos := 0 }
    (by decide) rfl rfl (by decide)
  have hA : a = contentNode 0 false := by
    have h2 : (oneListSignature SmList.DETECT_SM_LIST_UMATCH [contentNode 0 false]
        AppProto.ALPROTO_UNKNOWN false).nodeAt { list := SmList.DETECT_SM_LIST_UMATCH, pos := 0 }
        = some (contentNode 0 false) := rfl
    rw [h2] at ha
    exact (Option.some.inj ha).symm
  subst hA
  obtain ⟨cd, hcd, hres⟩ := hc rfl
  simp only [contentNode, SigMatchCtx.content.injEq] at hcd
  subst hcd
  exact hres

theorem isdataatPlace_done_symbolic (s : Signature) (idad : DetectIsdataatData)
    (name : List Nat) (s1 : Signature)
    (h : isdataatPlace s idad (some name) = IsdataatPlaced.done s1) :
    ∃ bed, DetectByteExtractRetrieveSMVar name s SmList.DETECT_SM_LIST_PMATCH = some bed ∧
      (s1.sm_lists SmList.DETECT_SM_LIST_PMATCH).length
        = (s.sm_lists SmList.DETECT_SM_LIST_PMATCH).length + 1 := by
  unfold isdataatPlace at h
  by_cases hdce : s.alproto = AppProto.ALPROTO_DCERPC ∧ idad.relative = true
  · simp only [hdce, and_self, if_true] at h
    split at h <;> simp at h
  · simp only [hdce, if_false] at h
    cases hfd : s.init_file_data with
    | true =>
      simp only [hfd, if_true] at h
      split at h <;> simp at h
    | false =>
      simp only [hfd, Bool.false_eq_true, if_false] at h
      cases hr : idad.relative with
      | false =>
        simp only [hr, if_true] at h
        cases hb : DetectByteExtractRetrieveSMVar name
            (SigMatchAppendSMToList s (isdataatNode idad) SmList.DETECT_SM_LIST_PMATCH)
            SmList.DETECT_SM_LIST_PMATCH with
        | none => simp [hb] at h
        | some bed =>
          simp only [hb, IsdataatPlaced.done.injEq] at h
          subst h
          rw [retrieve_append] at hb
          refine ⟨bed, hb, ?_⟩
          rw [sm_lists_isdataatSetVar_length]
          simp [SigMatchAppendSMToList]
      | true =>
        simp only [hr, Bool.true_eq_false, if_false] at h
        split at h <;> simp at h

/-- C20: when the offset token is a symbolic name, `DetectIsdataatSetup`
returns 0 only if the byte-extract lookup resolves the name in the list the
new node was appended to; in every other case, in every signature context,
it returns -1.  In particular it returns -1 when the lookup resolves the
name in no list of the signature. -/
theorem isdataat_unresolved_var_fails (mem : IsdataatAllocs) (s : Signature)
    (str : List Nat) (idad : DetectIsdataatData) (name : List Nat)
    (hparse : DetectIsdataatParse mem str true = some (idad, some name)) :
    ((∀ l, DetectByteExtractRetrieveSMVar name s l = none) →
      (DetectIsdataatSetup mem s str).1 = -1) ∧
    ((DetectIsdataatSetup mem s str).1 = -1 ∨
      ∃ l bed, DetectByteExtractRetrieveSMVar name s l = some bed ∧
        ((DetectIsdataatSetup mem s str).2.sm_lists l).length = (s.sm_lists l).length + 1) := by
  have hB : (DetectIsdataatSetup mem s str).1 = -1 ∨
      ∃ l bed, DetectByteExtractRetrieveSMVar name s l = some bed ∧
        ((DetectIsdataatSetup mem s str).2.sm_lists l).length = (s.sm_lists l).length + 1 := by
    cases hsm : mem.sm_ok with
    | false =>
      left
      simp [DetectIsdataatSetup, hparse, hsm]
    | true =>
      rw [DetectIsdataatSetup_of_parse mem s str idad (some name) hparse hsm]
      cases hplace : isdataatPlace s idad (some name) with
      | error s1 => exact Or.inl rfl
      | done s1 =>
        obtain ⟨bed, hbed, hlen⟩ := isdataatPlace_done_symbolic s idad name s1 hplace
        exact Or.inr ⟨_, bed, hbed, hlen⟩
      | anchored s1 sm pm =>
        simp only
        obtain ⟨hsmpos, _, s0, idad1, hs0, hs1⟩ :=
          isdataatPlace_anchored s idad (some name) s1 sm pm hplace
        unfold isdataatFinish
        cases hres : isdataatResolve s1 sm (some name) with
        | none => exact Or.inl rfl
        | some s2 =>
          simp only
          obtain ⟨_, hlen2, hbed⟩ := isdataatResolve_some s1 sm (some name) s2 hres
          obtain ⟨bed, hb⟩ := hbed name rfl
          rcases isdataatFlagAnchor_ret_cases s2 pm with h0 | h1
          · right
            obtain ⟨_, _, _, _, _, _, _, hlen3⟩ := isdataatFlagAnchor_ok s2 pm h0
            refine ⟨sm.list, bed, ?_, ?_⟩
            · rw [hs1, retrieve_append, retrieve_congr name s0 s sm.list hs0] at hb
              exact hb
            · rw [hlen3, hlen2, hs1]
              simp [SigMatchAppendSMToList, hs0]
          · exact Or.inl h1
  refine ⟨?_, hB⟩
  intro hnone
  rcases hB with h | ⟨l, bed, hbed, _⟩
  · exact h
  · rw [hnone l] at hbed
    exact Option.noConfusion hbed

/-- C20, witness: `foo,relative` after a byte_extract that defines `bar`. -/
theorem isdataat_unresolved_var_fails_witness :
    (DetectIsdataatSetup allocOk
        (oneListSignature SmList.DETECT_SM_LIST_PMATCH
          [{ type := SigMatchType.DETECT_BYTE_EXTRACT, idx := 0,
             ctx := SigMatchCtx.byte_extract { name := cstr "bar", local_id := 0 } }]
          AppProto.ALPROTO_UNKNOWN false)
        (cstr "foo,relative")).1 = -1 :=
  (isdataat_unresolved_var_fails allocOk
    (oneListSignature SmList.DETECT_SM_LIST_PMATCH
      [{ type := SigMatchType.DETECT_BYTE_EXTRACT, idx := 0,
         ctx := SigMatchCtx.byte_extract { name := cstr "bar", local_id := 0 } }]
      AppProto.ALPROTO_UNKNOWN false)
    (cstr "foo,relative")
    { dataat := 0, relative := true, rawbytes := false, negated := false, offset_be := false }
    (cstr "foo") (by decide)).1
    (by intro l; cases l <;> decide)

theorem postMatchLoop_sublist (idx : Nat) (l : List DetectFlowvarList) (f : Flow) :
    (postMatchLoop idx l f).1.Sublist l := by
  induction l generalizing f with
  | nil => simp [postMatchLoop]
  | cons e rest ih =>
    unfold postMatchLoop
    by_cases h : (idx == e.idx) = true
    · simp only [h, if_true]
      exact (ih _).trans (List.sublist_cons_self e rest)
    · simp only [h]
      exact (ih f).cons₂ e

theorem DetectFlowvarPostMatch_sublist (det_ctx : DetectEngineThreadCtx) (p : Packet)
    (fd : DetectFlowvarData) :
    (DetectFlowvarPostMatch det_ctx p fd).2.1.flowvarlist.Sublist det_ctx.flowvarlist := by
  unfold DetectFlowvarPostMatch
  cases hl : det_ctx.flowvarlist with
  | nil => simp [hl]
  | cons fs rest =>
    cases hf : p.flow with
    | none => simp [hl]
    | some f =>
      simp only
      exact postMatchLoop_sublist fd.idx (fs :: rest) f

theorem applyOp_distinct (st : MatchState) (op : PendingOp)
    (h : PendingDistinct st.det_ctx) : PendingDistinct (applyOp st op).det_ctx := by
  cases op with
  | store m idx b n => exact (DetectFlowvarStoreMatch_props m st.det_ctx idx b n h).1
  | postmatch fd =>
    exact List.Nodup.sublist
      ((DetectFlowvarPostMatch_sublist st.det_ctx st.p fd).map (fun e => e.idx)) h
  | cleanup =>
    show PendingDistinct (DetectFlowvarCleanupList st.det_ctx)
    unfold PendingDistinct
    rw [DetectFlowvarCleanupList_nil]
    exact List.nodup_nil

theorem runOps_distinct (ops : List PendingOp) (st : MatchState)
    (h : PendingDistinct st.det_ctx) : PendingDistinct (runOps st ops).det_ctx := by
  induction ops generalizing st with
  | nil => exact h
  | cons op rest ih => exact ih (applyOp st op) (applyOp_distinct st op h)

/-- C26: each of `DetectFlowvarStoreMatch`, `DetectFlowvarPostMatch` and
`DetectFlowvarCleanupList` takes a pending list with at most one entry per
index to one with at most one entry per index, and every pending list
reached from the empty one by any sequence of these calls has pairwise
distinct indexes. -/
theorem pending_invariant_preserved :
    (∀ (malloc_ok : Bool) (det_ctx : DetectEngineThreadCtx) (idx : Nat) (buffer : List Nat)
        (len : Nat), PendingDistinct det_ctx →
        PendingDistinct (DetectFlowvarStoreMatch malloc_ok det_ctx idx buffer len).2) ∧
    (∀ (det_ctx : DetectEngineThreadCtx) (p : Packet) (fd : DetectFlowvarData),
        PendingDistinct det_ctx → PendingDistinct (DetectFlowvarPostMatch det_ctx p fd).2.1) ∧
    (∀ det_ctx : DetectEngineThreadCtx,
        PendingDistinct det_ctx → PendingDistinct (DetectFlowvarCleanupList det_ctx)) ∧
    (∀ (p : Packet) (ops : List PendingOp),
        PendingDistinct (runOps { det_ctx := { flowvarlist := [] }, p := p } ops).det_ctx) := by
  refine ⟨?_, ?_, ?_, ?_⟩
  · intro m det_ctx idx b n h
    exact (DetectFlowvarStoreMatch_props m det_ctx idx b n h).1
  · intro det_ctx p fd h
    exact applyOp_distinct { det_ctx := det_ctx, p := p } (PendingOp.postmatch fd) h
  · intro det_ctx h
    exact applyOp_distinct { det_ctx := det_ctx, p := { payload_len := 0, flow := none } }
      PendingOp.cleanup h
  · intro p ops
    exact runOps_distinct ops _ List.nodup_nil

/-- Witness for C26: two captures staged for variable 7, one for variable
9, then a commit of variable 7 on a packet with a flow. -/
theorem pending_invariant_preserved_witness :
    PendingDistinct
      (runOps { det_ctx := { flowvarlist := [] },
                p := { payload_len := 0, flow := some { flowvar := [] } } }
        [PendingOp.store true 7 (cstr "ab") 2, PendingOp.store true 9 (cstr "c") 1,
         PendingOp.store true 7 (cstr "xyz") 3,
         PendingOp.postmatch
           { name := none, idx := 7, content := [], content_len := 0, flags := 0 }]).det_ctx ∧
    (runOps { det_ctx := { flowvarlist := [] },
              p := { payload_len := 0, flow := some { flowvar := [] } } }
        [PendingOp.store true 7 (cstr "ab") 2, PendingOp.store true 9 (cstr "c") 1,
         PendingOp.store true 7 (cstr "xyz") 3]).det_ctx.flowvarlist.map (fun e => e.idx)
      = [9, 7] :=
  ⟨pending_invariant_preserved.2.2.2 _ _, by decide⟩

/-- C27: whatever the pending store holds, `DetectFlowvarCleanupList`
leaves it empty: after any sequence of staging and commit calls the
cleanup gives the empty store, and on the empty store (so also when applied
a second time) it changes nothing. -/
theorem cleanup_empties_idempotent :
    (∀ det_ctx : DetectEngineThreadCtx,
        DetectFlowvarCleanupList det_ctx = { flowvarlist := [] }) ∧
    (∀ (st : MatchState) (ops : List PendingOp),
        (runOps st (ops ++ [PendingOp.cleanup])).det_ctx = { flowvarlist := [] }) ∧
    DetectFlowvarCleanupList { flowvarlist := [] } = { flowvarlist := [] } ∧
    (∀ det_ctx : DetectEngineThreadCtx,
        DetectFlowvarCleanupList (DetectFlowvarCleanupList det_ctx) =
          DetectFlowvarCleanupList det_ctx) := by
  have h1 : ∀ det_ctx : DetectEngineThreadCtx,
      DetectFlowvarCleanupList det_ctx = { flowvarlist := [] } := by
    intro det_ctx
    have h := DetectFlowvarCleanupList_nil det_ctx
    cases hc : DetectFlowvarCleanupList det_ctx with
    | mk l => rw [hc] at h; simp only at h; rw [h]
  refine ⟨h1, ?_, h1 _, ?_⟩
  · intro st ops
    unfold runOps
    rw [List.foldl_append]
    exact h1 _
  · intro det_ctx
    rw [h1 det_ctx, h1]

/-! ## `DetectFlowvarPostMatchSetup` (C28) -/

/-- C28: `DetectFlowvarPostMatchSetup` returns 0 exactly when both
allocations succeed, and then the post-match list is the old one followed
by one node of kind `DETECT_FLOWVAR_POSTMATCH` with the next sequence
number, whose descriptor carries the index `idx`, no name and no content;
every other list is unchanged.  When it does not return 0 the signature is
untouched. -/
theorem postmatch_setup_appends (mem : PostMatchSetupAllocs) (s : Signature) (idx : Nat) :
    ((DetectFlowvarPostMatchSetup mem s idx).1 = 0 ↔ (mem.fv_ok = true ∧ mem.sm_ok = true)) ∧
    ((DetectFlowvarPostMatchSetup mem s idx).1 = 0 →
      (DetectFlowvarPostMatchSetup mem s idx).2.sm_lists SmList.DETECT_SM_LIST_POSTMATCH =
        s.sm_lists SmList.DETECT_SM_LIST_POSTMATCH ++
          [{ type := SigMatchType.DETECT_FLOWVAR_POSTMATCH, idx := s.sm_cnt,
             ctx := SigMatchCtx.flowvar
               { name := none, idx := idx, content := [], content_len := 0, flags := 0 } }] ∧
      (∀ l, l ≠ SmList.DETECT_SM_LIST_POSTMATCH →
        (DetectFlowvarPostMatchSetup mem s idx).2.sm_lists l = s.sm_lists l) ∧
      (DetectFlowvarPostMatchSetup mem s idx).2.sm_cnt = s.sm_cnt + 1) ∧
    ((DetectFlowvarPostMatchSetup mem s idx).1 ≠ 0 →
      (DetectFlowvarPostMatchSetup mem s idx).2 = s) := by
  unfold DetectFlowvarPostMatchSetup SigMatchAppendSMToList
  cases h1 : mem.fv_ok
  all_goals cases h2 : mem.sm_ok
  all_goals simp

/-- Witness for C28: on a signature with one Content node in the payload
list, the commit node for variable 7 becomes the only node of the
post-match list, with sequence number 1. -/
theorem postmatch_setup_appends_witness :
    (DetectFlowvarPostMatchSetup { fv_ok := true, sm_ok := true }
        (oneListSignature SmList.DETECT_SM_LIST_PMATCH [contentNode 0 false]
          AppProto.ALPROTO_UNKNOWN false) 7).2.sm_lists SmList.DETECT_SM_LIST_POSTMATCH =
      [{ postMatchNode 7 with idx := 1 }] :=
  ((postmatch_setup_appends { fv_ok := true, sm_ok := true }
      (oneListSignature SmList.DETECT_SM_LIST_PMATCH [contentNode 0 false]
        AppProto.ALPROTO_UNKNOWN false) 7).2.1 (by decide)).1
/-! ## `DetectIsdataatParse`: the flags (C23, C24) -/

/-- C23, the code at the failing input `30,rawbytes`: the regex matches
with group 2 (`, relative`) taking no part and group 3 capturing
`,rawbytes`, and `DetectIsdataatParse` returns a descriptor with both the
relative and the rawbytes flag set, although the argument holds no
`relative` token.  On the three arguments of the unit tests the flags are
as the tokens say. -/
theorem isdataat_parse_rawbytes_sets_relative :
    pcreExecIsdataat (cstr "30,rawbytes") = some (cstr "30", false, true) ∧
    (DetectIsdataatParse allocOk (cstr "30,rawbytes") true).map
        (fun r => (r.1.dataat, r.1.relative, r.1.rawbytes)) = some (30, true, true) ∧
    (DetectIsdataatParse allocOk (cstr "30 , relative") true).map
        (fun r => (r.1.dataat, r.1.relative, r.1.rawbytes)) = some (30, true, false) ∧
    (DetectIsdataatParse allocOk (cstr "30,relative, rawbytes ") true).map
        (fun r => (r.1.dataat, r.1.relative, r.1.rawbytes)) = some (30, true, true) ∧
    (DetectIsdataatParse allocOk (cstr "30 ") true).map
        (fun r => (r.1.dataat, r.1.relative, r.1.rawbytes)) = some (30, false, false) := by
  refine ⟨by decide, by decide, by decide, by decide, by decide⟩

/-- C24, the code at the failing input ` !4` (a space, then `!4`): the
regex skips the space, takes the `!` and captures the offset token `4`,
and `DetectIsdataatParse` returns a descriptor with dataat 4 whose negated
flag is clear; without the leading space the flag is set. -/
theorem isdataat_parse_negation_after_space :
    pcreExecIsdataat (cstr " !4") = some (cstr "4", false, false) ∧
    (DetectIsdataatParse allocOk (cstr " !4") true).map
        (fun r => (r.1.dataat, r.1.negated)) = some (4, false) ∧
    (DetectIsdataatParse allocOk (cstr "!4") true).map
        (fun r => (r.1.dataat, r.1.negated)) = some (4, true) ∧
    (DetectIsdataatParse allocOk (cstr " !4,relative") true).map
        (fun r => (r.1.dataat, r.1.relative, r.1.negated)) = some (4, true, false) := by
  refine ⟨by decide, by decide, by decide, by decide⟩

/-! ## `DetectIsdataatMatch`: a variable offset (C25) -/

/-- C25 as stated fails: for the non-relative node whose offset is the
byte_extract variable with local id 3, on a buffer of 10 bytes while the
variable holds 100, `DetectIsdataatMatch` reports a match (10 ≥ 3)
although the buffer is shorter than the value of the variable. -/
theorem isdataat_variable_offset_counterexample :
    ¬ (DetectIsdataatMatch 10
          { dataat := 3, relative := false, rawbytes := false, negated := false,
            offset_be := true } = 1 ↔
        10 ≥ (fun k : Nat => if k = 3 then 100 else 0) 3) := by
  decide

/-- C25, amended: for a non-relative node whose offset is a variable
reference (`offset_be` set, `dataat` the local id `k`),
`DetectIsdataatMatch` reports a match exactly when the buffer length is at
least `dataat`, the number `k` itself: the function does not read the
variable-offset flag, so the result is that of the literal offset `k`. -/
theorem isdataat_variable_offset_ignored (payload_len : Nat) (idad : DetectIsdataatData)
    (hrel : idad.relative = false) (_hvar : idad.offset_be = true) :
    (DetectIsdataatMatch payload_len idad = 1 ↔ payload_len ≥ idad.dataat) ∧
    (DetectIsdataatMatch payload_len idad = 0 ↔ payload_len < idad.dataat) ∧
    DetectIsdataatMatch payload_len idad =
      DetectIsdataatMatch payload_len { idad with offset_be := false } := by
  unfold DetectIsdataatMatch
  simp only [hrel, Bool.false_eq_true, if_false]
  by_cases h : payload_len ≥ idad.dataat
  · simp [h]
  · simp [h]
    omega

/-- Witness for C25: variable 3, buffer of 10 bytes. -/
theorem isdataat_variable_offset_ignored_witness :
    DetectIsdataatMatch 10
      { dataat := 3, relative := false, rawbytes := false, negated := false,
        offset_be := true } = 1 :=
  ((isdataat_variable_offset_ignored 10
      { dataat := 3, relative := false, rawbytes := false, negated := false,
        offset_be := true } rfl rfl).1).2 (by decide)

/-! ## `DetectFlowvarSetup`: delimiters without a hex pair (C30) -/

/-- C30, the code at the failing input `myvar,"a||b"`: the token `a||b`
decodes to the two bytes `ab`, yet `DetectFlowvarSetup` returns 0 with the
four-byte content `ab|b`, `content_len` 4: the loop has written `ab` to the
front of the buffer, and the length stays that of the token, so a
delimiter byte and the undecoded tail follow. -/
theorem flowvar_setup_bars_kept :
    specContent (cstr "a||b") = cstr "ab" ∧
    (DetectFlowvarSetup
        { str_ok := true, cd_ok := true, content_ok := true, name_ok := true, sm_ok := true }
        { VariableNameGetIdx := fun _ _ => 1 } { sm_lists := fun _ => [], sm_cnt := 0 }
        (cstr "myvar,\"a||b\"")).map
      (fun r => (r.1, r.2.sm_lists SmList.DETECT_SM_LIST_MATCH))
    = some (0, [flowvarNode
        { name := some (cstr "myvar"), idx := 1, content := cstr "ab|b",
          content_len := 4, flags := 0 }]) := by
  refine ⟨by decide, ?_⟩
  decide
/-! ## `DetectIsdataatParse`: a numeric offset (C22) -/

theorem digitsValue_append (a : List Nat) (d : Nat) :
    digitsValue (a ++ [d]) = digitsValue a + 10 ^ a.length * (d - 48) := by
  induction a with
  | nil => simp [digitsValue]
  | cons x t ih =>
    show (x - 48) + 10 * digitsValue (t ++ [d]) =
      ((x - 48) + 10 * digitsValue t) + 10 ^ (t.length + 1) * (d - 48)
    rw [ih]
    ring

theorem foldl_decimal (l : List Nat) (acc : Nat) :
    l.foldl (fun a c => 10 * a + (c - 48)) acc = acc * 10 ^ l.length + decimalValue l := by
  induction l generalizing acc with
  | nil => simp [decimalValue, digitsValue]
  | cons c t ih =>
    simp only [List.foldl_cons, ih, decimalValue, List.reverse_cons, digitsValue_append,
      List.length_reverse, List.length_cons]
    ring

theorem ByteExtractStringUint16_eq (tok : List Nat) :
    ByteExtractStringUint16 tok =
      if isDecimalNumeral tok = true ∧ decimalValue tok ≤ 65535 then some (decimalValue tok)
      else none := by
  unfold ByteExtractStringUint16 isDecimalNumeral
  have h := foldl_decimal tok 0
  simp only [Nat.zero_mul, Nat.zero_add] at h
  by_cases h1 : tok.isEmpty = true
  · simp [h1]
  · by_cases h2 : tok.all isdigit = true
    · simp only [h1, h2, h, Bool.not_true, Bool.or_false, Bool.false_eq_true, if_false,
        Bool.not_false, Bool.and_self, true_and]
    · simp [h1, h2]

/-- C22: for an argument the regex accepts whose offset token `arg0` does
not start with a letter, `DetectIsdataatParse` (its descriptor allocated)
returns a descriptor exactly when the token is a decimal numeral of value
at most 65535, and then `dataat` is that value and no name is handed back
in `*offset`. -/
theorem isdataat_parse_numeric (mem : IsdataatAllocs) (isdataatstr arg0 : List Nat)
    (g2 g3 offset_supplied : Bool)
    (hre : pcreExecIsdataat isdataatstr = some (arg0, g2, g3))
    (hmem : mem.idad_ok = true) (hnum : isalpha (arg0.getD 0 0) = false) :
    ((DetectIsdataatParse mem isdataatstr offset_supplied).isSome = true ↔
      (isDecimalNumeral arg0 = true ∧ decimalValue arg0 ≤ 65535)) ∧
    (∀ idad offset, DetectIsdataatParse mem isdataatstr offset_supplied = some (idad, offset) →
      idad.dataat = decimalValue arg0 ∧ offset = none) := by
  unfold DetectIsdataatParse
  simp only [hre, hmem, hnum, Bool.not_true, Bool.false_eq_true, if_false, Bool.and_false,
    ByteExtractStringUint16_eq]
  by_cases h : isDecimalNumeral arg0 = true ∧ decimalValue arg0 ≤ 65535
  · simp only [h, and_self, if_true, Option.isSome_some, true_iff, true_and]
    intro idad offset heq
    simp only [Option.some.injEq, Prod.mk.injEq] at heq
    exact ⟨by rw [← heq.1], heq.2.symm⟩
  · simp only [h, if_false]
    simp

/-- Witness for C22: the argument `30 ` of the unit test parses to a
descriptor with dataat 30 and no flag set; `65536` and `3x` are refused. -/
theorem isdataat_parse_numeric_witness :
    DetectIsdataatParse allocOk (cstr "30 ") false =
      some ({ dataat := 30, relative := false, rawbytes := false, negated := false,
              offset_be := false }, none) ∧
    decimalValue (cstr "30") = 30 ∧
    (DetectIsdataatParse allocOk (cstr "65536") false).isSome = false ∧
    (DetectIsdataatParse allocOk (cstr "3x") false).isSome = false ∧
    ((DetectIsdataatParse allocOk (cstr "30 ") false).isSome = true ↔
      (isDecimalNumeral (cstr "30") = true ∧ decimalValue (cstr "30") ≤ 65535)) :=
  ⟨by decide, by decide, by decide, by decide,
   (isdataat_parse_numeric allocOk (cstr "30 ") (cstr "30") false false false
      (by decide) (by decide) (by decide)).1⟩
/-! ## `DetectIsdataatSetup`: one node, appended once (C29) -/

/-- The outcomes of the placement: an error, or the node appended to one
list `list` of the signature (as it was, or with its application-layer flag
set), possibly with a resolved variable. -/
theorem isdataatPlace_cases (s : Signature) (idad : DetectIsdataatData)
    (offset : Option (List Nat)) :
    ∃ list s0, s0.sm_lists = s.sm_lists ∧ s0.sm_cnt = s.sm_cnt ∧
      ((∃ s1, isdataatPlace s idad offset = IsdataatPlaced.error s1) ∨
       (∃ idad1, isdataatPlace s idad offset =
          IsdataatPlaced.done (SigMatchAppendSMToList s0 (isdataatNode idad1) list)) ∨
       (∃ k, isdataatPlace s idad offset =
          IsdataatPlaced.done (isdataatSetVar (SigMatchAppendSMToList s0 (isdataatNode idad) list)
            { list := list, pos := (s.sm_lists list).length } k)) ∨
       (∃ pm, isdataatPlace s idad offset =
          IsdataatPlaced.anchored (SigMatchAppendSMToList s0 (isdataatNode idad) list)
            { list := list, pos := (s.sm_lists list).length } pm)) := by
  unfold isdataatPlace
  by_cases hdce : s.alproto = AppProto.ALPROTO_DCERPC ∧ idad.relative = true
  · simp only [hdce, and_self, if_true]
    generalize dceList s (searchTails s (dceSearch SmList.DETECT_SM_LIST_PMATCH))
      (searchTails s (dceSearch SmList.DETECT_SM_LIST_DMATCH)) = list
    refine ⟨list, s, rfl, rfl, ?_⟩
    cases hprev : SigMatchGetLastSMFromLists (SigMatchAppendSMToList s (isdataatNode idad) list)
      [{ type := SigMatchType.DETECT_CONTENT, list := list, bound := (s.sm_lists list).length },
       { type := SigMatchType.DETECT_BYTEJUMP, list := list, bound := (s.sm_lists list).length },
       { type := SigMatchType.DETECT_PCRE, list := list, bound := (s.sm_lists list).length }] with
    | none =>
      cases offset with
      | none => exact Or.inr (Or.inl ⟨idad, rfl⟩)
      | some name => exact Or.inl ⟨_, rfl⟩
    | some a => exact Or.inr (Or.inr (Or.inr ⟨a, rfl⟩))
  · rw [if_neg hdce]
    by_cases hfd : s.init_file_data = true
    · rw [if_pos hfd]
      refine ⟨SmList.DETECT_SM_LIST_HSBDMATCH, { s with flag_applayer := true }, rfl, rfl, ?_⟩
      cases hpm : (if idad.relative = true then searchTails s fileDataSearch else none) with
      | none =>
        cases offset with
        | none => exact Or.inr (Or.inl ⟨_, rfl⟩)
        | some name => exact Or.inl ⟨_, rfl⟩
      | some a =>
        refine Or.inr (Or.inr (Or.inr ⟨a, ?_⟩))
        simp
    · rw [if_neg hfd]
      by_cases hr : idad.relative = false
      · rw [if_pos hr]
        refine ⟨SmList.DETECT_SM_LIST_PMATCH, s, rfl, rfl, ?_⟩
        cases offset with
        | none => exact Or.inr (Or.inl ⟨idad, rfl⟩)
        | some name =>
          simp only
          cases hb : DetectByteExtractRetrieveSMVar name
            (SigMatchAppendSMToList s (isdataatNode idad) SmList.DETECT_SM_LIST_PMATCH)
            SmList.DETECT_SM_LIST_PMATCH with
          | none => exact Or.inl ⟨_, rfl⟩
          | some bed => exact Or.inr (Or.inr (Or.inl ⟨bed.local_id, rfl⟩))
      · rw [if_neg hr]
        cases hpm : searchTails s plainSearch with
        | none => exact ⟨SmList.DETECT_SM_LIST_PMATCH, s, rfl, rfl, Or.inl ⟨_, rfl⟩⟩
        | some a => exact ⟨a.list, s, rfl, rfl, Or.inr (Or.inr (Or.inr ⟨a, rfl⟩))⟩
theorem keys_append (s0 : Signature) (n : SigMatch) (list l : SmList) :
    ((SigMatchAppendSMToList s0 n list).sm_lists l).map nodeKey =
      (s0.sm_lists l).map nodeKey ++ (if l = list then [(n.type, s0.sm_cnt)] else []) := by
  unfold SigMatchAppendSMToList
  by_cases h : l = list
  · simp [h, nodeKey]
  · simp [h]

theorem keys_setNode (s : Signature) (r : SmRef) (a n : SigMatch)
    (ha : s.nodeAt r = some a) (hk : nodeKey n = nodeKey a) (l : SmList) :
    ((s.setNode r n).sm_lists l).map nodeKey = (s.sm_lists l).map nodeKey := by
  unfold Signature.setNode
  by_cases h : l = r.list
  · subst h
    simp only [if_true]
    unfold Signature.nodeAt at ha
    apply List.ext_getElem?
    intro i
    rw [List.getElem?_map, List.getElem?_set, List.getElem?_map]
    by_cases hi : r.pos = i
    · subst hi
      have hlt : r.pos < (s.sm_lists r.list).length := by
        rcases Nat.lt_or_ge r.pos (s.sm_lists r.list).length with h1 | h1
        · exact h1
        · rw [List.getElem?_eq_none h1] at ha
          exact Option.noConfusion ha
      simp [hlt, ha, hk]
    · simp [hi]
  · simp [h]

theorem keys_isdataatSetVar (s : Signature) (sm : SmRef) (k : Nat) (l : SmList) :
    ((isdataatSetVar s sm k).sm_lists l).map nodeKey = (s.sm_lists l).map nodeKey := by
  unfold isdataatSetVar
  cases hn : s.nodeAt sm with
  | none => rfl
  | some n =>
    obtain ⟨ty, ix, cx⟩ := n
    cases cx
    all_goals first | rfl | (simp only []; refine keys_setNode s sm _ _ hn ?_ l; rfl)

theorem keys_isdataatFlagAnchor (s : Signature) (pm : SmRef) (l : SmList) :
    ((isdataatFlagAnchor s pm).2.sm_lists l).map nodeKey = (s.sm_lists l).map nodeKey := by
  unfold isdataatFlagAnchor
  cases hn : s.nodeAt pm with
  | none => rfl
  | some a =>
    obtain ⟨ty, ix, cx⟩ := a
    cases ty
    all_goals cases cx
    all_goals first | rfl | (simp only []; refine keys_setNode s pm _ _ hn ?_ l; rfl)

theorem keys_isdataatFinish (s1 : Signature) (sm pm : SmRef) (offset : Option (List Nat))
    (h0 : (isdataatFinish s1 sm offset pm).1 = 0) (l : SmList) :
    ((isdataatFinish s1 sm offset pm).2.sm_lists l).map nodeKey =
      (s1.sm_lists l).map nodeKey := by
  unfold isdataatFinish at h0 ⊢
  cases hres : isdataatResolve s1 sm offset with
  | none => simp [hres] at h0
  | some s2 =>
    simp only [hres]
    rw [keys_isdataatFlagAnchor]
    unfold isdataatResolve at hres
    cases offset with
    | none =>
      simp only [Option.some.injEq] at hres
      rw [← hres]
    | some name =>
      simp only at hres
      cases hb : DetectByteExtractRetrieveSMVar name s1 sm.list with
      | none => simp [hb] at hres
      | some bed =>
        simp only [hb, Option.some.injEq] at hres
        rw [← hres, keys_isdataatSetVar]

/-- C29: when `DetectIsdataatSetup` returns 0, whatever the context
(DCERPC, file data or plain), there is one list such that afterwards every
list of the signature holds, position by position, the nodes it held before
(same kind, same sequence number), and that one list holds in addition, at
its tail, one isdataat node with the next sequence number: the node was
appended once, to one list, and no older node left its list or its place
in it. -/
theorem isdataat_appended_once (mem : IsdataatAllocs) (s : Signature) (str : List Nat)
    (h0 : (DetectIsdataatSetup mem s str).1 = 0) :
    ∃ list, AppendedOnce s (DetectIsdataatSetup mem s str).2 list ∧
      ((DetectIsdataatSetup mem s str).2.sm_lists list).length =
        (s.sm_lists list).length + 1 ∧
      (∀ l, l ≠ list →
        ((DetectIsdataatSetup mem s str).2.sm_lists l).length = (s.sm_lists l).length) ∧
      (∃ n, (DetectIsdataatSetup mem s str).2.nodeAt
          { list := list, pos := (s.sm_lists list).length } = some n ∧
        n.type = SigMatchType.DETECT_ISDATAAT ∧ n.idx = s.sm_cnt) ∧
      (∀ r n, s.nodeAt r = some n →
        ∃ n1, (DetectIsdataatSetup mem s str).2.nodeAt r = some n1 ∧
          n1.type = n.type ∧ n1.idx = n.idx) := by
  have key : ∃ list, AppendedOnce s (DetectIsdataatSetup mem s str).2 list := by
    unfold DetectIsdataatSetup at h0 ⊢
    cases hparse : DetectIsdataatParse mem str true with
    | none => simp [hparse] at h0
    | some r =>
      obtain ⟨idad, offset⟩ := r
      simp only [hparse] at h0 ⊢
      cases hsm : mem.sm_ok with
      | false => simp [hsm] at h0
      | true =>
        simp only [hsm, Bool.not_true, Bool.false_eq_true, if_false] at h0 ⊢
        obtain ⟨list, s0, hl, hc, hcase⟩ := isdataatPlace_cases s idad offset
        refine ⟨list, ?_⟩
        rcases hcase with ⟨s1, he⟩ | ⟨idad1, he⟩ | ⟨k, he⟩ | ⟨pm, he⟩
        · simp [he] at h0
        · simp only [he]
          intro l
          rw [keys_append, hl, hc]
          rfl
        · simp only [he]
          intro l
          rw [keys_isdataatSetVar, keys_append, hl, hc]
          rfl
        · simp only [he] at h0 ⊢
          intro l
          rw [keys_isdataatFinish _ _ _ _ h0, keys_append, hl, hc]
          rfl
  obtain ⟨list, hA⟩ := key
  refine ⟨list, hA, ?_, ?_, ?_, ?_⟩
  · have h := congrArg List.length (hA list)
    simpa using h
  · intro l hl
    have h := congrArg List.length (hA l)
    simpa [hl] using h
  · have h := congrArg (fun m => m[(s.sm_lists list).length]?) (hA list)
    simp only [if_true, List.getElem?_map] at h
    rw [List.getElem?_append_right (by simp)] at h
    simp only [List.length_map, Nat.sub_self, List.getElem?_cons_zero] at h
    unfold Signature.nodeAt
    cases hn : ((DetectIsdataatSetup mem s str).2.sm_lists list)[(s.sm_lists list).length]? with
    | none => simp [hn] at h
    | some n =>
      simp only [hn, Option.map_some', Option.some.injEq, nodeKey, Prod.mk.injEq] at h
      exact ⟨n, rfl, h.1, h.2⟩
  · intro r n hn
    unfold Signature.nodeAt at hn ⊢
    have h := congrArg (fun m => m[r.pos]?) (hA r.list)
    simp only [List.getElem?_map] at h
    have hlt : r.pos < (s.sm_lists r.list).length := by
      rcases Nat.lt_or_ge r.pos (s.sm_lists r.list).length with h1 | h1
      · exact h1
      · rw [List.getElem?_eq_none h1] at hn
        exact Option.noConfusion hn
    rw [List.getElem?_append_left (by simpa using hlt), List.getElem?_map, hn] at h
    cases hn1 : ((DetectIsdataatSetup mem s str).2.sm_lists r.list)[r.pos]? with
    | none => simp [hn1] at h
    | some n1 =>
      simp only [hn1, Option.map_some', Option.some.injEq, nodeKey, Prod.mk.injEq] at h
      exact ⟨n1, rfl, h.1, h.2⟩
/-! ## `DetectIsdataatSetup`: a symbolic offset (C21) -/

theorem nodeAt_isdataatSetVar_self (s : Signature) (sm : SmRef) (k ix : Nat)
    (idad : DetectIsdataatData)
    (h : s.nodeAt sm = some { type := SigMatchType.DETECT_ISDATAAT, idx := ix,
                              ctx := SigMatchCtx.isdataat idad }) :
    (isdataatSetVar s sm k).nodeAt sm =
      some { type := SigMatchType.DETECT_ISDATAAT, idx := ix,
             ctx := SigMatchCtx.isdataat { idad with dataat := k, offset_be := true } } := by
  unfold isdataatSetVar
  simp only [h]
  rw [nodeAt_setNode]
  simp [h]

/-- The anchor the placement hands on is a node the signature had, of one
of the five anchor kinds. -/
theorem isdataatPlace_anchored_kind (s : Signature) (idad : DetectIsdataatData)
    (offset : Option (List Nat)) (s1 : Signature) (sm pm : SmRef)
    (h : isdataatPlace s idad offset = IsdataatPlaced.anchored s1 sm pm) :
    ∃ a, s.nodeAt pm = some a ∧ anchorKind a.type = true := by
  unfold isdataatPlace at h
  by_cases hdce : s.alproto = AppProto.ALPROTO_DCERPC ∧ idad.relative = true
  · simp only [hdce, and_self, if_true] at h
    generalize hlist : dceList s (searchTails s (dceSearch SmList.DETECT_SM_LIST_PMATCH))
      (searchTails s (dceSearch SmList.DETECT_SM_LIST_DMATCH)) = list at h
    have hl1 : (SigMatchAppendSMToList s (isdataatNode idad) list).sm_lists list
        = s.sm_lists list ++ [{ isdataatNode idad with idx := s.sm_cnt }] := by
      simp [SigMatchAppendSMToList]
    cases hprev : SigMatchGetLastSMFromLists (SigMatchAppendSMToList s (isdataatNode idad) list)
      [{ type := SigMatchType.DETECT_CONTENT, list := list, bound := (s.sm_lists list).length },
       { type := SigMatchType.DETECT_BYTEJUMP, list := list, bound := (s.sm_lists list).length },
       { type := SigMatchType.DETECT_PCRE, list := list, bound := (s.sm_lists list).length }] with
    | none =>
      rw [hprev] at h
      cases offset <;> simp at h
    | some a =>
      rw [hprev] at h
      simp only [IsdataatPlaced.anchored.injEq] at h
      obtain ⟨_, _, h3⟩ := h
      subst h3
      unfold SigMatchGetLastSMFromLists at hprev
      obtain ⟨hc, _, _⟩ := searchFold_some _ _ none a hprev
      rcases hc with hc | ⟨arg, harg, hal, hac⟩
      · exact Option.noConfusion hc
      · obtain ⟨g1, ⟨m, hm, hmt⟩, _⟩ := getLastByType_some _ _ _ _ hac
        have hb : arg.list = list ∧ arg.bound = (s.sm_lists list).length ∧
            (arg.type = SigMatchType.DETECT_CONTENT ∨ arg.type = SigMatchType.DETECT_BYTEJUMP ∨
              arg.type = SigMatchType.DETECT_PCRE) := by
          simp only [List.mem_cons, List.mem_singleton, List.not_mem_nil, or_false] at harg
          rcases harg with rfl | rfl | rfl <;> simp
        rw [hb.1, hl1, List.getElem?_append_left (by rw [← hb.2.1]; exact g1)] at hm
        refine ⟨m, ?_, ?_⟩
        · simp only [Signature.nodeAt, ← hal, hb.1]
          exact hm
        · rw [hmt]
          rcases hb.2.2 with h | h | h <;> rw [h] <;> rfl
  · simp only [hdce, if_false] at h
    cases hfd : s.init_file_data with
    | true =>
      simp only [hfd, if_true] at h
      cases hpm : (if idad.relative = true then searchTails s fileDataSearch else none) with
      | none =>
        rw [hpm] at h
        cases offset <;> simp at h
      | some a =>
        rw [hpm] at h
        simp only [IsdataatPlaced.anchored.injEq] at h
        obtain ⟨_, _, h3⟩ := h
        subst h3
        by_cases hr : idad.relative = true
        · rw [if_pos hr] at hpm
          obtain ⟨_, ⟨n, hn, hmem⟩, _⟩ := searchTails_some s _ a hpm
          exact ⟨n, hn, fileDataSearch_anchorKind _ hmem⟩
        · rw [if_neg hr] at hpm
          exact Option.noConfusion hpm
    | false =>
      simp only [hfd, Bool.false_eq_true, if_false] at h
      cases hr : idad.relative with
      | false =>
        simp only [hr, if_true] at h
        cases offset with
        | none => simp at h
        | some name =>
          simp only at h
          cases hb : DetectByteExtractRetrieveSMVar name
            (SigMatchAppendSMToList s (isdataatNode idad) SmList.DETECT_SM_LIST_PMATCH)
            SmList.DETECT_SM_LIST_PMATCH with
          | none =>
            rw [hb] at h
            simp at h
          | some bed =>
            rw [hb] at h
            simp at h
      | true =>
        simp only [hr, Bool.true_eq_false, if_false] at h
        cases hpm : searchTails s plainSearch with
        | none =>
          rw [hpm] at h
          simp at h
        | some a =>
          rw [hpm] at h
          simp only [IsdataatPlaced.anchored.injEq] at h
          obtain ⟨_, _, h3⟩ := h
          subst h3
          obtain ⟨_, ⟨n, hn, hmem⟩, _⟩ := searchTails_some s _ a hpm
          exact ⟨n, hn, plainSearch_anchorKind _ hmem⟩

/-- What the placement leaves when it found an anchor: the new node, with
the descriptor as parsed and the next sequence number, is at `sm`, the tail
of its list; the anchor and the byte_extract lookups are as in the
signature before. -/
theorem isdataatPlace_anchored_node (s : Signature) (idad : DetectIsdataatData)
    (offset : Option (List Nat)) (s1 : Signature) (sm pm : SmRef)
    (h : isdataatPlace s idad offset = IsdataatPlaced.anchored s1 sm pm) :
    sm.pos = (s.sm_lists sm.list).length ∧
    s1.nodeAt sm = some { type := SigMatchType.DETECT_ISDATAAT, idx := s.sm_cnt,
                          ctx := SigMatchCtx.isdataat idad } ∧
    s1.nodeAt pm = s.nodeAt pm ∧ pm ≠ sm ∧
    (∀ name l, DetectByteExtractRetrieveSMVar name s1 l =
      DetectByteExtractRetrieveSMVar name s l) := by
  obtain ⟨hpos, hpm, _⟩ := isdataatPlace_anchored s idad offset s1 sm pm h
  obtain ⟨list, s0, hl, hc, hcase⟩ := isdataatPlace_cases s idad offset
  have hne : pm ≠ sm := by
    intro he
    rw [he, hpos] at hpm
    exact Nat.lt_irrefl _ hpm
  rcases hcase with ⟨s2, he⟩ | ⟨idad1, he⟩ | ⟨k, he⟩ | ⟨pm2, he⟩
  · rw [he] at h
    exact IsdataatPlaced.noConfusion h
  · rw [he] at h
    exact IsdataatPlaced.noConfusion h
  · rw [he] at h
    exact IsdataatPlaced.noConfusion h
  · rw [he] at h
    simp only [IsdataatPlaced.anchored.injEq] at h
    obtain ⟨h1, h2, h3⟩ := h
    subst h1 h2 h3
    refine ⟨rfl, ?_, ?_, hne, ?_⟩
    · have h4 := nodeAt_append_new s0 (isdataatNode idad) list
      rw [hl, hc] at h4
      exact h4
    · rw [nodeAt_append_old s0 _ _ _ (by rw [hl]; exact hpm)]
      simp only [Signature.nodeAt, hl]
    · intro name l
      rw [retrieve_append]
      exact retrieve_congr name s0 s l hl
/-- With a symbolic offset the placement ends at a `return 0` of its own
only on the plain non-relative path. -/
theorem isdataatPlace_done_plain (s : Signature) (idad : DetectIsdataatData)
    (name : List Nat) (s1 : Signature)
    (h : isdataatPlace s idad (some name) = IsdataatPlaced.done s1) :
    s.init_file_data = false ∧ idad.relative = false := by
  unfold isdataatPlace at h
  by_cases hdce : s.alproto = AppProto.ALPROTO_DCERPC ∧ idad.relative = true
  · rw [if_pos hdce] at h
    simp only [Option.isSome_some, if_true] at h
    split at h <;> exact IsdataatPlaced.noConfusion h
  · rw [if_neg hdce] at h
    by_cases hfd : s.init_file_data = true
    · rw [if_pos hfd] at h
      simp only [Option.isSome_some, if_true] at h
      split at h <;> exact IsdataatPlaced.noConfusion h
    · rw [if_neg hfd] at h
      by_cases hr : idad.relative = false
      · exact ⟨by simpa using hfd, hr⟩
      · rw [if_neg hr] at h
        split at h <;> exact IsdataatPlaced.noConfusion h

/-- C21 as stated fails on the two contexts it names.  In file-data scope
the non-relative `isdataat:foo` is put in the file-data list, where the
byte_extract lookup of `foo` gives local id 3, yet `DetectIsdataatSetup`
returns -1 and the node keeps dataat 0 with the variable-offset flag clear;
in a DCERPC signature whose stub-data list holds the byte_extract of `foo`
and no anchor, `isdataat:foo,relative` is put in the stub-data list and
`DetectIsdataatSetup` returns -1 as well. -/
theorem isdataat_symbolic_unanchored_fails :
    (DetectByteExtractRetrieveSMVar (cstr "foo")
        (oneListSignature SmList.DETECT_SM_LIST_HSBDMATCH [byteExtractNode 0 (cstr "foo") 3]
          AppProto.ALPROTO_HTTP true) SmList.DETECT_SM_LIST_HSBDMATCH
      = some { name := cstr "foo", local_id := 3 } ∧
     (DetectIsdataatSetup allocOk
        (oneListSignature SmList.DETECT_SM_LIST_HSBDMATCH [byteExtractNode 0 (cstr "foo") 3]
          AppProto.ALPROTO_HTTP true) (cstr "foo")).1 = -1 ∧
     (DetectIsdataatSetup allocOk
        (oneListSignature SmList.DETECT_SM_LIST_HSBDMATCH [byteExtractNode 0 (cstr "foo") 3]
          AppProto.ALPROTO_HTTP true) (cstr "foo")).2.sm_lists SmList.DETECT_SM_LIST_HSBDMATCH
      = [byteExtractNode 0 (cstr "foo") 3, isdataatNodeAt 1 0 false false]) ∧
    (DetectByteExtractRetrieveSMVar (cstr "foo")
        (dceSignature [] [byteExtractNode 0 (cstr "foo") 3]) SmList.DETECT_SM_LIST_DMATCH
      = some { name := cstr "foo", local_id := 3 } ∧
     (DetectIsdataatSetup allocOk (dceSignature [] [byteExtractNode 0 (cstr "foo") 3])
        (cstr "foo,relative")).1 = -1 ∧
     (DetectIsdataatSetup allocOk (dceSignature [] [byteExtractNode 0 (cstr "foo") 3])
        (cstr "foo,relative")).2.sm_lists SmList.DETECT_SM_LIST_DMATCH
      = [byteExtractNode 0 (cstr "foo") 3, isdataatNodeAt 1 0 true false]) := by
  refine ⟨⟨by decide, by decide, by decide⟩, ⟨by decide, by decide, by decide⟩⟩

/-- C21, amended: let the offset token be a name that the byte_extract
lookup resolves, in the list the new node goes to, to a descriptor `bed`.
Outside file-data scope a non-relative isdataat goes to the payload list,
and when the placement found an anchor (one with a well-formed descriptor)
the node goes to the list the placement chose; in both cases
`DetectIsdataatSetup` returns 0 and the new node, the tail of that list,
carries the parsed descriptor with `dataat` the local id of `bed` and the
variable-offset flag set.  With a symbolic offset these are the only paths
that return 0: where no anchor was found, in file-data scope or for a
relative isdataat, the function returns -1. -/
theorem isdataat_symbolic_resolved (mem : IsdataatAllocs) (s : Signature) (str : List Nat)
    (idad : DetectIsdataatData) (name : List Nat) (bed : DetectByteExtractData)
    (hparse : DetectIsdataatParse mem str true = some (idad, some name))
    (hsm : mem.sm_ok = true) (hctx : s.CtxOk) :
    (s.init_file_data = false → idad.relative = false →
      DetectByteExtractRetrieveSMVar name s SmList.DETECT_SM_LIST_PMATCH = some bed →
      (DetectIsdataatSetup mem s str).1 = 0 ∧
      (DetectIsdataatSetup mem s str).2.nodeAt
          { list := SmList.DETECT_SM_LIST_PMATCH,
            pos := (s.sm_lists SmList.DETECT_SM_LIST_PMATCH).length }
        = some { type := SigMatchType.DETECT_ISDATAAT, idx := s.sm_cnt,
                 ctx := SigMatchCtx.isdataat
                   { idad with dataat := bed.local_id, offset_be := true } }) ∧
    (∀ s1 sm pm, isdataatPlace s idad (some name) = IsdataatPlaced.anchored s1 sm pm →
      DetectByteExtractRetrieveSMVar name s sm.list = some bed →
      (DetectIsdataatSetup mem s str).1 = 0 ∧
      sm.pos = (s.sm_lists sm.list).length ∧
      (DetectIsdataatSetup mem s str).2.nodeAt sm
        = some { type := SigMatchType.DETECT_ISDATAAT, idx := s.sm_cnt,
                 ctx := SigMatchCtx.isdataat
                   { idad with dataat := bed.local_id, offset_be := true } }) ∧
    ((DetectIsdataatSetup mem s str).1 = 0 →
      (s.init_file_data = false ∧ idad.relative = false) ∨
      ∃ s1 sm pm, isdataatPlace s idad (some name) = IsdataatPlaced.anchored s1 sm pm) := by
  rw [DetectIsdataatSetup_of_parse mem s str idad (some name) hparse hsm]
  refine ⟨?_, ?_, ?_⟩
  rotate_left 2
  · intro h0
    cases hplace : isdataatPlace s idad (some name) with
    | error s1 => simp [hplace] at h0
    | done s1 => exact Or.inl (isdataatPlace_done_plain s idad name s1 hplace)
    | anchored s1 sm pm => exact Or.inr ⟨s1, sm, pm, rfl⟩
  · intro hfd hrel hbed
    have hdce : ¬ (s.alproto = AppProto.ALPROTO_DCERPC ∧ idad.relative = true) := by
      intro hh
      rw [hrel] at hh
      exact Bool.noConfusion hh.2
    have hfd2 : ¬ (s.init_file_data = true) := by
      rw [hfd]
      exact Bool.noConfusion
    unfold isdataatPlace
    rw [if_neg hdce, if_neg hfd2, if_pos hrel]
    simp only [retrieve_append, hbed]
    refine ⟨trivial, ?_⟩
    exact nodeAt_isdataatSetVar_self _ _ _ _ _
      (nodeAt_append_new s (isdataatNode idad) SmList.DETECT_SM_LIST_PMATCH)
  · intro s1 sm pm hplace hbed
    obtain ⟨hpos, hnew, hold, hne, hret⟩ :=
      isdataatPlace_anchored_node s idad (some name) s1 sm pm hplace
    obtain ⟨a, ha, hk⟩ := isdataatPlace_anchored_kind s idad (some name) s1 sm pm hplace
    simp only [hplace]
    unfold isdataatFinish isdataatResolve
    simp only [hret, hbed]
    have ha2 : (isdataatSetVar s1 sm bed.local_id).nodeAt pm = some a := by
      rw [nodeAt_isdataatSetVar_ne s1 sm pm _ hne, hold, ha]
    have hmem : a ∈ s.sm_lists pm.list := List.getElem?_mem ha
    have h0 : (isdataatFlagAnchor (isdataatSetVar s1 sm bed.local_id) pm).1 = 0 :=
      isdataatFlagAnchor_ret _ pm a ha2 hk (hctx pm.list a hmem).1 (hctx pm.list a hmem).2
    refine ⟨h0, hpos, ?_⟩
    obtain ⟨_, _, _, _, _, _, hother, _⟩ := isdataatFlagAnchor_ok _ pm h0
    rw [hother sm (fun h => hne h.symm)]
    exact nodeAt_isdataatSetVar_self s1 sm _ _ _ hnew

/-- Witness for C21: after `byte_extract` of `foo` (local id 3) and a
content in the payload list, `isdataat:foo,relative` compiles to the node
with dataat 3, relative and variable-offset flags set; without the content,
`isdataat:foo` does as well, relative clear. -/
theorem isdataat_symbolic_resolved_witness :
    ((DetectIsdataatSetup allocOk
        (oneListSignature SmList.DETECT_SM_LIST_PMATCH
          [byteExtractNode 0 (cstr "foo") 3, contentNode 1 false] AppProto.ALPROTO_UNKNOWN false)
        (cstr "foo,relative")).1 = 0 ∧
     (DetectIsdataatSetup allocOk
        (oneListSignature SmList.DETECT_SM_LIST_PMATCH
          [byteExtractNode 0 (cstr "foo") 3, contentNode 1 false] AppProto.ALPROTO_UNKNOWN false)
        (cstr "foo,relative")).2.nodeAt { list := SmList.DETECT_SM_LIST_PMATCH, pos := 2 }
      = some (isdataatVarNode 2 3 true)) ∧
    (DetectIsdataatSetup allocOk
        (oneListSignature SmList.DETECT_SM_LIST_PMATCH [byteExtractNode 0 (cstr "foo") 3]
          AppProto.ALPROTO_UNKNOWN false)
        (cstr "foo")).2.sm_lists SmList.DETECT_SM_LIST_PMATCH
      = [byteExtractNode 0 (cstr "foo") 3, isdataatVarNode 1 3 false] := by
  have h := (isdataat_symbolic_resolved allocOk
      (oneListSignature SmList.DETECT_SM_LIST_PMATCH
        [byteExtractNode 0 (cstr "foo") 3, contentNode 1 false] AppProto.ALPROTO_UNKNOWN false)
      (cstr "foo,relative")
      { dataat := 0, relative := true, rawbytes := false, negated := false, offset_be := false }
      (cstr "foo") { name := cstr "foo", local_id := 3 }
      (by decide) rfl
      (by intro l; cases l <;> simp [oneListSignature, contentNode, byteExtractNode])).2.1
      (SigMatchAppendSMToList
        (oneListSignature SmList.DETECT_SM_LIST_PMATCH
          [byteExtractNode 0 (cstr "foo") 3, contentNode 1 false] AppProto.ALPROTO_UNKNOWN false)
        (isdataatNode
          { dataat := 0, relative := true, rawbytes := false, negated := false,
            offset_be := false })
        SmList.DETECT_SM_LIST_PMATCH)
      { list := SmList.DETECT_SM_LIST_PMATCH, pos := 2 }
      { list := SmList.DETECT_SM_LIST_PMATCH, pos := 1 }
      rfl (by decide)
  exact ⟨⟨h.1, h.2.2⟩, by decide⟩

/-- Witness for C29: `isdataat:!4,relative` after a content in the URI
list returns 0, and the node was appended once, to the URI list. -/
theorem isdataat_appended_once_witness :
    (DetectIsdataatSetup allocOk
        (oneListSignature SmList.DETECT_SM_LIST_UMATCH [contentNode 0 false]
          AppProto.ALPROTO_UNKNOWN false) (cstr "!4,relative")).1 = 0 ∧
    (DetectIsdataatSetup allocOk
        (oneListSignature SmList.DETECT_SM_LIST_UMATCH [contentNode 0 false]
          AppProto.ALPROTO_UNKNOWN false) (cstr "!4,relative")).2.sm_lists
        SmList.DETECT_SM_LIST_UMATCH = [contentNode 0 true, isdataatNodeAt 1 4 true true] ∧
    ∃ list, AppendedOnce
      (oneListSignature SmList.DETECT_SM_LIST_UMATCH [contentNode 0 false]
        AppProto.ALPROTO_UNKNOWN false)
      (DetectIsdataatSetup allocOk
        (oneListSignature SmList.DETECT_SM_LIST_UMATCH [contentNode 0 false]
          AppProto.ALPROTO_UNKNOWN false) (cstr "!4,relative")).2 list :=
  ⟨by decide, by decide,
   (isdataat_appended_once allocOk
      (oneListSignature SmList.DETECT_SM_LIST_UMATCH [contentNode 0 false]
        AppProto.ALPROTO_UNKNOWN false) (cstr "!4,relative") (by decide)).imp
     (fun _ h => h.1)⟩
/-! ## `DetectIsdataatMatch`: two values, three inputs (C35) -/

/-- C35: `DetectIsdataatMatch` returns 0 or 1, never -1, for every
descriptor and payload length, and two descriptors that agree on the
relative flag and on `dataat` give the same result on the same payload
length, whatever their negated, rawbytes and variable-offset flags. -/
theorem isdataat_match_two_valued :
    (∀ (payload_len : Nat) (idad : DetectIsdataatData),
      (DetectIsdataatMatch payload_len idad = 0 ∨ DetectIsdataatMatch payload_len idad = 1) ∧
      DetectIsdataatMatch payload_len idad ≠ -1) ∧
    (∀ (payload_len : Nat) (idad1 idad2 : DetectIsdataatData),
      idad1.relative = idad2.relative → idad1.dataat = idad2.dataat →
      DetectIsdataatMatch payload_len idad1 = DetectIsdataatMatch payload_len idad2) := by
  constructor
  · intro payload_len idad
    unfold DetectIsdataatMatch
    by_cases h1 : idad.relative = true
    · simp [h1]
    · by_cases h2 : payload_len ≥ idad.dataat
      · simp [h1, h2]
      · simp [h1, h2]
  · intro payload_len idad1 idad2 hr hd
    unfold DetectIsdataatMatch
    rw [hr, hd]

/-- Witness for C35: on a 7-byte payload, `isdataat:8` gives 0 whether or
not the negated, rawbytes and variable-offset flags are set. -/
theorem isdataat_match_two_valued_witness :
    DetectIsdataatMatch 7
        { dataat := 8, relative := false, rawbytes := true, negated := true,
          offset_be := true } =
      DetectIsdataatMatch 7
        { dataat := 8, relative := false, rawbytes := false, negated := false,
          offset_be := false } ∧
    DetectIsdataatMatch 7
        { dataat := 8, relative := false, rawbytes := false, negated := false,
          offset_be := false } = 0 :=
  ⟨isdataat_match_two_valued.2 7 _ _ rfl rfl, by decide⟩

/-! ## `DetectFlowvarStoreMatch`: the frame (C34) -/

theorem storeReplace_distinct (idx : Nat) (b : List Nat) (n : Nat)
    (l l1 : List DetectFlowvarList) (hd : (l.map (fun e => e.idx)).Nodup)
    (h : storeReplace idx b n l = some l1) :
    l1 = l.map (fun e => if e.idx == idx then { idx := idx, len := n, buffer := b } else e) := by
  induction l generalizing l1 with
  | nil => simp [storeReplace] at h
  | cons fs rest ih =>
    simp only [List.map_cons, List.nodup_cons] at hd
    unfold storeReplace at h
    by_cases hfs : (fs.idx == idx) = true
    · simp only [hfs, if_true, Option.some.injEq] at h
      have hidx : fs.idx = idx := by simpa using hfs
      have hrest : rest.map (fun e => if e.idx == idx then
          ({ idx := idx, len := n, buffer := b } : DetectFlowvarList) else e) = rest := by
        conv => rhs; rw [← List.map_id rest]
        apply List.map_congr_left
        intro e he
        have : e.idx ≠ idx := by
          intro heq
          apply hd.1
          rw [hidx, ← heq]
          exact List.mem_map_of_mem (fun e => e.idx) he
        simp [this]
      simp only [List.map_cons, hfs, if_true, hrest]
      rw [← h, hidx]
    · simp only [hfs] at h
      cases hr : storeReplace idx b n rest with
      | none => simp [hr] at h
      | some r =>
        simp only [hr, Option.map_some', Bool.false_eq_true, if_false, Option.some.injEq] at h
        simp only [List.map_cons, hfs, Bool.false_eq_true, if_false]
        rw [← h, ih r hd.2 hr]

/-- C34: on a pending store with distinct indexes, a call of
`DetectFlowvarStoreMatch` that returns 0 leaves exactly the entry
`(idx, buffer, len)` under `idx` and the entries of the other indexes as
they were, in their order.  If `idx` was absent the store is the old one
with the new entry put in front (one entry more); if it was present the
store is the old one with that entry overwritten where it stood (as many
entries, the same indexes at the same places). -/
theorem store_match_frame (malloc_ok : Bool) (det_ctx : DetectEngineThreadCtx) (idx : Nat)
    (buffer : List Nat) (len : Nat) (hinv : PendingDistinct det_ctx)
    (h0 : (DetectFlowvarStoreMatch malloc_ok det_ctx idx buffer len).1 = 0) :
    (DetectFlowvarStoreMatch malloc_ok det_ctx idx buffer len).2.flowvarlist.filter
        (fun e => idx == e.idx) = [{ idx := idx, len := len, buffer := buffer }] ∧
    (DetectFlowvarStoreMatch malloc_ok det_ctx idx buffer len).2.flowvarlist.filter
        (fun e => !(idx == e.idx)) = det_ctx.flowvarlist.filter (fun e => !(idx == e.idx)) ∧
    ((∀ e ∈ det_ctx.flowvarlist, e.idx ≠ idx) →
      (DetectFlowvarStoreMatch malloc_ok det_ctx idx buffer len).2.flowvarlist =
        { idx := idx, len := len, buffer := buffer } :: det_ctx.flowvarlist) ∧
    ((∃ e ∈ det_ctx.flowvarlist, e.idx = idx) →
      (DetectFlowvarStoreMatch malloc_ok det_ctx idx buffer len).2.flowvarlist =
        det_ctx.flowvarlist.map (fun e =>
          if e.idx == idx then { idx := idx, len := len, buffer := buffer } else e) ∧
      (DetectFlowvarStoreMatch malloc_ok det_ctx idx buffer len).2.flowvarlist.length =
        det_ctx.flowvarlist.length) := by
  obtain ⟨_, hne, heq⟩ := DetectFlowvarStoreMatch_props malloc_ok det_ctx idx buffer len hinv
  refine ⟨heq h0, hne, ?_, ?_⟩
  · intro habs
    have hnone := (storeReplace_eq_none idx buffer len det_ctx.flowvarlist).2 habs
    unfold DetectFlowvarStoreMatch at h0 ⊢
    simp only [hnone] at h0 ⊢
    cases malloc_ok with
    | true => rfl
    | false => simp at h0
  · intro hex
    unfold DetectFlowvarStoreMatch
    cases hs : storeReplace idx buffer len det_ctx.flowvarlist with
    | none =>
      exfalso
      obtain ⟨e, he, hi⟩ := hex
      exact (storeReplace_eq_none idx buffer len det_ctx.flowvarlist).1 hs e he hi
    | some l1 =>
      simp only
      have hl := storeReplace_distinct idx buffer len det_ctx.flowvarlist l1 hinv hs
      rw [hl]
      exact ⟨rfl, List.length_map _ _⟩

/-- Witness for C34: with captures pending for variables 9 and 7, a new
capture for 7 overwrites the second entry where it stands, and one for 5
goes in front. -/
theorem store_match_frame_witness :
    (DetectFlowvarStoreMatch true
        { flowvarlist := [{ idx := 9, len := 1, buffer := cstr "c" },
                          { idx := 7, len := 2, buffer := cstr "ab" }] }
        7 (cstr "xyz") 3).2.flowvarlist =
      [{ idx := 9, len := 1, buffer := cstr "c" }, { idx := 7, len := 3, buffer := cstr "xyz" }] ∧
    (DetectFlowvarStoreMatch true
        { flowvarlist := [{ idx := 9, len := 1, buffer := cstr "c" },
                          { idx := 7, len := 2, buffer := cstr "ab" }] }
        5 (cstr "q") 1).2.flowvarlist =
      [{ idx := 5, len := 1, buffer := cstr "q" }, { idx := 9, len := 1, buffer := cstr "c" },
       { idx := 7, len := 2, buffer := cstr "ab" }] ∧
    (DetectFlowvarStoreMatch true
        { flowvarlist := [{ idx := 9, len := 1, buffer := cstr "c" },
                          { idx := 7, len := 2, buffer := cstr "ab" }] }
        7 (cstr "xyz") 3).2.flowvarlist.filter (fun e => 7 == e.idx) =
      [{ idx := 7, len := 3, buffer := cstr "xyz" }] :=
  ⟨by decide, by decide,
   (store_match_frame true
      { flowvarlist := [{ idx := 9, len := 1, buffer := cstr "c" },
                        { idx := 7, len := 2, buffer := cstr "ab" }] }
      7 (cstr "xyz") 3 (by decide) (by decide)).1⟩
/-! ## `DetectFlowvarSetup`: what a call leaves in the signature (C33) -/

theorem hexPure_converted_out (ps : HexPure) (c : Nat)
    (h : ps.converted = true → 1 ≤ ps.out.length) :
    (hexPure ps c).converted = true → 1 ≤ (hexPure ps c).out.length := by
  unfold hexPure
  by_cases h1 : (c == 124) = true
  · simp only [h1, if_true]
    exact h
  · simp only [h1]
    by_cases h2 : ps.bin = true
    · by_cases h3 : isHexChar c = true
      · by_cases h4 : (ps.binpos + 1 == 2) = true
        · simp [h2, h3, h4]
        · simp only [h2, h3, h4, if_true]
          exact h
      · simp only [h2, h3, if_true]
        exact h
    · simp only [h2]
      intro _
      simp

theorem foldl_hexPure_converted_out (l : List Nat) (ps : HexPure)
    (h : ps.converted = true → 1 ≤ ps.out.length) :
    (l.foldl hexPure ps).converted = true → 1 ≤ (l.foldl hexPure ps).out.length := by
  induction l generalizing ps with
  | nil => exact h
  | cons c t ih => exact ih (hexPure ps c) (hexPure_converted_out ps c h)

/-- The two outcomes of lines 178-277: -1 with the signature untouched, or
0 with one flowvar node appended to the match list, whose `content_len` is
at least 1 and at most the length of the decoded string. -/
theorem flowvarSetupStr_cases (mem : FlowvarSetupAllocs) (de_ctx : DetectEngineCtx)
    (s : Signature) (varname str : List Nat) :
    flowvarSetupStr mem de_ctx s varname str = (-1, s) ∨
    ∃ cd : DetectFlowvarData,
      cd.idx = de_ctx.VariableNameGetIdx varname SigMatchType.DETECT_FLOWVAR ∧
      cd.flags = 0 ∧ 1 ≤ cd.content_len ∧ cd.content_len ≤ str.length ∧
      flowvarSetupStr mem de_ctx s varname str =
        (0, SigMatchAppendSMToList s (flowvarNode cd) SmList.DETECT_SM_LIST_MATCH) := by
  unfold flowvarSetupStr
  by_cases hz : (str.length % 65536 == 0) = true
  · simp [hz]
  · by_cases hcd : mem.cd_ok = true
    swap
    · simp [hz, hcd]
    by_cases hcontent : mem.content_ok = true
    swap
    · simp [hz, hcd, hcontent]
    by_cases hsm : mem.sm_ok = true
    swap
    · simp [hz, hcd, hcontent, hsm]
    right
    simp only [hz, hcd, hcontent, hsm, Bool.not_true, Bool.false_eq_true, if_false]
    refine ⟨_, rfl, rfl, ?_, ?_, rfl⟩
    · have hle : str.length % 65536 ≤ str.length := Nat.mod_le _ _
      rw [hexLoop_eq str _ hle]
      simp only [HexPure.toState]
      by_cases hc : ((str.take (str.length % 65536)).foldl hexPure HexPure.init).converted = true
      · simp only [hc, if_true]
        exact foldl_hexPure_converted_out _ HexPure.init (fun h => Bool.noConfusion h) hc
      · simp only [hc]
        have : ¬ str.length % 65536 = 0 := by simpa using hz
        simp only [Bool.false_eq_true, if_false]
        omega
    · have hle : str.length % 65536 ≤ str.length := Nat.mod_le _ _
      rw [hexLoop_eq str _ hle]
      simp only [HexPure.toState]
      by_cases hc : ((str.take (str.length % 65536)).foldl hexPure HexPure.init).converted = true
      · simp only [hc, if_true]
        have h1 := foldl_hexPure_out_length (str.take (str.length % 65536)) HexPure.init
        have h2 : (str.take (str.length % 65536)).length ≤ str.length % 65536 :=
          List.length_take_le _ _
        have h3 : HexPure.init.out.length = 0 := rfl
        omega
      · simp only [hc, Bool.false_eq_true, if_false]
        exact hle

/-- C33: whenever `DetectFlowvarSetup` returns, it returns 0 or -1.  On -1
the signature is the one passed in.  On 0 the signature is the one passed
in with one node appended to the match list: a node of kind
`DETECT_FLOWVAR` with the next sequence number, whose descriptor has the
index `VariableNameGetIdx` gives for the parsed name and flags 0; every
other list is as before. -/
theorem flowvar_setup_modifies_iff (mem : FlowvarSetupAllocs) (de_ctx : DetectEngineCtx)
    (s : Signature) (rawstr : List Nat) (r : Int × Signature)
    (h : DetectFlowvarSetup mem de_ctx s rawstr = some r) :
    (r.1 = 0 ∨ r.1 = -1) ∧
    (r.1 = -1 → r.2 = s) ∧
    (r.1 = 0 → ∃ varname varcontent cd,
      pcreExecParseRegex rawstr = some (varname, varcontent) ∧
      cd.idx = de_ctx.VariableNameGetIdx varname SigMatchType.DETECT_FLOWVAR ∧
      cd.flags = 0 ∧
      r.2 = SigMatchAppendSMToList s (flowvarNode cd) SmList.DETECT_SM_LIST_MATCH ∧
      r.2.sm_lists SmList.DETECT_SM_LIST_MATCH =
        s.sm_lists SmList.DETECT_SM_LIST_MATCH ++
          [{ type := SigMatchType.DETECT_FLOWVAR, idx := s.sm_cnt,
             ctx := SigMatchCtx.flowvar cd }] ∧
      (∀ l, l ≠ SmList.DETECT_SM_LIST_MATCH → r.2.sm_lists l = s.sm_lists l)) := by
  have key : r = (-1, s) ∨ ∃ varname varcontent cd,
      pcreExecParseRegex rawstr = some (varname, varcontent) ∧
      cd.idx = de_ctx.VariableNameGetIdx varname SigMatchType.DETECT_FLOWVAR ∧
      cd.flags = 0 ∧
      r = (0, SigMatchAppendSMToList s (flowvarNode cd) SmList.DETECT_SM_LIST_MATCH) := by
    unfold DetectFlowvarSetup at h
    cases hparse : pcreExecParseRegex rawstr with
    | none =>
      simp only [hparse, Option.some.injEq] at h
      exact Or.inl h.symm
    | some nc =>
      obtain ⟨varname, varcontent⟩ := nc
      simp only [hparse] at h
      split at h
      · simp only [Option.some.injEq] at h
        exact Or.inl h.symm
      · split at h
        · exact Option.noConfusion h
        · simp only [Option.some.injEq] at h
          rcases flowvarSetupStr_cases mem de_ctx s varname
            (if (varcontent.getD 0 0 == 34 &&
                varcontent.getD (varcontent.length - 1) 0 == 34) = true
              then (varcontent.drop 1).take (varcontent.length - 2) else rawstr) with hc | hc
          · rw [hc] at h
            exact Or.inl h.symm
          · obtain ⟨cd, hidx, hflags, _, _, heq⟩ := hc
            rw [heq] at h
            exact Or.inr ⟨varname, varcontent, cd, rfl, hidx, hflags, h.symm⟩
  rcases key with hr | ⟨varname, varcontent, cd, hparse, hidx, hflags, hr⟩
  · subst hr
    refine ⟨Or.inr rfl, fun _ => rfl, fun h0 => ?_⟩
    simp at h0
  · subst hr
    refine ⟨Or.inl rfl, fun h1 => ?_, fun _ => ?_⟩
    · simp at h1
    · refine ⟨varname, varcontent, cd, hparse, hidx, hflags, rfl, ?_, ?_⟩
      · simp [SigMatchAppendSMToList, flowvarNode]
      · intro l hl
        simp [SigMatchAppendSMToList, hl]

/-- Witness for C33: `myvar,"ab"` on the empty signature returns 0 and
leaves one flowvar node in the match list and nothing in the other lists;
`myvar,""` returns -1 and leaves the signature empty. -/
theorem flowvar_setup_modifies_iff_witness :
    (DetectFlowvarSetup flowvarAllocOk { VariableNameGetIdx := fun _ _ => 1 }
        { sm_lists := fun _ => [], sm_cnt := 0 } (cstr "myvar,\"ab\"")).map
      (fun r => (r.1, r.2.sm_lists SmList.DETECT_SM_LIST_MATCH)) =
      some (0, [flowvarNode
        { name := some (cstr "myvar"), idx := 1, content := cstr "ab", content_len := 2,
          flags := 0 }]) ∧
    (DetectFlowvarSetup flowvarAllocOk { VariableNameGetIdx := fun _ _ => 1 }
        { sm_lists := fun _ => [], sm_cnt := 0 } (cstr "myvar,\"\"")).map
      (fun r => (r.1, r.2.sm_lists SmList.DETECT_SM_LIST_MATCH)) = some (-1, []) ∧
    (∀ l, l ≠ SmList.DETECT_SM_LIST_MATCH →
      (SigMatchAppendSMToList { sm_lists := fun _ => [], sm_cnt := 0 }
        (flowvarNode
          { name := some (cstr "myvar"), idx := 1, content := cstr "ab", content_len := 2,
            flags := 0 })
        SmList.DETECT_SM_LIST_MATCH).sm_lists l = []) := by
  obtain ⟨_, _, _, _, _, _, _, _, hother⟩ :=
    (flowvar_setup_modifies_iff flowvarAllocOk { VariableNameGetIdx := fun _ _ => 1 }
      { sm_lists := fun _ => [], sm_cnt := 0 } (cstr "myvar,\"ab\"")
      (0, SigMatchAppendSMToList { sm_lists := fun _ => [], sm_cnt := 0 }
        (flowvarNode
          { name := some (cstr "myvar"), idx := 1, content := cstr "ab", content_len := 2,
            flags := 0 })
        SmList.DETECT_SM_LIST_MATCH)
      rfl).2.2 rfl
  exact ⟨by decide, by decide, hother⟩

/-! ## `DetectFlowvarSetup`: the decoded string and its length (C31, C32, C38) -/

/-- Lines 178-277 on a string of fewer than 65536 bytes in which the loop
decodes a hex pair: the content is what the loop has written. -/
theorem flowvarSetupStr_converted (mem : FlowvarSetupAllocs) (de_ctx : DetectEngineCtx)
    (s : Signature) (varname str : List Nat) (hlen : str.length < 65536)
    (hconv : (str.foldl hexPure HexPure.init).converted = true) :
    flowvarSetupStr mem de_ctx s varname str =
      if mem.cd_ok = true ∧ mem.content_ok = true ∧ mem.sm_ok = true then
        (0, SigMatchAppendSMToList s
          (flowvarNode
            { name := if mem.name_ok then some varname else none
              idx := de_ctx.VariableNameGetIdx varname SigMatchType.DETECT_FLOWVAR
              content := (str.foldl hexPure HexPure.init).out
              content_len := (str.foldl hexPure HexPure.init).out.length
              flags := 0 })
          SmList.DETECT_SM_LIST_MATCH)
      else (-1, s) := by
  have hne : str ≠ [] := by
    intro h
    rw [h] at hconv
    exact Bool.noConfusion hconv
  have hpos : 0 < str.length := List.length_pos.2 hne
  have hmod : str.length % 65536 = str.length := Nat.mod_eq_of_lt hlen
  have hz : ¬ str.length = 0 := by omega
  have hloop : hexLoop str str.length = (str.foldl hexPure HexPure.init).toState str := by
    rw [hexLoop_eq str str.length (Nat.le_refl _), List.take_length]
  unfold flowvarSetupStr
  simp only [hmod, beq_iff_eq, hz, if_false, hloop, HexPure.toState, hconv, if_true, flowvarNode,
    List.take_left]
  cases mem.cd_ok <;> cases mem.content_ok <;> cases mem.sm_ok <;> simp

/-- Lines 178-277 on a non-empty string of fewer than 65536 bytes without
`|`: the content is the string itself. -/
theorem flowvarSetupStr_literal (mem : FlowvarSetupAllocs) (de_ctx : DetectEngineCtx)
    (s : Signature) (varname str : List Nat) (hlen : str.length < 65536) (hne : str ≠ [])
    (hbar : ∀ c ∈ str, c ≠ 124) :
    flowvarSetupStr mem de_ctx s varname str =
      if mem.cd_ok = true ∧ mem.content_ok = true ∧ mem.sm_ok = true then
        (0, SigMatchAppendSMToList s
          (flowvarNode
            { name := if mem.name_ok then some varname else none
              idx := de_ctx.VariableNameGetIdx varname SigMatchType.DETECT_FLOWVAR
              content := str
              content_len := str.length
              flags := 0 })
          SmList.DETECT_SM_LIST_MATCH)
      else (-1, s) := by
  have hpos : 0 < str.length := List.length_pos.2 hne
  have hmod : str.length % 65536 = str.length := Nat.mod_eq_of_lt hlen
  have hz : ¬ str.length = 0 := by omega
  have hfold : str.foldl hexPure HexPure.init = { HexPure.init with out := str } := by
    rw [foldl_hexPure_literal str HexPure.init rfl hbar]
    rfl
  have hloop : hexLoop str str.length = (str.foldl hexPure HexPure.init).toState str := by
    rw [hexLoop_eq str str.length (Nat.le_refl _), List.take_length]
  have hout : (str.foldl hexPure HexPure.init).out = str := by rw [hfold]
  have hconv : (str.foldl hexPure HexPure.init).converted = false := by
    rw [hfold]
    rfl
  unfold flowvarSetupStr
  simp only [hmod, beq_iff_eq, hz, if_false, hloop, HexPure.toState, hout, hconv,
    Bool.false_eq_true, flowvarNode, List.drop_length, List.append_nil, List.take_length]
  cases mem.cd_ok <;> cases mem.content_ok <;> cases mem.sm_ok <;> simp

theorem hexPure_bin (ps : HexPure) (c : Nat) :
    (hexPure ps c).bin = if c == 124 then !ps.bin else ps.bin := by
  unfold hexPure
  by_cases h1 : (c == 124) = true
  · simp [h1]
  · simp only [h1]
    by_cases h2 : ps.bin = true
    · by_cases h3 : isHexChar c = true
      · by_cases h4 : (ps.binpos + 1 == 2) = true
        · simp [h2, h3, h4]
        · simp [h2, h3, h4]
      · simp [h2, h3]
    · simp [h2]

/-- The loop passes over a space inside a hex run without any effect. -/
theorem foldl_hexPure_dropHexSpaces (l : List Nat) (ps : HexPure) :
    (dropHexSpaces ps.bin l).foldl hexPure ps = l.foldl hexPure ps := by
  induction l generalizing ps with
  | nil => rfl
  | cons c t ih =>
    unfold dropHexSpaces
    by_cases h1 : (c == 124) = true
    · simp only [h1, if_true, List.foldl_cons]
      have hb : (hexPure ps c).bin = !ps.bin := by rw [hexPure_bin, if_pos h1]
      rw [← hb]
      exact ih (hexPure ps c)
    · have hb : (hexPure ps c).bin = ps.bin := by rw [hexPure_bin, if_neg h1]
      simp only [h1, List.foldl_cons]
      by_cases h2 : (ps.bin && c == 32) = true
      · simp only [h2, if_true]
        have hc : c = 32 := by
          simp only [Bool.and_eq_true, beq_iff_eq] at h2
          exact h2.2
        have hbin : ps.bin = true := by
          simp only [Bool.and_eq_true] at h2
          exact h2.1
        have hstep : hexPure ps c = ps := by
          subst hc
          unfold hexPure
          simp [hbin, isHexChar, isdigit]
        rw [hstep]
        exact ih ps
      · simp only [h2, List.foldl_cons]
        rw [← hb]
        exact ih (hexPure ps c)

/-- Lines 178-277 give the same result on two strings of fewer than 65536
bytes that differ only by spaces inside hex runs, when the loop decodes a
hex pair. -/
theorem flowvarSetupStr_hex_spaces (mem : FlowvarSetupAllocs) (de_ctx : DetectEngineCtx)
    (s : Signature) (varname t1 t2 : List Nat)
    (h1 : t1.length < 65536) (h2 : t2.length < 65536)
    (heq : dropHexSpaces false t1 = dropHexSpaces false t2)
    (hconv : (t1.foldl hexPure HexPure.init).converted = true) :
    flowvarSetupStr mem de_ctx s varname t1 = flowvarSetupStr mem de_ctx s varname t2 := by
  have hf : t1.foldl hexPure HexPure.init = t2.foldl hexPure HexPure.init := by
    rw [← foldl_hexPure_dropHexSpaces t1 HexPure.init,
      ← foldl_hexPure_dropHexSpaces t2 HexPure.init]
    show (dropHexSpaces false t1).foldl hexPure HexPure.init =
      (dropHexSpaces false t2).foldl hexPure HexPure.init
    rw [heq]
  rw [flowvarSetupStr_converted mem de_ctx s varname t1 h1 hconv,
    flowvarSetupStr_converted mem de_ctx s varname t2 h2 (hf ▸ hconv), hf]
/-- C31, the code at the failing input: the tokens `|41 42|` and `|4142|`
differ by one space inside a hex run and hold two hex pairs, yet after the
name `a|b` the first compiles to the 11 bytes `a41 421 42|` and the second
to the 10 bytes `a41424142|`: the content is not wrapped in quotes, so the
loop runs over the whole argument and the `|` of the name switches the
mode before the token is reached.  After the name `myvar`, quoted or not,
the three tokens of the claim compile to the same content. -/
theorem flowvar_setup_hex_spaces_unquoted :
    dropHexSpaces false (cstr "|41 42|") = cstr "|4142|" ∧
    pcreExecParseRegex (cstr "a|b,|41 42|") = some (cstr "a|b", cstr "|41 42|") ∧
    pcreExecParseRegex (cstr "a|b,|4142|") = some (cstr "a|b", cstr "|4142|") ∧
    (DetectFlowvarSetup flowvarAllocOk { VariableNameGetIdx := fun _ _ => 1 }
        { sm_lists := fun _ => [], sm_cnt := 0 } (cstr "a|b,|41 42|")).map
      (fun r => (r.1, flowvarContents r.2)) = some (0, [(cstr "a41 421 42|", 11)]) ∧
    (DetectFlowvarSetup flowvarAllocOk { VariableNameGetIdx := fun _ _ => 1 }
        { sm_lists := fun _ => [], sm_cnt := 0 } (cstr "a|b,|4142|")).map
      (fun r => (r.1, flowvarContents r.2)) = some (0, [(cstr "a41424142|", 10)]) ∧
    (∀ arg ∈ [cstr "myvar,\"|41 42|\"", cstr "myvar,\"|4142|\"", cstr "myvar,\"|4 1 4 2|\""],
      (DetectFlowvarSetup flowvarAllocOk { VariableNameGetIdx := fun _ _ => 1 }
          { sm_lists := fun _ => [], sm_cnt := 0 } arg).map
        (fun r => (r.1, flowvarContents r.2)) = some (0, [(cstr "AB", 2)])) ∧
    (∀ arg ∈ [cstr "myvar,|41 42|", cstr "myvar,|4142|", cstr "myvar,|4 1 4 2|"],
      (DetectFlowvarSetup flowvarAllocOk { VariableNameGetIdx := fun _ _ => 1 }
          { sm_lists := fun _ => [], sm_cnt := 0 } arg).map
        (fun r => (r.1, flowvarContents r.2)) = some (0, [(cstr "myvar,AB", 8)])) := by
  refine ⟨by decide, by decide, by decide, by decide, by decide, by decide, by decide⟩

/-- C32, the code at the failing input `myvar,ab`: the content token is the
two bytes `ab`, without quotes and without `|`, yet `DetectFlowvarSetup`
returns 0 with the eight-byte content `myvar,ab`, `content_len` 8: longer
than the token and not equal to it.  With quotes, `myvar,"ab"` compiles to
`ab`, `content_len` 2. -/
theorem flowvar_setup_unquoted_length :
    pcreExecParseRegex (cstr "myvar,ab") = some (cstr "myvar", cstr "ab") ∧
    quoteTest (cstr "ab") = false ∧
    (DetectFlowvarSetup flowvarAllocOk { VariableNameGetIdx := fun _ _ => 1 }
        { sm_lists := fun _ => [], sm_cnt := 0 } (cstr "myvar,ab")).map
      (fun r => (r.1, flowvarContents r.2)) = some (0, [(cstr "myvar,ab", 8)]) ∧
    (DetectFlowvarSetup flowvarAllocOk { VariableNameGetIdx := fun _ _ => 1 }
        { sm_lists := fun _ => [], sm_cnt := 0 } (cstr "myvar,\"ab\"")).map
      (fun r => (r.1, flowvarContents r.2)) = some (0, [(cstr "ab", 2)]) := by
  refine ⟨by decide, by decide, by decide, by decide⟩

theorem stripIndex_of_two_le (tok : List Nat) (h2 : 2 ≤ tok.length)
    (hlt : tok.length < 2 ^ 64) : stripIndex tok = tok.length - 2 := by
  unfold stripIndex
  have h : tok.length + 2 ^ 64 - 2 = (tok.length - 2) + 2 ^ 64 := by omega
  rw [h, Nat.add_mod_right]
  exact Nat.mod_eq_of_lt (by omega)

/-- C38, the code at the failing input `myvar,"` (content token: the one
byte `"`): both quote tests hold on that byte, the copy
`SCStrdup(varcontent+1)` is one byte long, and the terminator is stored at
index `strlen(varcontent)-2`, which in `size_t` is 2^64 - 1: outside the
copy.  For a token of two or more bytes that passes the quote tests the
index is `strlen - 2`, inside the copy, and the stripped literal has that
length; the one-byte token is the only argument on which the function
leaves defined behaviour. -/
theorem flowvar_setup_quote_strip_bounds :
    pcreExecParseRegex (cstr "myvar,\"") = some (cstr "myvar", cstr "\"") ∧
    quoteTest (cstr "\"") = true ∧
    stripCopySize (cstr "\"") = 1 ∧
    stripIndex (cstr "\"") = 2 ^ 64 - 1 ∧
    ¬ stripIndex (cstr "\"") < stripCopySize (cstr "\"") ∧
    DetectFlowvarSetup flowvarAllocOk { VariableNameGetIdx := fun _ _ => 1 }
        { sm_lists := fun _ => [], sm_cnt := 0 } (cstr "myvar,\"") = none ∧
    (∀ tok : List Nat, quoteTest tok = true → 2 ≤ tok.length → tok.length < 2 ^ 64 →
      stripIndex tok = tok.length - 2 ∧ stripIndex tok < stripCopySize tok ∧
      ((tok.drop 1).take (stripIndex tok)).length = tok.length - 2) ∧
    (∀ (mem : FlowvarSetupAllocs) (de_ctx : DetectEngineCtx) (s : Signature)
        (rawstr : List Nat),
      DetectFlowvarSetup mem de_ctx s rawstr = none →
      ∃ varname varcontent, pcreExecParseRegex rawstr = some (varname, varcontent) ∧
        quoteTest varcontent = true ∧ varcontent.length = 1 ∧
        ¬ stripIndex varcontent < stripCopySize varcontent) := by
  refine ⟨by decide, by decide, by decide, by decide, by decide, rfl, ?_, ?_⟩
  · intro tok _ h2 hlt
    have hi := stripIndex_of_two_le tok h2 hlt
    refine ⟨hi, ?_, ?_⟩
    · rw [hi]
      unfold stripCopySize
      rw [List.length_drop]
      omega
    · rw [hi, List.length_take, List.length_drop]
      omega
  · intro mem de_ctx s rawstr h
    unfold DetectFlowvarSetup at h
    cases hparse : pcreExecParseRegex rawstr with
    | none => simp [hparse] at h
    | some nc =>
      obtain ⟨varname, varcontent⟩ := nc
      simp only [hparse] at h
      split at h
      · exact Option.noConfusion h
      · split at h
        · rename_i hd
          simp only [Bool.and_eq_true, decide_eq_true_eq] at hd
          have hq : quoteTest varcontent = true := by
            unfold quoteTest
            simpa using hd.1
          have hlen : varcontent.length = 1 := by
            have hne : varcontent ≠ [] := by
              intro he
              rw [he] at hq
              exact Bool.noConfusion hq
            have := List.length_pos.2 hne
            omega
          refine ⟨varname, varcontent, rfl, hq, hlen, ?_⟩
          unfold stripIndex stripCopySize
          rw [List.length_drop, hlen]
          decide
        · exact Option.noConfusion h
/-! ## `DetectIsdataatSetup`: what a failure leaves behind (C36) -/

theorem isdataatAdded_append (s s0 : Signature) (hl : s0.sm_lists = s.sm_lists)
    (idad : DetectIsdataatData) (list : SmList) :
    IsdataatAdded s (SigMatchAppendSMToList s0 (isdataatNode idad) list) := by
  refine ⟨list, { isdataatNode idad with idx := s0.sm_cnt }, rfl, ?_, ?_⟩
  · simp [SigMatchAppendSMToList, hl]
  · intro l h
    simp [SigMatchAppendSMToList, hl, h]

theorem isdataatAdded_setVar (s s0 : Signature) (hl : s0.sm_lists = s.sm_lists)
    (idad : DetectIsdataatData) (list : SmList) (k : Nat) :
    IsdataatAdded s (isdataatSetVar (SigMatchAppendSMToList s0 (isdataatNode idad) list)
      { list := list, pos := (s.sm_lists list).length } k) := by
  have hnew := nodeAt_append_new s0 (isdataatNode idad) list
  rw [hl] at hnew
  unfold isdataatSetVar
  rw [hnew]
  simp only [isdataatNode]
  refine ⟨list, ⟨SigMatchType.DETECT_ISDATAAT, s0.sm_cnt,
    SigMatchCtx.isdataat ⟨k, idad.relative, idad.rawbytes, idad.negated, true⟩⟩, rfl, ?_, ?_⟩
  · simp only [Signature.setNode, if_true, SigMatchAppendSMToList, hl]
    rw [List.set_append]
    simp only [Nat.lt_irrefl, if_false, Nat.sub_self, List.set_cons_zero]
  · intro l h
    simp [Signature.setNode, SigMatchAppendSMToList, hl, h]

/-- Where the placement ends in an error: before anything was appended, or
with the node appended. -/
theorem isdataatPlace_error (s : Signature) (idad : DetectIsdataatData)
    (offset : Option (List Nat)) (s1 : Signature)
    (h : isdataatPlace s idad offset = IsdataatPlaced.error s1) :
    s1 = s ∨ IsdataatAdded s s1 := by
  unfold isdataatPlace at h
  by_cases hdce : s.alproto = AppProto.ALPROTO_DCERPC ∧ idad.relative = true
  · rw [if_pos hdce] at h
    simp only at h
    split at h
    · split at h
      · simp only [IsdataatPlaced.error.injEq] at h
        rw [← h]
        exact Or.inr (isdataatAdded_append s s rfl idad _)
      · exact IsdataatPlaced.noConfusion h
    · exact IsdataatPlaced.noConfusion h
  · rw [if_neg hdce] at h
    by_cases hfd : s.init_file_data = true
    · rw [if_pos hfd] at h
      simp only at h
      split at h
      · split at h
        · simp only [IsdataatPlaced.error.injEq] at h
          rw [← h]
          exact Or.inr (isdataatAdded_append s { s with flag_applayer := true } rfl _ _)
        · exact IsdataatPlaced.noConfusion h
      · exact IsdataatPlaced.noConfusion h
    · rw [if_neg hfd] at h
      by_cases hr : idad.relative = false
      · rw [if_pos hr] at h
        simp only at h
        split at h
        · split at h
          · simp only [IsdataatPlaced.error.injEq] at h
            rw [← h]
            exact Or.inr (isdataatAdded_append s s rfl idad _)
          · exact IsdataatPlaced.noConfusion h
        · exact IsdataatPlaced.noConfusion h
      · rw [if_neg hr] at h
        split at h
        · simp only [IsdataatPlaced.error.injEq] at h
          exact Or.inl h.symm
        · exact IsdataatPlaced.noConfusion h

theorem isdataatFlagAnchor_fail (s2 : Signature) (pm : SmRef)
    (h : (isdataatFlagAnchor s2 pm).1 = -1) : (isdataatFlagAnchor s2 pm).2 = s2 := by
  unfold isdataatFlagAnchor at h ⊢
  cases hn : s2.nodeAt pm with
  | none => rfl
  | some a =>
    obtain ⟨ty, ix, cx⟩ := a
    simp only [hn] at h ⊢
    cases ty
    all_goals cases cx
    all_goals first | rfl | (simp at h)
/-- C36 as stated fails: on the empty signature `isdataat:foo` returns -1
(no byte_extract variable `foo`), yet the payload list, empty before the
call, holds the new isdataat node afterwards. -/
theorem isdataat_failure_not_atomic :
    (DetectIsdataatSetup allocOk { sm_lists := fun _ => [], sm_cnt := 0 } (cstr "foo")).1 = -1 ∧
    (DetectIsdataatSetup allocOk { sm_lists := fun _ => [], sm_cnt := 0 }
        (cstr "foo")).2.sm_lists SmList.DETECT_SM_LIST_PMATCH = [isdataatNodeAt 0 0 false false] := by
  refine ⟨by decide, by decide⟩

/-- C36, amended: whenever `DetectIsdataatSetup` returns -1, every node the
signature had is where it was, with its descriptor and flags as they were;
the lists are either all as before or as before but for the new isdataat
node at the tail of one of them.  They are all as before when the failure
is that of `DetectIsdataatParse` or of `SigMatchAlloc`. -/
theorem isdataat_failure_keeps_nodes (mem : IsdataatAllocs) (s : Signature) (str : List Nat)
    (h : (DetectIsdataatSetup mem s str).1 = -1) :
    ((∀ l, (DetectIsdataatSetup mem s str).2.sm_lists l = s.sm_lists l) ∨
      IsdataatAdded s (DetectIsdataatSetup mem s str).2) ∧
    (∀ r n, s.nodeAt r = some n → (DetectIsdataatSetup mem s str).2.nodeAt r = some n) ∧
    (DetectIsdataatParse mem str true = none ∨ mem.sm_ok = false →
      (DetectIsdataatSetup mem s str).2 = s) := by
  have key : (∀ l, (DetectIsdataatSetup mem s str).2.sm_lists l = s.sm_lists l) ∨
      IsdataatAdded s (DetectIsdataatSetup mem s str).2 := by
    unfold DetectIsdataatSetup at h ⊢
    cases hparse : DetectIsdataatParse mem str true with
    | none => exact Or.inl (fun _ => rfl)
    | some r =>
      obtain ⟨idad, offset⟩ := r
      simp only [hparse] at h ⊢
      cases hsm : mem.sm_ok with
      | false => exact Or.inl (fun _ => rfl)
      | true =>
        simp only [hsm, Bool.not_true, Bool.false_eq_true, if_false] at h ⊢
        cases hplace : isdataatPlace s idad offset with
        | error s1 =>
          simp only
          rcases isdataatPlace_error s idad offset s1 hplace with he | he
          · rw [he]
            exact Or.inl (fun _ => rfl)
          · exact Or.inr he
        | done s1 => simp [hplace] at h
        | anchored s1 sm pm =>
          simp only [hplace] at h ⊢
          obtain ⟨list, s0, hl, hc, hcase⟩ := isdataatPlace_cases s idad offset
          rcases hcase with ⟨s2, he⟩ | ⟨idad1, he⟩ | ⟨k, he⟩ | ⟨pm2, he⟩
          · rw [he] at hplace
            exact IsdataatPlaced.noConfusion hplace
          · rw [he] at hplace
            exact IsdataatPlaced.noConfusion hplace
          · rw [he] at hplace
            exact IsdataatPlaced.noConfusion hplace
          · rw [he] at hplace
            simp only [IsdataatPlaced.anchored.injEq] at hplace
            obtain ⟨h1, h2, h3⟩ := hplace
            subst h1 h2 h3
            right
            unfold isdataatFinish at h ⊢
            unfold isdataatResolve at h ⊢
            cases offset with
            | none =>
              simp only at h ⊢
              rw [isdataatFlagAnchor_fail _ _ h]
              exact isdataatAdded_append s s0 hl idad list
            | some name =>
              simp only at h ⊢
              cases hb : DetectByteExtractRetrieveSMVar name
                  (SigMatchAppendSMToList s0 (isdataatNode idad) list) list with
              | none =>
                simp only
                exact isdataatAdded_append s s0 hl idad list
              | some bed =>
                simp only [hb] at h ⊢
                rw [isdataatFlagAnchor_fail _ _ h]
                exact isdataatAdded_setVar s s0 hl idad list bed.local_id
  refine ⟨key, ?_, ?_⟩
  · intro r n hn
    unfold Signature.nodeAt at hn ⊢
    rcases key with hk | ⟨list, node, _, hlist, hother⟩
    · rw [hk]
      exact hn
    · by_cases hrl : r.list = list
      · rw [hrl, hlist]
        rw [hrl] at hn
        have hlt : r.pos < (s.sm_lists list).length := by
          rcases Nat.lt_or_ge r.pos (s.sm_lists list).length with h1 | h1
          · exact h1
          · rw [List.getElem?_eq_none h1] at hn
            exact Option.noConfusion hn
        rw [List.getElem?_append_left hlt]
        exact hn
      · rw [hother r.list hrl]
        exact hn
  · intro hfail
    unfold DetectIsdataatSetup
    rcases hfail with hp | hs
    · rw [hp]
    · cases hparse : DetectIsdataatParse mem str true with
      | none => rfl
      | some r =>
        obtain ⟨idad, offset⟩ := r
        simp [hs]

/-- Witness for C36: after a content in the URI list, `isdataat:foo,relative`
returns -1 (no byte_extract variable `foo`); the content is where it was,
unflagged. -/
theorem isdataat_failure_keeps_nodes_witness :
    (DetectIsdataatSetup allocOk
        (oneListSignature SmList.DETECT_SM_LIST_UMATCH [contentNode 0 false]
          AppProto.ALPROTO_UNKNOWN false) (cstr "foo,relative")).1 = -1 ∧
    (DetectIsdataatSetup allocOk
        (oneListSignature SmList.DETECT_SM_LIST_UMATCH [contentNode 0 false]
          AppProto.ALPROTO_UNKNOWN false) (cstr "foo,relative")).2.nodeAt
        { list := SmList.DETECT_SM_LIST_UMATCH, pos := 0 } = some (contentNode 0 false) :=
  ⟨by decide,
   (isdataat_failure_keeps_nodes allocOk
      (oneListSignature SmList.DETECT_SM_LIST_UMATCH [contentNode 0 false]
        AppProto.ALPROTO_UNKNOWN false) (cstr "foo,relative") (by decide)).2.1
      { list := SmList.DETECT_SM_LIST_UMATCH, pos := 0 } (contentNode 0 false) rfl⟩

/-! ## `DetectIsdataatSetup`: the final switch (C37) -/

/-- C37: when `DetectIsdataatSetup` reaches its final `switch` (the
placement found the anchor `prev_pm` and the symbolic offset, if any, was
resolved, leaving the signature `s2`), the anchor is a node of the
signature and its kind is Content, Regex, ByteJump, ByteTest or
ByteExtract, so the `default` branch is not taken; the function returns
what the switch returns. -/
theorem isdataat_switch_default_unreachable (mem : IsdataatAllocs) (s : Signature)
    (str : List Nat) (idad : DetectIsdataatData) (offset : Option (List Nat))
    (s1 s2 : Signature) (sm pm : SmRef)
    (hparse : DetectIsdataatParse mem str true = some (idad, offset))
    (hsm : mem.sm_ok = true)
    (hplace : isdataatPlace s idad offset = IsdataatPlaced.anchored s1 sm pm)
    (hres : isdataatResolve s1 sm offset = some s2) :
    DetectIsdataatSetup mem s str = isdataatFlagAnchor s2 pm ∧
    ∃ a, s2.nodeAt pm = some a ∧
      (a.type = SigMatchType.DETECT_CONTENT ∨ a.type = SigMatchType.DETECT_PCRE ∨
        a.type = SigMatchType.DETECT_BYTEJUMP ∨ a.type = SigMatchType.DETECT_BYTETEST ∨
        a.type = SigMatchType.DETECT_BYTE_EXTRACT) := by
  constructor
  · rw [DetectIsdataatSetup_of_parse mem s str idad offset hparse hsm]
    simp only [hplace]
    unfold isdataatFinish
    simp only [hres]
  · obtain ⟨a, ha, hk⟩ := isdataatPlace_anchored_kind s idad offset s1 sm pm hplace
    obtain ⟨_, _, hold, hne, _⟩ := isdataatPlace_anchored_node s idad offset s1 sm pm hplace
    obtain ⟨hother, _, _⟩ := isdataatResolve_some s1 sm offset s2 hres
    refine ⟨a, ?_, ?_⟩
    · rw [hother pm hne, hold, ha]
    · obtain ⟨ty, ix, cx⟩ := a
      cases ty <;> simp_all [anchorKind]

/-- Witness for C37: `isdataat:!4,relative` after a content in the URI list
reaches the switch with that content as the anchor. -/
theorem isdataat_switch_default_unreachable_witness :
    ∃ a, (SigMatchAppendSMToList
        (oneListSignature SmList.DETECT_SM_LIST_UMATCH [contentNode 0 false]
          AppProto.ALPROTO_UNKNOWN false)
        (isdataatNode
          { dataat := 4, relative := true, rawbytes := false, negated := true,
            offset_be := false })
        SmList.DETECT_SM_LIST_UMATCH).nodeAt { list := SmList.DETECT_SM_LIST_UMATCH, pos := 0 }
        = some a ∧
      (a.type = SigMatchType.DETECT_CONTENT ∨ a.type = SigMatchType.DETECT_PCRE ∨
        a.type = SigMatchType.DETECT_BYTEJUMP ∨ a.type = SigMatchType.DETECT_BYTETEST ∨
        a.type = SigMatchType.DETECT_BYTE_EXTRACT) :=
  (isdataat_switch_default_unreachable allocOk
    (oneListSignature SmList.DETECT_SM_LIST_UMATCH [contentNode 0 false]
      AppProto.ALPROTO_UNKNOWN false)
    (cstr "!4,relative")
    { dataat := 4, relative := true, rawbytes := false, negated := true, offset_be := false }
    none
    (SigMatchAppendSMToList
      (oneListSignature SmList.DETECT_SM_LIST_UMATCH [contentNode 0 false]
        AppProto.ALPROTO_UNKNOWN false)
      (isdataatNode
        { dataat := 4, relative := true, rawbytes := false, negated := true,
          offset_be := false })
      SmList.DETECT_SM_LIST_UMATCH)
    (SigMatchAppendSMToList
      (oneListSignature SmList.DETECT_SM_LIST_UMATCH [contentNode 0 false]
        AppProto.ALPROTO_UNKNOWN false)
      (isdataatNode
        { dataat := 4, relative := true, rawbytes := false, negated := true,
          offset_be := false })
      SmList.DETECT_SM_LIST_UMATCH)
    { list := SmList.DETECT_SM_LIST_UMATCH, pos := 1 }
    { list := SmList.DETECT_SM_LIST_UMATCH, pos := 0 }
    (by decide) rfl rfl rfl).2
/-! ## The flow lock (C39) -/

theorem DetectFlowvarMatchEvents_cases (f : Flow) (fd : DetectFlowvarData) :
    ((FlowVarGet f fd.idx).isSome = true ∧
      DetectFlowvarMatchEvents f fd =
        [FlowEvent.rdlock, FlowEvent.get fd.idx, FlowEvent.search, FlowEvent.unlock]) ∨
    ((FlowVarGet f fd.idx).isSome = false ∧ DetectFlowvarMatch f fd = 0 ∧
      DetectFlowvarMatchEvents f fd =
        [FlowEvent.rdlock, FlowEvent.get fd.idx, FlowEvent.unlock]) := by
  unfold DetectFlowvarMatchEvents DetectFlowvarMatch
  cases FlowVarGet f fd.idx with
  | none => exact Or.inr ⟨rfl, rfl, rfl⟩
  | some fv => exact Or.inl ⟨rfl, rfl⟩

theorem disciplined_FlowVarAddStrEvents (idx : Nat) (rest : List FlowEvent) :
    disciplined Held.free (FlowVarAddStrEvents idx ++ rest) = disciplined Held.free rest := by
  simp [FlowVarAddStrEvents, disciplined, allowed, heldAfter]

theorem postMatchLoopEvents_disciplined (idx : Nat) (l : List DetectFlowvarList) :
    disciplined Held.free (postMatchLoopEvents idx l) = true := by
  induction l with
  | nil => rfl
  | cons fs rest ih =>
    unfold postMatchLoopEvents
    by_cases h : (idx == fs.idx) = true
    · simp only [h, if_true]
      rw [disciplined_FlowVarAddStrEvents]
      exact ih
    · simp only [h]
      exact ih

theorem DetectFlowvarPostMatchEvents_disciplined (det_ctx : DetectEngineThreadCtx)
    (p : Packet) (fd : DetectFlowvarData) :
    disciplined Held.free (DetectFlowvarPostMatchEvents det_ctx p fd) = true := by
  unfold DetectFlowvarPostMatchEvents
  cases hl : det_ctx.flowvarlist with
  | nil => rfl
  | cons fs rest =>
    cases hf : p.flow with
    | none => rfl
    | some f => exact postMatchLoopEvents_disciplined fd.idx (fs :: rest)

theorem postMatchLoopEvents_adds (idx : Nat) (l : List DetectFlowvarList) :
    (postMatchLoopEvents idx l).filter (fun e => e matches FlowEvent.add _) =
      (l.filter (fun e => idx == e.idx)).map (fun e => FlowEvent.add e.idx) := by
  induction l with
  | nil => rfl
  | cons fs rest ih =>
    unfold postMatchLoopEvents
    by_cases h : (idx == fs.idx) = true
    · simp only [h, if_true, List.filter_append, List.filter_cons_of_pos, List.map_cons, ih]
      simp [FlowVarAddStrEvents]
    · simp only [h, List.filter_cons]
      simpa using ih

theorem disciplined_split (p : List FlowEvent) (e : FlowEvent) (q : List FlowEvent) (h : Held)
    (hd : disciplined h (p ++ e :: q) = true) : allowed (p.foldl heldAfter h) e = true := by
  induction p generalizing h with
  | nil =>
    simp only [List.nil_append, disciplined, Bool.and_eq_true] at hd
    exact hd.1
  | cons c t ih =>
    simp only [List.cons_append, disciplined, Bool.and_eq_true] at hd
    exact ih (heldAfter h c) hd.2

theorem threadEvents_append (t : Bool) (a b : List (Bool × FlowEvent)) :
    threadEvents t (a ++ b) = threadEvents t a ++ threadEvents t b := by
  simp [threadEvents]

theorem threadEvents_cons_self (t : Bool) (e : FlowEvent) (b : List (Bool × FlowEvent)) :
    threadEvents t ((t, e) :: b) = e :: threadEvents t b := by
  simp [threadEvents]

theorem lockCompat_step (a b : Held) (e : FlowEvent) (hc : lockCompat a b)
    (hg : granted b e = true) : lockCompat (heldAfter a e) b := by
  unfold lockCompat at hc ⊢
  cases e <;> cases a <;> cases b <;> simp_all [heldAfter, granted]

theorem lockCompat_symm (a b : Held) (hc : lockCompat a b) : lockCompat b a :=
  ⟨hc.2, hc.1⟩

/-- The holdings after a possible schedule keep the exclusion. -/
theorem schedOk_compat (pre rest : List (Bool × FlowEvent)) (a b : Held)
    (hok : schedOk a b (pre ++ rest) = true) (hc : lockCompat a b) :
    lockCompat ((threadEvents true pre).foldl heldAfter a)
      ((threadEvents false pre).foldl heldAfter b) := by
  induction pre generalizing a b with
  | nil => exact hc
  | cons x t ih =>
    obtain ⟨tid, e⟩ := x
    cases tid with
    | true =>
      simp only [List.cons_append, schedOk, Bool.and_eq_true] at hok
      have h1 : threadEvents true ((true, e) :: t) = e :: threadEvents true t :=
        threadEvents_cons_self true e t
      have h2 : threadEvents false ((true, e) :: t) = threadEvents false t := by
        simp [threadEvents]
      rw [h1, h2, List.foldl_cons]
      exact ih (heldAfter a e) b hok.2 (lockCompat_step a b e hc hok.1)
    | false =>
      simp only [List.cons_append, schedOk, Bool.and_eq_true] at hok
      have h1 : threadEvents false ((false, e) :: t) = e :: threadEvents false t :=
        threadEvents_cons_self false e t
      have h2 : threadEvents true ((false, e) :: t) = threadEvents true t := by
        simp [threadEvents]
      rw [h1, h2, List.foldl_cons]
      exact ih a (heldAfter b e) hok.2
        (lockCompat_symm _ _ (lockCompat_step b a e (lockCompat_symm _ _ hc) hok.1))

theorem foldl_heldAfter_ne_write (l : List FlowEvent) (h : Held) (hh : h ≠ Held.write)
    (hl : ∀ e ∈ l, e ≠ FlowEvent.wrlock) : l.foldl heldAfter h ≠ Held.write := by
  induction l generalizing h with
  | nil => exact hh
  | cons c t ih =>
    simp only [List.foldl_cons]
    apply ih
    · have hc : c ≠ FlowEvent.wrlock := hl c (List.mem_cons_self c t)
      cases c <;> simp_all [heldAfter]
    · intro e he
      exact hl e (List.mem_cons_of_mem c he)
theorem DetectFlowvarMatchEvents_disciplined (f : Flow) (fd : DetectFlowvarData) :
    disciplined Held.free (DetectFlowvarMatchEvents f fd) = true ∧
    (∀ e ∈ DetectFlowvarMatchEvents f fd, e ≠ FlowEvent.wrlock) ∧
    (DetectFlowvarMatchEvents f fd).head? = some FlowEvent.rdlock ∧
    (DetectFlowvarMatchEvents f fd).getLast? = some FlowEvent.unlock ∧
    (DetectFlowvarMatchEvents f fd).count FlowEvent.unlock = 1 ∧
    (DetectFlowvarMatchEvents f fd).count FlowEvent.rdlock = 1 := by
  rcases DetectFlowvarMatchEvents_cases f fd with ⟨_, h⟩ | ⟨_, _, h⟩
  · rw [h]
    refine ⟨rfl, ?_, rfl, rfl, ?_, ?_⟩
    · intro e he
      simp only [List.mem_cons, List.mem_singleton, List.not_mem_nil, or_false] at he
      rcases he with rfl | rfl | rfl | rfl <;> simp
    · simp [List.count_cons]
    · simp [List.count_cons]
  · rw [h]
    refine ⟨rfl, ?_, rfl, rfl, ?_, ?_⟩
    · intro e he
      simp only [List.mem_cons, List.mem_singleton, List.not_mem_nil, or_false] at he
      rcases he with rfl | rfl | rfl <;> simp
    · simp [List.count_cons]
    · simp [List.count_cons]

/-- The exclusion between a thread in `DetectFlowvarMatch` (tag `true`) and
a thread in `DetectFlowvarPostMatch` (tag `false`) on one flow, at any
point of any possible schedule. -/
theorem flow_lock_exclusion (f : Flow) (fd : DetectFlowvarData)
    (det_ctx : DetectEngineThreadCtx) (p : Packet) (fd2 : DetectFlowvarData)
    (sched pre post : List (Bool × FlowEvent)) (t : Bool) (e : FlowEvent)
    (hr : threadEvents true sched = DetectFlowvarMatchEvents f fd)
    (hw : threadEvents false sched = DetectFlowvarPostMatchEvents det_ctx p fd2)
    (hok : schedOk Held.free Held.free sched = true)
    (hs : sched = pre ++ (t, e) :: post) :
    (t = false → (∃ i, e = FlowEvent.add i) →
      heldBy false pre = Held.write ∧ heldBy true pre = Held.free) ∧
    (t = true → (e = FlowEvent.get fd.idx ∨ e = FlowEvent.search) →
      heldBy true pre = Held.read ∧ heldBy false pre ≠ Held.write) := by
  have hcompat : lockCompat (heldBy true pre) (heldBy false pre) := by
    unfold heldBy
    apply schedOk_compat pre ((t, e) :: post) Held.free Held.free
    · rw [← hs]
      exact hok
    · exact ⟨fun h => Held.noConfusion h, fun h => Held.noConfusion h⟩
  have hsplit : threadEvents t sched = threadEvents t pre ++ e :: threadEvents t post := by
    rw [hs, threadEvents_append, threadEvents_cons_self]
  constructor
  · intro ht hadd
    subst ht
    obtain ⟨i, rfl⟩ := hadd
    have hd := DetectFlowvarPostMatchEvents_disciplined det_ctx p fd2
    rw [← hw, hsplit] at hd
    have ha := disciplined_split _ _ _ _ hd
    have hwr : heldBy false pre = Held.write := by
      unfold heldBy
      simpa [allowed] using ha
    exact ⟨hwr, hcompat.2 hwr⟩
  · intro ht hev
    subst ht
    obtain ⟨hd, hnw, _⟩ := DetectFlowvarMatchEvents_disciplined f fd
    rw [← hr, hsplit] at hd
    have ha := disciplined_split _ _ _ _ hd
    have hne : heldBy true pre ≠ Held.free := by
      unfold heldBy
      rcases hev with rfl | rfl <;> simpa [allowed] using ha
    have hnw2 : heldBy true pre ≠ Held.write := by
      unfold heldBy
      apply foldl_heldAfter_ne_write _ _ (fun h => Held.noConfusion h)
      intro e1 he1
      apply hnw
      rw [← hr, hsplit]
      exact List.mem_append_left _ he1
    refine ⟨?_, fun hwr => hne (hcompat.2 hwr)⟩
    cases hh : heldBy true pre with
    | free => exact absurd hh hne
    | read => rfl
    | write => exact absurd hh hnw2

/-- C39: `DetectFlowvarMatch` takes the read lock first, releases it last
and once, and looks the variable up and searches its value only while it
holds the lock; it computes what the function without the lock computes.
`DetectFlowvarPostMatch` moves a value into the flow only while it holds
the write lock, which `FlowVarAddStr` takes and releases around the move.
Hence in every schedule of a reading thread and a committing thread that
the reader/writer lock makes possible, the committing thread holds the
write lock and the reading thread no lock whenever a value is moved, and
the committing thread does not hold the write lock whenever the reading
thread looks up or searches. -/
theorem flow_lock_discipline :
    (∀ (f : Flow) (fd : DetectFlowvarData),
      (DetectFlowvarMatchEvents f fd).head? = some FlowEvent.rdlock ∧
      (DetectFlowvarMatchEvents f fd).getLast? = some FlowEvent.unlock ∧
      (DetectFlowvarMatchEvents f fd).count FlowEvent.unlock = 1 ∧
      (DetectFlowvarMatchEvents f fd).count FlowEvent.rdlock = 1 ∧
      disciplined Held.free (DetectFlowvarMatchEvents f fd) = true ∧
      (∀ pre e post, DetectFlowvarMatchEvents f fd = pre ++ e :: post →
        (e = FlowEvent.get fd.idx ∨ e = FlowEvent.search) →
        pre.foldl heldAfter Held.free = Held.read)) ∧
    (∀ (det_ctx : DetectEngineThreadCtx) (p : Packet) (fd : DetectFlowvarData),
      disciplined Held.free (DetectFlowvarPostMatchEvents det_ctx p fd) = true ∧
      (∀ pre i post, DetectFlowvarPostMatchEvents det_ctx p fd = pre ++ FlowEvent.add i :: post →
        pre.foldl heldAfter Held.free = Held.write)) ∧
    (∀ (f : Flow) (fd : DetectFlowvarData) (det_ctx : DetectEngineThreadCtx) (p : Packet)
        (fd2 : DetectFlowvarData) (sched pre post : List (Bool × FlowEvent)) (t : Bool)
        (e : FlowEvent),
      threadEvents true sched = DetectFlowvarMatchEvents f fd →
      threadEvents false sched = DetectFlowvarPostMatchEvents det_ctx p fd2 →
      schedOk Held.free Held.free sched = true →
      sched = pre ++ (t, e) :: post →
      (t = false → (∃ i, e = FlowEvent.add i) →
        heldBy false pre = Held.write ∧ heldBy true pre = Held.free) ∧
      (t = true → (e = FlowEvent.get fd.idx ∨ e = FlowEvent.search) →
        heldBy true pre = Held.read ∧ heldBy false pre ≠ Held.write)) := by
  refine ⟨?_, ?_, ?_⟩
  · intro f fd
    obtain ⟨hd, hnw, hh, hl, hcu, hcr⟩ := DetectFlowvarMatchEvents_disciplined f fd
    refine ⟨hh, hl, hcu, hcr, hd, ?_⟩
    intro pre e post hsplit hev
    have hd2 := hd
    rw [hsplit] at hd2
    have ha := disciplined_split _ _ _ _ hd2
    have hne : pre.foldl heldAfter Held.free ≠ Held.free := by
      rcases hev with rfl | rfl <;> simpa [allowed] using ha
    have hnw2 : pre.foldl heldAfter Held.free ≠ Held.write := by
      apply foldl_heldAfter_ne_write _ _ (fun h => Held.noConfusion h)
      intro e1 he1
      apply hnw
      rw [hsplit]
      exact List.mem_append_left _ he1
    cases hh2 : pre.foldl heldAfter Held.free with
    | free => exact absurd hh2 hne
    | read => rfl
    | write => exact absurd hh2 hnw2
  · intro det_ctx p fd
    have hd := DetectFlowvarPostMatchEvents_disciplined det_ctx p fd
    refine ⟨hd, ?_⟩
    intro pre i post hsplit
    rw [hsplit] at hd
    have ha := disciplined_split _ _ _ _ hd
    simpa [allowed] using ha
  · intro f fd det_ctx p fd2 sched pre post t e hr hw hok hs
    exact flow_lock_exclusion f fd det_ctx p fd2 sched pre post t e hr hw hok hs

/-- Witness for C39: in the schedule where the commit of variable 7 comes
before the read, the committing thread holds the write lock and the reading
thread nothing when the value is moved; a schedule in which the reading
thread takes its lock between the write lock and the move is not possible. -/
theorem flow_lock_discipline_witness :
    (heldBy false [(false, FlowEvent.wrlock)] = Held.write ∧
      heldBy true [(false, FlowEvent.wrlock)] = Held.free) ∧
    DetectFlowvarMatchEvents exampleFlow exampleFlowvarData =
      [FlowEvent.rdlock, FlowEvent.get 7, FlowEvent.search, FlowEvent.unlock] ∧
    DetectFlowvarPostMatchEvents examplePending examplePacket exampleFlowvarData =
      [FlowEvent.wrlock, FlowEvent.add 7, FlowEvent.unlock] ∧
    schedOk Held.free Held.free
      [(false, FlowEvent.wrlock), (true, FlowEvent.rdlock), (false, FlowEvent.add 7),
       (false, FlowEvent.unlock), (true, FlowEvent.get 7), (true, FlowEvent.search),
       (true, FlowEvent.unlock)] = false :=
  ⟨(flow_lock_discipline.2.2 exampleFlow exampleFlowvarData examplePending examplePacket
      exampleFlowvarData exampleSchedule [(false, FlowEvent.wrlock)]
      [(false, FlowEvent.unlock), (true, FlowEvent.rdlock), (true, FlowEvent.get 7),
       (true, FlowEvent.search), (true, FlowEvent.unlock)]
      false (FlowEvent.add 7) (by decide) (by decide) (by decide) rfl).1 rfl ⟨7, rfl⟩,
   by decide, by decide, by decide⟩
/-! ## `DetectIsdataatSetup`: the list chosen in a DCERPC signature (C15) -/

end Suricata
